import Mathlib

/-!
# go-isaac: a shallow embedding of the ISAAC / ISAAC64 generators

The Go package keeps, per generator, two arrays of 256 machine words
(`randrsl`, `randmem`), a cursor `randcnt` and three accumulators `aa`, `bb`,
`cc`.  Machine words are modelled as natural numbers and every operation that
can overflow is reduced modulo `2^32` (resp. `2^64`) explicitly.  A Go value of
type `uint8` is a `Fin 256`, whose addition wraps exactly like the Go one.
A run-time panic (index out of range) is the value `none`.
-/

namespace GoIsaac

/-! ## Arrays, indices and loops -/

/-- The Go array types `[256]uint32` and `[256]uint64`. -/
abbrev Words := Mathlib.Vector Nat 256

/-- The array `[256]uintN{}` whose words are all zero. -/
def Words.zero : Words := Mathlib.Vector.replicate 256 0

/-- The Go conversion `uint8(n)`. -/
def u8 (n : Nat) : Fin 256 := ⟨n % 256, Nat.mod_lt n (by decide)⟩

/-- The Go index expression `x & 255`, which always fits the array. -/
def and255 (x : Nat) : Fin 256 := ⟨x &&& 255, Nat.lt_succ_of_le Nat.and_le_right⟩

/-- The index `i + j` of the loops `for i := 0; i < 256; i += 8` of `randInit`,
in their iteration number `k` (so `i = 8 * k`) and for `j` from 0 to 7. -/
def idx8 (k : Fin 32) (j : Fin 8) : Fin 256 := ⟨8 * k.val + j.val, by omega⟩

/-- A counted loop: runs `body 0`, `body 1`, ..., `body (n - 1)` in this order. -/
def forLoop {α : Type} : (n : Nat) → (Fin n → α → α) → α → α
  | 0, _, init => init
  | m + 1, body, init => body (Fin.last m) (forLoop m (fun k => body k.castSucc) init)

/-- The eight working registers `a, b, c, d, e, f, g, h` of `randInit`. -/
structure Regs where
  a : Nat
  b : Nat
  c : Nat
  d : Nat
  e : Nat
  f : Nat
  g : Nat
  h : Nat
deriving DecidableEq, Repr

/-- The loop-carried variables of a permutation pass: the two slices `mm`
(over `randmem`) and `r` (over `randrsl`) and the registers `a`, `b`. -/
structure Pass where
  mm : Words
  r : Words
  a : Nat
  b : Nat
deriving DecidableEq

/-! ## `common.go` -/

/-- The constant `uintMax = 1 << 63`. -/
def uintMax : Nat := 1 <<< 63

/-- The constant `uintMask = uintMax - 1`. -/
def uintMask : Nat := uintMax - 1

/-- The Go type `uint8` of the bytes of a seed. -/
abbrev Byte := Fin 256

/-- The function `unsafeCopy`: `size` times, store the byte under `src` at
`dst` and advance both pointers by one.  A pointer is modelled by the bytes of
the object it points into, from the pointed byte on; leaving the object is
undefined behaviour, the value `none`.  The result is the memory under `dst`
after the copy. -/
def unsafeCopy : List Byte → List Byte → Nat → Option (List Byte)
  | dst, _, 0 => some dst
  | _ :: dst, b :: src, size + 1 => (unsafeCopy dst src size).map (fun m => b :: m)
  | _, _, _ + 1 => none

/-- The byte order of the host, which fixes how a word lies in memory. -/
inductive ByteOrder where
  | little
  | big
deriving DecidableEq, Repr

/-- The `w` bytes a word `x` occupies in memory, lowest address first. -/
def wordBytes (bo : ByteOrder) (w x : Nat) : List Byte :=
  let le := (List.range w).map (fun j => u8 (x >>> (8 * j)))
  match bo with
  | .little => le
  | .big => le.reverse

/-- The word held by the bytes `bs` (lowest address first). -/
def bytesWord (bo : ByteOrder) (bs : List Byte) : Nat :=
  match bo with
  | .little => bs.foldr (fun b acc => b.val + 256 * acc) 0
  | .big => bs.foldl (fun acc b => 256 * acc + b.val) 0

/-- The memory occupied by an array of 256 words of `w` bytes each. -/
def Words.toBytes (bo : ByteOrder) (w : Nat) (v : Words) : List Byte :=
  v.toList.flatMap (wordBytes bo w)

/-- The array of 256 words of `w` bytes each found in the memory `mem`. -/
def Words.ofBytes (bo : ByteOrder) (w : Nat) (mem : List Byte) : Words :=
  Mathlib.Vector.ofFn (fun i : Fin 256 => bytesWord bo ((mem.drop (w * i.val)).take w))

/-- The Go conversion `int64(x)` of a `uint64`. -/
def toInt64 (x : Nat) : Int :=
  if x % 2 ^ 64 < 2 ^ 63 then ((x % 2 ^ 64 : Nat) : Int) else ((x % 2 ^ 64 : Nat) : Int) - 2 ^ 64

/-- The Go conversion `int32(x)` of an `int64`. -/
def toInt32 (x : Int) : Int :=
  if x % 2 ^ 32 < 2 ^ 31 then x % 2 ^ 32 else x % 2 ^ 32 - 2 ^ 32

/-- The Go conversions `int(uint(x) << 1 >> 1)` of a `uint64` on a host whose
`int` has `bits` bits. -/
def toIntShift (bits x : Nat) : Int :=
  let u := x % 2 ^ bits
  let u := ((u <<< 1) % 2 ^ bits) >>> 1
  if u < 2 ^ (bits - 1) then (u : Int) else (u : Int) - 2 ^ bits

/-! ## 64-bit word arithmetic -/

namespace U64

/-- Addition of two `uint64`. -/
def add (x y : Nat) : Nat := (x + y) % 2 ^ 64

/-- Subtraction of two `uint64`, wrapping around below zero. -/
def sub (x y : Nat) : Nat := (x % 2 ^ 64 + (2 ^ 64 - y % 2 ^ 64)) % 2 ^ 64

/-- Left shift `x << k` of a `uint64`: the bits shifted out are lost. -/
def shl (x k : Nat) : Nat := (x <<< k) % 2 ^ 64

/-- Right shift `x >> k` of a `uint64`. -/
def shr (x k : Nat) : Nat := x >>> k

/-- Bitwise exclusive or `x ^ y`. -/
def xor (x y : Nat) : Nat := x ^^^ y

/-- Bitwise complement `^x` of a `uint64`. -/
def not (x : Nat) : Nat := (2 ^ 64 - 1) - x % 2 ^ 64

end U64

/-! ## ISAAC64 (`isaac64.go`) -/

/-- The Go struct `Isaac64`. -/
structure Isaac64 where
  randrsl : Words
  randmem : Words
  randcnt : Nat
  aa : Nat
  bb : Nat
  cc : Nat
deriving DecidableEq

/-- `NewIsaac64`: all words, the cursor and the accumulators are zero. -/
def NewIsaac64 : Isaac64 :=
  { randmem := Words.zero, randrsl := Words.zero, randcnt := 0, aa := 0, bb := 0, cc := 0 }

namespace Isaac64

/-- One iteration of the loop of `isaac64`, for the loop counter `ii`:
the four unrolled lanes at `i = uint8(ii)`, `i+1`, `i+2`, `i+3`. -/
def isaac64Block (ii : Nat) (p : Pass) : Pass :=
  let i : Fin 256 := u8 ii
  let mm := p.mm
  let r := p.r
  let a := p.a
  let b := p.b
  -- lane 0
  let x := mm.get i
  let a := U64.add (U64.not (U64.xor a (U64.shl a 21))) (mm.get (i + 128))
  let mm := mm.set i (U64.add (U64.add (mm.get (and255 (U64.shr x 3))) a) b)
  let r := r.set i (U64.add (mm.get (and255 (U64.shr (mm.get i) 11))) x)
  let b := r.get i
  -- lane 1
  let x := mm.get (i + 1)
  let a := U64.add (U64.xor a (U64.shr a 5)) (mm.get (i + 129))
  let mm := mm.set (i + 1) (U64.add (U64.add (mm.get (and255 (U64.shr x 3))) a) b)
  let r := r.set (i + 1) (U64.add (mm.get (and255 (U64.shr (mm.get (i + 1)) 11))) x)
  let b := r.get (i + 1)
  -- lane 2
  let x := mm.get (i + 2)
  let a := U64.add (U64.xor a (U64.shl a 12)) (mm.get (i + 130))
  let mm := mm.set (i + 2) (U64.add (U64.add (mm.get (and255 (U64.shr x 3))) a) b)
  let r := r.set (i + 2) (U64.add (mm.get (and255 (U64.shr (mm.get (i + 2)) 11))) x)
  let b := r.get (i + 2)
  -- lane 3
  let x := mm.get (i + 3)
  let a := U64.add (U64.xor a (U64.shr a 33)) (mm.get (i + 131))
  let mm := mm.set (i + 3) (U64.add (U64.add (mm.get (and255 (U64.shr x 3))) a) b)
  let r := r.set (i + 3) (U64.add (mm.get (and255 (U64.shr (mm.get (i + 3)) 11))) x)
  let b := r.get (i + 3)
  { mm := mm, r := r, a := a, b := b }

/-- The method `isaac64`: one pass of the mixing permutation. -/
def isaac64 (ctx : Isaac64) : Isaac64 :=
  let cc := U64.add ctx.cc 1
  let p := forLoop 64 (fun k => isaac64Block (4 * k.val))
    { mm := ctx.randmem, r := ctx.randrsl, a := ctx.aa, b := U64.add ctx.bb cc }
  { ctx with randmem := p.mm, randrsl := p.r, cc := cc, bb := p.b, aa := p.a }

/-- The constant every register of `randInit` starts from. -/
def golden : Nat := 0x9e3779b97f4a7c13

/-- The body of the `// scramble` loop of `randInit`. -/
def scrambleRound : Regs → Regs
  | ⟨a, b, c, d, e, f, g, h⟩ =>
    let a := U64.sub a e
    let f := U64.xor f (U64.shr h 9)
    let h := U64.add h a
    let b := U64.sub b f
    let g := U64.xor g (U64.shl a 9)
    let a := U64.add a b
    let c := U64.sub c g
    let h := U64.xor h (U64.shr b 23)
    let b := U64.add b c
    let d := U64.sub d h
    let a := U64.xor a (U64.shl c 15)
    let c := U64.add c d
    let e := U64.sub e a
    let b := U64.xor b (U64.shr d 14)
    let d := U64.add d e
    let f := U64.sub f b
    let c := U64.xor c (U64.shl e 20)
    let e := U64.add e f
    let g := U64.sub g c
    let d := U64.xor d (U64.shr f 17)
    let f := U64.add f g
    let h := U64.sub h d
    let e := U64.xor e (U64.shl g 14)
    let g := U64.add g h
    ⟨a, b, c, d, e, f, g, h⟩

/-- The body of the first seeded loop of `randInit` (`// initialize using
seed`) at `i = 8 * k`: add eight words of `randrsl`, mix, store into `randmem`. -/
def seedPass1 (k : Fin 32) : Regs × Isaac64 → Regs × Isaac64
  | (⟨a, b, c, d, e, f, g, h⟩, ctx) =>
    let a := U64.add a (ctx.randrsl.get (idx8 k 0))
    let b := U64.add b (ctx.randrsl.get (idx8 k 1))
    let c := U64.add c (ctx.randrsl.get (idx8 k 2))
    let d := U64.add d (ctx.randrsl.get (idx8 k 3))
    let e := U64.add e (ctx.randrsl.get (idx8 k 4))
    let f := U64.add f (ctx.randrsl.get (idx8 k 5))
    let g := U64.add g (ctx.randrsl.get (idx8 k 6))
    let h := U64.add h (ctx.randrsl.get (idx8 k 7))
    -- mix
    let a := U64.sub a e
    let f := U64.xor f (U64.shr h 9)
    let h := U64.add h a
    let b := U64.sub b f
    let g := U64.xor g (U64.shl a 9)
    let a := U64.add a b
    let c := U64.sub c g
    let h := U64.xor h (U64.shr b 23)
    let b := U64.add b c
    let d := U64.sub d h
    let a := U64.xor a (U64.shl c 15)
    let c := U64.add c d
    let e := U64.sub e a
    let b := U64.xor b (U64.shr d 14)
    let d := U64.add d e
    let f := U64.sub f b
    let c := U64.xor c (U64.shl e 20)
    let e := U64.add e f
    let g := U64.sub g c
    let d := U64.xor d (U64.shr f 17)
    let f := U64.add f g
    let h := U64.sub h d
    let e := U64.xor e (U64.shl g 14)
    let g := U64.add g h
    let m := ctx.randmem.set (idx8 k 0) a
    let m := m.set (idx8 k 1) b
    let m := m.set (idx8 k 2) c
    let m := m.set (idx8 k 3) d
    let m := m.set (idx8 k 4) e
    let m := m.set (idx8 k 5) f
    let m := m.set (idx8 k 6) g
    let m := m.set (idx8 k 7) h
    (⟨a, b, c, d, e, f, g, h⟩, { ctx with randmem := m })

/-- The body of the `// second pass` loop of `randInit` at `i = 8 * k`: add
eight words of `randmem`, mix, store back into `randmem`. -/
def seedPass2 (k : Fin 32) : Regs × Isaac64 → Regs × Isaac64
  | (⟨a, b, c, d, e, f, g, h⟩, ctx) =>
    let a := U64.add a (ctx.randmem.get (idx8 k 0))
    let b := U64.add b (ctx.randmem.get (idx8 k 1))
    let c := U64.add c (ctx.randmem.get (idx8 k 2))
    let d := U64.add d (ctx.randmem.get (idx8 k 3))
    let e := U64.add e (ctx.randmem.get (idx8 k 4))
    let f := U64.add f (ctx.randmem.get (idx8 k 5))
    let g := U64.add g (ctx.randmem.get (idx8 k 6))
    let h := U64.add h (ctx.randmem.get (idx8 k 7))
    -- mix
    let a := U64.sub a e
    let f := U64.xor f (U64.shr h 9)
    let h := U64.add h a
    let b := U64.sub b f
    let g := U64.xor g (U64.shl a 9)
    let a := U64.add a b
    let c := U64.sub c g
    let h := U64.xor h (U64.shr b 23)
    let b := U64.add b c
    let d := U64.sub d h
    let a := U64.xor a (U64.shl c 15)
    let c := U64.add c d
    let e := U64.sub e a
    let b := U64.xor b (U64.shr d 14)
    let d := U64.add d e
    let f := U64.sub f b
    let c := U64.xor c (U64.shl e 20)
    let e := U64.add e f
    let g := U64.sub g c
    let d := U64.xor d (U64.shr f 17)
    let f := U64.add f g
    let h := U64.sub h d
    let e := U64.xor e (U64.shl g 14)
    let g := U64.add g h
    let m := ctx.randmem.set (idx8 k 0) a
    let m := m.set (idx8 k 1) b
    let m := m.set (idx8 k 2) c
    let m := m.set (idx8 k 3) d
    let m := m.set (idx8 k 4) e
    let m := m.set (idx8 k 5) f
    let m := m.set (idx8 k 6) g
    let m := m.set (idx8 k 7) h
    (⟨a, b, c, d, e, f, g, h⟩, { ctx with randmem := m })

/-- The body of the loop of the `else` branch of `randInit` (no seed) at
`i = 8 * k`: mix and store into `randmem`. -/
def noSeedPass (k : Fin 32) : Regs × Isaac64 → Regs × Isaac64
  | (⟨a, b, c, d, e, f, g, h⟩, ctx) =>
    -- mix
    let a := U64.sub a e
    let f := U64.xor f (U64.shr h 9)
    let h := U64.add h a
    let b := U64.sub b f
    let g := U64.xor g (U64.shl a 9)
    let a := U64.add a b
    let c := U64.sub c g
    let h := U64.xor h (U64.shr b 23)
    let b := U64.add b c
    let d := U64.sub d h
    let a := U64.xor a (U64.shl c 15)
    let c := U64.add c d
    let e := U64.sub e a
    let b := U64.xor b (U64.shr d 14)
    let d := U64.add d e
    let f := U64.sub f b
    let c := U64.xor c (U64.shl e 20)
    let e := U64.add e f
    let g := U64.sub g c
    let d := U64.xor d (U64.shr f 17)
    let f := U64.add f g
    let h := U64.sub h d
    let e := U64.xor e (U64.shl g 14)
    let g := U64.add g h
    let m := ctx.randmem.set (idx8 k 0) a
    let m := m.set (idx8 k 1) b
    let m := m.set (idx8 k 2) c
    let m := m.set (idx8 k 3) d
    let m := m.set (idx8 k 4) e
    let m := m.set (idx8 k 5) f
    let m := m.set (idx8 k 6) g
    let m := m.set (idx8 k 7) h
    (⟨a, b, c, d, e, f, g, h⟩, { ctx with randmem := m })

/-- The method `randInit`: scramble the registers, fill `randmem` (from the
seed held in `randrsl` when `flag` is set), run one pass and set the cursor. -/
def randInit (flag : Bool) (ctx : Isaac64) : Isaac64 :=
  let v : Regs := ⟨golden, golden, golden, golden, golden, golden, golden, golden⟩
  let v := forLoop 4 (fun _ => scrambleRound) v
  let filled :=
    if flag then
      forLoop 32 seedPass2 (forLoop 32 seedPass1 (v, ctx))
    else
      forLoop 32 noSeedPass (v, ctx)
  { isaac64 filled.2 with randcnt := 256 }

/-- The method `next`: hand out the next word of the batch, refilling the
batch by one pass when the cursor is zero.  Reading `randrsl` past its end
is a panic, the value `none`. -/
def next (ctx : Isaac64) : Option (Nat × Isaac64) :=
  if ctx.randcnt = 0 then
    let ctx := isaac64 ctx
    let ctx := { ctx with randcnt := 255 }
    some (ctx.randrsl.get 255, ctx)
  else
    let ctx := { ctx with randcnt := ctx.randcnt - 1 }
    if h : ctx.randcnt < 256 then some (ctx.randrsl.get ⟨ctx.randcnt, h⟩, ctx) else none

/-- The method `Seed`; `seed` is an `int64`. -/
def Seed (seed : Int) (ctx : Isaac64) : Isaac64 :=
  randInit true { ctx with randrsl := ctx.randrsl.set 0 (seed % 2 ^ 64).toNat }

/-- The method `SeedBytes`.  Taking `&seed[0]` of an empty slice is a panic,
the value `none`. -/
def SeedBytes (bo : ByteOrder) (seed : List Byte) (ctx : Isaac64) : Option Isaac64 :=
  let seed := if seed.length > 2048 then seed.take 2048 else seed
  match seed with
  | [] => none
  | _ :: _ =>
    match unsafeCopy (ctx.randrsl.toBytes bo 8) seed seed.length with
    | none => none
    | some mem => some (randInit true { ctx with randrsl := Words.ofBytes bo 8 mem })

/-- The method `SeedString`; a Go string is the sequence of its bytes. -/
def SeedString (bo : ByteOrder) (seed : List Byte) (ctx : Isaac64) : Option Isaac64 :=
  SeedBytes bo seed ctx

/-- The method `Uint64`. -/
def Uint64 (ctx : Isaac64) : Option (Nat × Isaac64) :=
  next ctx

/-- The method `Uint32`. -/
def Uint32 (ctx : Isaac64) : Option (Nat × Isaac64) :=
  (next ctx).map (fun x => (x.1 % 2 ^ 32, x.2))

/-- The method `Int63`. -/
def Int63 (ctx : Isaac64) : Option (Int × Isaac64) :=
  (Uint64 ctx).map (fun x => (toInt64 (x.1 &&& uintMask), x.2))

/-- The method `Int31`. -/
def Int31 (ctx : Isaac64) : Option (Int × Isaac64) :=
  (Int63 ctx).map (fun x => (toInt32 (Int.shiftRight x.1 32), x.2))

/-- The method `Int`, on a host whose `int` has `bits` bits. -/
def Int (bits : Nat) (ctx : Isaac64) : Option (Int × Isaac64) :=
  (Uint64 ctx).map (fun x => (toIntShift bits x.1, x.2))

end Isaac64

/-! ## 32-bit word arithmetic -/

namespace U32

/-- Addition of two `uint32`. -/
def add (x y : Nat) : Nat := (x + y) % 2 ^ 32

/-- Left shift `x << k` of a `uint32`: the bits shifted out are lost. -/
def shl (x k : Nat) : Nat := (x <<< k) % 2 ^ 32

/-- Right shift `x >> k` of a `uint32`. -/
def shr (x k : Nat) : Nat := x >>> k

/-- Bitwise exclusive or `x ^ y`. -/
def xor (x y : Nat) : Nat := x ^^^ y

end U32

/-! ## ISAAC (`isaac.go`) -/

/-- The Go struct `Isaac`. -/
structure Isaac where
  randrsl : Words
  randmem : Words
  randcnt : Nat
  aa : Nat
  bb : Nat
  cc : Nat
deriving DecidableEq

/-- `NewIsaac`: all words, the cursor and the accumulators are zero. -/
def NewIsaac : Isaac :=
  { randmem := Words.zero, randrsl := Words.zero, randcnt := 0, aa := 0, bb := 0, cc := 0 }

namespace Isaac

/-- One iteration of the loop of `isaac`, for the loop counter `ii`:
the four unrolled lanes at `i = uint8(ii)`, `i+1`, `i+2`, `i+3`. -/
def isaacBlock (ii : Nat) (p : Pass) : Pass :=
  let i : Fin 256 := u8 ii
  let mm := p.mm
  let r := p.r
  let a := p.a
  let b := p.b
  -- lane 0
  let x := mm.get i
  let a := U32.add (U32.xor a (U32.shl a 13)) (mm.get (i + 128))
  let mm := mm.set i (U32.add (U32.add (mm.get (and255 (U32.shr x 2))) a) b)
  let r := r.set i (U32.add (mm.get (and255 (U32.shr (mm.get i) 10))) x)
  let b := r.get i
  -- lane 1
  let x := mm.get (i + 1)
  let a := U32.add (U32.xor a (U32.shr a 6)) (mm.get (i + 129))
  let mm := mm.set (i + 1) (U32.add (U32.add (mm.get (and255 (U32.shr x 2))) a) b)
  let r := r.set (i + 1) (U32.add (mm.get (and255 (U32.shr (mm.get (i + 1)) 10))) x)
  let b := r.get (i + 1)
  -- lane 2
  let x := mm.get (i + 2)
  let a := U32.add (U32.xor a (U32.shl a 2)) (mm.get (i + 130))
  let mm := mm.set (i + 2) (U32.add (U32.add (mm.get (and255 (U32.shr x 2))) a) b)
  let r := r.set (i + 2) (U32.add (mm.get (and255 (U32.shr (mm.get (i + 2)) 10))) x)
  let b := r.get (i + 2)
  -- lane 3
  let x := mm.get (i + 3)
  let a := U32.add (U32.xor a (U32.shr a 16)) (mm.get (i + 131))
  let mm := mm.set (i + 3) (U32.add (U32.add (mm.get (and255 (U32.shr x 2))) a) b)
  let r := r.set (i + 3) (U32.add (mm.get (and255 (U32.shr (mm.get (i + 3)) 10))) x)
  let b := r.get (i + 3)
  { mm := mm, r := r, a := a, b := b }

/-- The method `isaac`: one pass of the mixing permutation. -/
def isaac (ctx : Isaac) : Isaac :=
  let cc := U32.add ctx.cc 1
  let p := forLoop 64 (fun k => isaacBlock (4 * k.val))
    { mm := ctx.randmem, r := ctx.randrsl, a := ctx.aa, b := U32.add ctx.bb cc }
  { ctx with randmem := p.mm, randrsl := p.r, cc := cc, bb := p.b, aa := p.a }

/-- The constant every register of `randInit` starts from. -/
def golden : Nat := 0x9e3779b9

/-- The body of the `// scramble` loop of `randInit`. -/
def scrambleRound : Regs → Regs
  | ⟨a, b, c, d, e, f, g, h⟩ =>
    let a := U32.xor a (U32.shl b 11)
    let d := U32.add d a
    let b := U32.add b c
    let b := U32.xor b (U32.shr c 2)
    let e := U32.add e b
    let c := U32.add c d
    let c := U32.xor c (U32.shl d 8)
    let f := U32.add f c
    let d := U32.add d e
    let d := U32.xor d (U32.shr e 16)
    let g := U32.add g d
    let e := U32.add e f
    let e := U32.xor e (U32.shl f 10)
    let h := U32.add h e
    let f := U32.add f g
    let f := U32.xor f (U32.shr g 4)
    let a := U32.add a f
    let g := U32.add g h
    let g := U32.xor g (U32.shl h 8)
    let b := U32.add b g
    let h := U32.add h a
    let h := U32.xor h (U32.shr a 9)
    let c := U32.add c h
    let a := U32.add a b
    ⟨a, b, c, d, e, f, g, h⟩

/-- The body of the first seeded loop of `randInit` (`// initialize using
seed`) at `i = 8 * k`: add eight words of `randrsl`, mix, store into `randmem`. -/
def seedPass1 (k : Fin 32) : Regs × Isaac → Regs × Isaac
  | (⟨a, b, c, d, e, f, g, h⟩, ctx) =>
    let a := U32.add a (ctx.randrsl.get (idx8 k 0))
    let b := U32.add b (ctx.randrsl.get (idx8 k 1))
    let c := U32.add c (ctx.randrsl.get (idx8 k 2))
    let d := U32.add d (ctx.randrsl.get (idx8 k 3))
    let e := U32.add e (ctx.randrsl.get (idx8 k 4))
    let f := U32.add f (ctx.randrsl.get (idx8 k 5))
    let g := U32.add g (ctx.randrsl.get (idx8 k 6))
    let h := U32.add h (ctx.randrsl.get (idx8 k 7))
    -- mix
    let a := U32.xor a (U32.shl b 11)
    let d := U32.add d a
    let b := U32.add b c
    let b := U32.xor b (U32.shr c 2)
    let e := U32.add e b
    let c := U32.add c d
    let c := U32.xor c (U32.shl d 8)
    let f := U32.add f c
    let d := U32.add d e
    let d := U32.xor d (U32.shr e 16)
    let g := U32.add g d
    let e := U32.add e f
    let e := U32.xor e (U32.shl f 10)
    let h := U32.add h e
    let f := U32.add f g
    let f := U32.xor f (U32.shr g 4)
    let a := U32.add a f
    let g := U32.add g h
    let g := U32.xor g (U32.shl h 8)
    let b := U32.add b g
    let h := U32.add h a
    let h := U32.xor h (U32.shr a 9)
    let c := U32.add c h
    let a := U32.add a b
    let m := ctx.randmem.set (idx8 k 0) a
    let m := m.set (idx8 k 1) b
    let m := m.set (idx8 k 2) c
    let m := m.set (idx8 k 3) d
    let m := m.set (idx8 k 4) e
    let m := m.set (idx8 k 5) f
    let m := m.set (idx8 k 6) g
    let m := m.set (idx8 k 7) h
    (⟨a, b, c, d, e, f, g, h⟩, { ctx with randmem := m })

/-- The body of the `// second pass` loop of `randInit` at `i = 8 * k`: add
eight words of `randmem`, mix, store back into `randmem`. -/
def seedPass2 (k : Fin 32) : Regs × Isaac → Regs × Isaac
  | (⟨a, b, c, d, e, f, g, h⟩, ctx) =>
    let a := U32.add a (ctx.randmem.get (idx8 k 0))
    let b := U32.add b (ctx.randmem.get (idx8 k 1))
    let c := U32.add c (ctx.randmem.get (idx8 k 2))
    let d := U32.add d (ctx.randmem.get (idx8 k 3))
    let e := U32.add e (ctx.randmem.get (idx8 k 4))
    let f := U32.add f (ctx.randmem.get (idx8 k 5))
    let g := U32.add g (ctx.randmem.get (idx8 k 6))
    let h := U32.add h (ctx.randmem.get (idx8 k 7))
    -- mix
    let a := U32.xor a (U32.shl b 11)
    let d := U32.add d a
    let b := U32.add b c
    let b := U32.xor b (U32.shr c 2)
    let e := U32.add e b
    let c := U32.add c d
    let c := U32.xor c (U32.shl d 8)
    let f := U32.add f c
    let d := U32.add d e
    let d := U32.xor d (U32.shr e 16)
    let g := U32.add g d
    let e := U32.add e f
    let e := U32.xor e (U32.shl f 10)
    let h := U32.add h e
    let f := U32.add f g
    let f := U32.xor f (U32.shr g 4)
    let a := U32.add a f
    let g := U32.add g h
    let g := U32.xor g (U32.shl h 8)
    let b := U32.add b g
    let h := U32.add h a
    let h := U32.xor h (U32.shr a 9)
    let c := U32.add c h
    let a := U32.add a b
    let m := ctx.randmem.set (idx8 k 0) a
    let m := m.set (idx8 k 1) b
    let m := m.set (idx8 k 2) c
    let m := m.set (idx8 k 3) d
    let m := m.set (idx8 k 4) e
    let m := m.set (idx8 k 5) f
    let m := m.set (idx8 k 6) g
    let m := m.set (idx8 k 7) h
    (⟨a, b, c, d, e, f, g, h⟩, { ctx with randmem := m })

/-- The body of the loop of the `else` branch of `randInit` (no seed) at
`i = 8 * k`: mix and store into `randmem`. -/
def noSeedPass (k : Fin 32) : Regs × Isaac → Regs × Isaac
  | (⟨a, b, c, d, e, f, g, h⟩, ctx) =>
    -- mix
    let a := U32.xor a (U32.shl b 11)
    let d := U32.add d a
    let b := U32.add b c
    let b := U32.xor b (U32.shr c 2)
    let e := U32.add e b
    let c := U32.add c d
    let c := U32.xor c (U32.shl d 8)
    let f := U32.add f c
    let d := U32.add d e
    let d := U32.xor d (U32.shr e 16)
    let g := U32.add g d
    let e := U32.add e f
    let e := U32.xor e (U32.shl f 10)
    let h := U32.add h e
    let f := U32.add f g
    let f := U32.xor f (U32.shr g 4)
    let a := U32.add a f
    let g := U32.add g h
    let g := U32.xor g (U32.shl h 8)
    let b := U32.add b g
    let h := U32.add h a
    let h := U32.xor h (U32.shr a 9)
    let c := U32.add c h
    let a := U32.add a b
    let m := ctx.randmem.set (idx8 k 0) a
    let m := m.set (idx8 k 1) b
    let m := m.set (idx8 k 2) c
    let m := m.set (idx8 k 3) d
    let m := m.set (idx8 k 4) e
    let m := m.set (idx8 k 5) f
    let m := m.set (idx8 k 6) g
    let m := m.set (idx8 k 7) h
    (⟨a, b, c, d, e, f, g, h⟩, { ctx with randmem := m })

/-- The method `randInit`: scramble the registers, fill `randmem` (from the
seed held in `randrsl` when `flag` is set), run one pass and set the cursor. -/
def randInit (flag : Bool) (ctx : Isaac) : Isaac :=
  let v : Regs := ⟨golden, golden, golden, golden, golden, golden, golden, golden⟩
  let v := forLoop 4 (fun _ => scrambleRound) v
  let filled :=
    if flag then
      forLoop 32 seedPass2 (forLoop 32 seedPass1 (v, ctx))
    else
      forLoop 32 noSeedPass (v, ctx)
  { isaac filled.2 with randcnt := 256 }

/-- The method `next`: hand out the next word of the batch, refilling the
batch by one pass when the cursor is zero.  Reading `randrsl` past its end
is a panic, the value `none`. -/
def next (ctx : Isaac) : Option (Nat × Isaac) :=
  if ctx.randcnt = 0 then
    let ctx := isaac ctx
    let ctx := { ctx with randcnt := 255 }
    some (ctx.randrsl.get 255, ctx)
  else
    let ctx := { ctx with randcnt := ctx.randcnt - 1 }
    if h : ctx.randcnt < 256 then some (ctx.randrsl.get ⟨ctx.randcnt, h⟩, ctx) else none

/-- The method `Seed`; `seed` is an `int64`, its shift is arithmetic. -/
def Seed (seed : Int) (ctx : Isaac) : Isaac :=
  let rsl := ctx.randrsl.set 0 (seed % 2 ^ 32).toNat
  let rsl := rsl.set 1 ((seed >>> 32) % 2 ^ 32).toNat
  randInit true { ctx with randrsl := rsl }

/-- The method `SeedBytes`.  Taking `&seed[0]` of an empty slice is a panic,
the value `none`. -/
def SeedBytes (bo : ByteOrder) (seed : List Byte) (ctx : Isaac) : Option Isaac :=
  let seed := if seed.length > 1024 then seed.take 1024 else seed
  match seed with
  | [] => none
  | _ :: _ =>
    match unsafeCopy (ctx.randrsl.toBytes bo 4) seed seed.length with
    | none => none
    | some mem => some (randInit true { ctx with randrsl := Words.ofBytes bo 4 mem })

/-- The method `SeedString`; a Go string is the sequence of its bytes. -/
def SeedString (bo : ByteOrder) (seed : List Byte) (ctx : Isaac) : Option Isaac :=
  SeedBytes bo seed ctx

/-- The method `Uint32`. -/
def Uint32 (ctx : Isaac) : Option (Nat × Isaac) :=
  next ctx

/-- The method `Uint64`: two draws, the first one in the high half. -/
def Uint64 (ctx : Isaac) : Option (Nat × Isaac) :=
  match next ctx with
  | none => none
  | some (hi, ctx) =>
    match next ctx with
    | none => none
    | some (lo, ctx) => some (((hi <<< 32) % 2 ^ 64) ||| lo, ctx)

/-- The method `Int63`. -/
def Int63 (ctx : Isaac) : Option (Int × Isaac) :=
  (Uint64 ctx).map (fun x => (toInt64 (x.1 &&& uintMask), x.2))

/-- The method `Int31`. -/
def Int31 (ctx : Isaac) : Option (Int × Isaac) :=
  (Int63 ctx).map (fun x => (toInt32 (Int.shiftRight x.1 32), x.2))

/-- The method `Int`, on a host whose `int` has `bits` bits. -/
def Int (bits : Nat) (ctx : Isaac) : Option (Int × Isaac) :=
  (Uint64 ctx).map (fun x => (toIntShift bits x.1, x.2))

end Isaac


/-! ## Auxiliary definitions: lanes, groups, and packed arrays

The unrolled code of `isaac64` is four copies of one lane and the unrolled
code of `randInit` is built from groups of eight loads and stores; the packed
arrays below hold the 256 words of an array in one natural number, which makes
a pass cheap to evaluate. -/

/-- All words of the array fit 64 bits. -/
def Bounded64 (v : Words) : Prop := ∀ i : Fin 256, v.get i < 2 ^ 64

/-- The words of a list packed into one number: word `i` sits at the bits
`64 * i` to `64 * i + 63`. -/
def pack : List Nat → Nat
  | [] => 0
  | w :: t => w + 2 ^ 64 * pack t

/-- The first `n` words of a packed array. -/
def unpack (N : Nat) (n : Nat) : List Nat :=
  (List.range n).map (fun i => (N >>> (64 * i)) % 2 ^ 64)

namespace Packed

/-- Word `i` of a packed array. -/
def get (N i : Nat) : Nat := (N >>> (64 * i)) % 2 ^ 64

/-- The packed array `N` with word `i` replaced by `v`. -/
def set (N i v : Nat) : Nat :=
  N % 2 ^ (64 * i) + 2 ^ (64 * i) * (v + 2 ^ 64 * (N >>> (64 * (i + 1))))

end Packed

/-- The loop-carried variables of a pass, with packed arrays. -/
structure PackedPass where
  mm : Nat
  r : Nat
  a : Nat
  b : Nat

/-- The state of an `Isaac64` without its cursor, with packed arrays. -/
structure PackedState where
  rsl : Nat
  mem : Nat
  aa : Nat
  bb : Nat
  cc : Nat

/-- The eight registers after adding to each, modulo `2 ^ w`, the word
`8 * k + j` of `arr`. -/
def Regs.addWords (w : Nat) (v : Regs) (arr : Words) (k : Fin 32) : Regs :=
  ⟨(v.a + arr.get (idx8 k 0)) % 2 ^ w, (v.b + arr.get (idx8 k 1)) % 2 ^ w,
   (v.c + arr.get (idx8 k 2)) % 2 ^ w, (v.d + arr.get (idx8 k 3)) % 2 ^ w,
   (v.e + arr.get (idx8 k 4)) % 2 ^ w, (v.f + arr.get (idx8 k 5)) % 2 ^ w,
   (v.g + arr.get (idx8 k 6)) % 2 ^ w, (v.h + arr.get (idx8 k 7)) % 2 ^ w⟩

/-- The array `w` after storing the eight registers at `8 * k`, ..., `8 * k + 7`. -/
def Regs.store (v : Regs) (w : Words) (k : Fin 32) : Words :=
  (((((((w.set (idx8 k 0) v.a).set (idx8 k 1) v.b).set (idx8 k 2) v.c).set (idx8 k 3) v.d).set
    (idx8 k 4) v.e).set (idx8 k 5) v.f).set (idx8 k 6) v.g).set (idx8 k 7) v.h

/-- The registers plus eight words of a packed array. -/
def Regs.add64P (v : Regs) (N : Nat) (k : Fin 32) : Regs :=
  ⟨U64.add v.a (Packed.get N (idx8 k 0).val), U64.add v.b (Packed.get N (idx8 k 1).val),
   U64.add v.c (Packed.get N (idx8 k 2).val), U64.add v.d (Packed.get N (idx8 k 3).val),
   U64.add v.e (Packed.get N (idx8 k 4).val), U64.add v.f (Packed.get N (idx8 k 5).val),
   U64.add v.g (Packed.get N (idx8 k 6).val), U64.add v.h (Packed.get N (idx8 k 7).val)⟩

/-- The registers stored into a packed array. -/
def Regs.storeP (v : Regs) (N : Nat) (k : Fin 32) : Nat :=
  Packed.set (Packed.set (Packed.set (Packed.set (Packed.set (Packed.set (Packed.set
    (Packed.set N (idx8 k 0).val v.a) (idx8 k 1).val v.b) (idx8 k 2).val v.c) (idx8 k 3).val v.d)
    (idx8 k 4).val v.e) (idx8 k 5).val v.f) (idx8 k 6).val v.g) (idx8 k 7).val v.h

/-- All eight registers fit 64 bits. -/
def Regs.Bounded64 (v : Regs) : Prop :=
  v.a < 2 ^ 64 ∧ v.b < 2 ^ 64 ∧ v.c < 2 ^ 64 ∧ v.d < 2 ^ 64 ∧
    v.e < 2 ^ 64 ∧ v.f < 2 ^ 64 ∧ v.g < 2 ^ 64 ∧ v.h < 2 ^ 64

/-- One lane of a pass at position `i`, for words of `w` bits, the index
shifts `sa` and `sb` and the lane operator `op`. -/
def lane (w sa sb : Nat) (op : Nat → Nat) (i : Fin 256) (p : Pass) : Pass :=
  let x := p.mm.get i
  let a := (op p.a + p.mm.get (i + 128)) % 2 ^ w
  let mm := p.mm.set i (((p.mm.get (and255 (x >>> sa)) + a) % 2 ^ w + p.b) % 2 ^ w)
  let r := p.r.set i ((mm.get (and255 (mm.get i >>> sb)) + x) % 2 ^ w)
  { mm := mm, r := r, a := a, b := r.get i }

/-- One iteration of the loop of a pass, as four lanes with the operators `ops`. -/
def laneBlock (w sa sb : Nat) (ops : Fin 4 → Nat → Nat) (ii : Nat) (p : Pass) : Pass :=
  lane w sa sb (ops 3) (u8 ii + 3) (lane w sa sb (ops 2) (u8 ii + 2)
    (lane w sa sb (ops 1) (u8 ii + 1) (lane w sa sb (ops 0) (u8 ii) p)))

/-- The first seeded loop of `randInit` on the registers and the mixing array
alone, with the mixing network `mix` and the seed `rsl`. -/
def fill1 (w : Nat) (mix : Regs → Regs) (rsl : Words) (k : Fin 32) (x : Regs × Words) :
    Regs × Words :=
  (mix (x.1.addWords w rsl k), (mix (x.1.addWords w rsl k)).store x.2 k)

/-- The second seeded loop of `randInit` on the registers and the mixing array alone. -/
def fill2 (w : Nat) (mix : Regs → Regs) (k : Fin 32) (x : Regs × Words) : Regs × Words :=
  (mix (x.1.addWords w x.2 k), (mix (x.1.addWords w x.2 k)).store x.2 k)

/-- The unseeded loop of `randInit` on the registers and the mixing array alone. -/
def fill0 (mix : Regs → Regs) (k : Fin 32) (x : Regs × Words) : Regs × Words :=
  (mix x.1, (mix x.1).store x.2 k)

/-- The lane operators of `isaac`, by lane number. -/
def Isaac.laneOp : Fin 4 → Nat → Nat
  | 0, a => U32.xor a (U32.shl a 13)
  | 1, a => U32.xor a (U32.shr a 6)
  | 2, a => U32.xor a (U32.shl a 2)
  | 3, a => U32.xor a (U32.shr a 16)

namespace Isaac64

/-- The lane operators of `isaac64`, by lane number. -/
def laneOp : Fin 4 → Nat → Nat
  | 0, a => U64.not (U64.xor a (U64.shl a 21))
  | 1, a => U64.xor a (U64.shr a 5)
  | 2, a => U64.xor a (U64.shl a 12)
  | 3, a => U64.xor a (U64.shr a 33)

/-- One lane of `isaac64` on packed arrays. -/
def laneP (op : Nat → Nat) (i : Fin 256) (p : PackedPass) : PackedPass :=
  let x := Packed.get p.mm i.val
  let a := U64.add (op p.a) (Packed.get p.mm (i + 128).val)
  let y := U64.add (U64.add (Packed.get p.mm (and255 (U64.shr x 3)).val) a) p.b
  let mm := Packed.set p.mm i.val y
  let b := U64.add (Packed.get mm (and255 (U64.shr y 11)).val) x
  { mm := mm, r := Packed.set p.r i.val b, a := a, b := b }

/-- One iteration of the loop of `isaac64` on packed arrays. -/
def blockP (ii : Nat) (p : PackedPass) : PackedPass :=
  laneP (laneOp 3) (u8 ii + 3) (laneP (laneOp 2) (u8 ii + 2)
    (laneP (laneOp 1) (u8 ii + 1) (laneP (laneOp 0) (u8 ii) p)))

/-- The method `isaac64` on packed arrays. -/
def isaac64P (s : PackedState) : PackedState :=
  let cc := U64.add s.cc 1
  let p := forLoop 64 (fun k => blockP (4 * k.val))
    { mm := s.mem, r := s.rsl, a := s.aa, b := U64.add s.bb cc }
  { rsl := p.r, mem := p.mm, aa := p.a, bb := p.b, cc := cc }

/-- The seeded branch of `randInit` followed by the pass, on packed arrays. -/
def randInitP (s : PackedState) : PackedState :=
  let v : Regs := ⟨golden, golden, golden, golden, golden, golden, golden, golden⟩
  let v := forLoop 4 (fun _ => scrambleRound) v
  let f1 := forLoop 32
    (fun k (x : Regs × Nat) =>
      let v := scrambleRound (x.1.add64P s.rsl k)
      (v, v.storeP x.2 k)) (v, s.mem)
  let f2 := forLoop 32
    (fun k (x : Regs × Nat) =>
      let v := scrambleRound (x.1.add64P x.2 k)
      (v, v.storeP x.2 k)) f1
  isaac64P { s with mem := f2.2 }

/-- The packed variables of a pass stand for the variables of the pass. -/
def PassSim (p : Pass) (P : PackedPass) : Prop :=
  Bounded64 p.mm ∧ Bounded64 p.r ∧ P.mm = pack p.mm.toList ∧ P.r = pack p.r.toList ∧
    P.a = p.a ∧ P.b = p.b

/-- The packed state stands for the generator state. -/
def Sim (s : Isaac64) (P : PackedState) : Prop :=
  Bounded64 s.randrsl ∧ Bounded64 s.randmem ∧ P.rsl = pack s.randrsl.toList ∧
    P.mem = pack s.randmem.toList ∧ P.aa = s.aa ∧ P.bb = s.bb ∧ P.cc = s.cc

end Isaac64

/-- The reference output `vectors` of `TestIsaac64Vectors` (`isaac64_test.go`). -/
def vectors : List Nat :=
  [
    0x12a8f216af9418c2, 0xd4490ad526f14431, 0xb49c3b3995091a36, 0x5b45e522e4b1b4ef,
    0xa1e9300cd8520548, 0x49787fef17af9924, 0x03219a39ee587a30, 0xebe9ea2adf4321c7,
    0x804456af10f5fb53, 0xd74bbe77e6116ac7, 0x7c0828dd624ec390, 0x14a195640116f336,
    0x2eab8ca63ce802d7, 0xc6e57a78fbd986e0, 0x58efc10b06a2068d, 0xabeeddb2dde06ff1,
    0x0b090a7560a968e3, 0x2cf9c8ca052f6e9f, 0x116d0016cb948f09, 0xa59e0bd101731a28,
    0x63767572ae3d6174, 0xab4f6451cc1d45ec, 0xc2a1e7b5b459aeb5, 0x2472f6207c2d0484,
    0xe699ed85b0dfb40d, 0xd4347f66ec8941c3, 0xf4d14597e660f855, 0x8b889d624d44885d,
    0x258e5a80c7204c4b, 0xaf0c317d32adaa8a, 0x9c4cd6257c5a3603, 0xeb3593803173e0ce,
    0x36f60e2ba4fa6800, 0x38b6525c21a42b0e, 0xf4f5d05c10cab243, 0xcf3f4688801eb9aa,
    0x1ddc0325259b27de, 0xb9571fa04dc089c8, 0xd7504dfa8816edbb, 0x1fe2cca76517db90,
    0x261e4e4c0a333a9d, 0x219b97e26ffc81bd, 0x66b4835d9eafea22, 0x4cc317fb9cddd023,
    0x50b704cab602c329, 0xedb454e7badc0805, 0x9e17e49642a3e4c1, 0x66c1a2a1a60cd889,
    0x7983eed3740847d5, 0x298af231c85bafab, 0x2680b122baa28d97, 0x734de8181f6ec39a,
    0x53898e4c3910da55, 0x1761f93a44d5aefe, 0xe4dbf0634473f5d2, 0x4ed0fe7e9dc91335,
    0xd18d8549d140caea, 0x1cfc8bed0d681639, 0xca1e3785a9e724e5, 0xb67c1fa481680af8,
    0xdfea21ea9e7557e3, 0xd6b6d0ecc617c699, 0xfa7e393983325753, 0xa09e8c8c35ab96de,
    0x8fe88b57305e2ab6, 0x89039d79d6fc5c5c, 0x9bfb227ebdf4c5ce, 0x7f7cc39420a3a545,
    0x3f6c6af859d80055, 0xc8763c5b08d1908c, 0x469356c504ec9f9d, 0x26e6db8ffdf5adfe,
    0x3a938fee32d29981, 0x2c5e9deb57ef4743, 0x1e99b96e70a9be8b, 0x764dbeae7fa4f3a6,
    0xaac40a2703d9bea0, 0x1a8c1e992b941148, 0x73aa8a564fb7ac9e, 0x604d51b25fbf70e2,
    0xdd69a0d8ab3b546d, 0x65ca5b96b7552210, 0x2fd7e4b9e72cd38c, 0x51d2b1ab2ddfb636,
    0x9d1d84fcce371425, 0xa44cfe79ae538bbe, 0xde68a2355b93cae6, 0x9fc10d0f989993e0,
    0x94ebc8abcfb56dae, 0xd7a023a73260b45c, 0x72c8834a5957b511, 0x8f8419a348f296bf,
    0x1e152328f3318dea, 0x4838d65f6ef6748f, 0xd6bf7baee43cac40, 0x13328503df48229f,
    0x7440fb816508c4fe, 0x9d266d6a1cc0542c, 0x4dda48153c94938a, 0x74c04bf1790c0efe,
    0xe1925c71285279f5, 0x8a8e849eb32781a5, 0x073973751f12dd5e, 0xa319ce15b0b4db31,
    0x6dd856d94d259236, 0x67378d8eccef96cb, 0x9fc477de4ed681da, 0xf3b8b6675a6507ff,
    0xc3a9dc228caac9e9, 0xc37b45b3f8d6f2ba, 0xb559eb1d04e5e932, 0x1b0cab936e65c744,
    0xaf08da9177dda93d, 0xac12fb171817eee7, 0x1fff7ac80904bf45, 0xa9119b60369ffebd,
    0xbfced1b0048eac50, 0xb67b7896167b4c84, 0x9b3cdb65f82ca382, 0xdbc27ab5447822bf,
    0x10dcd78e3851a492, 0xb438c2b67f98e5e9, 0x43954b3252dc25e5, 0xab9090168dd05f34,
    0xce68341f79893389, 0x36833336d068f707, 0xdcdd7d20903d0c25, 0xda3a361b1c5157b1,
    0x7f9d1a2e1ebe1327, 0x5d0a12f27ad310d1, 0x3bc36e078f7515d7, 0x4da8979a0041e8a9,
    0x950113646d1d6e03, 0x7b4a38e32537df62, 0x8a1b083821f40cb4, 0x3d5774a11d31ab39,
    0x7a76956c3eafb413, 0x7f5126dbba5e0ca7, 0x12153635b2c0cf57, 0x7b3f0195fc6f290f,
    0x5544f7d774b14aef, 0x56c074a581ea17fe, 0xe7f28ecd2d49eecd, 0xe479ee5b9930578c,
    0x9ff38fed72e9052f, 0x9f65789a6509a440, 0x0981dcd296a8736d, 0x5873888850659ae7,
    0xc678b6d860284a1c, 0x63e22c147b9c3403, 0x92fae24291f2b3f1, 0x829626e3892d95d7,
    0xcffe1939438e9b24, 0x79999cdff70902cb, 0x8547eddfb81ccb94, 0x7b77497b32503b12,
    0x97fcaacbf030bc24, 0x6ced1983376fa72b, 0x7e75d99d94a70f4d, 0xd2733c4335c6a72f,
    0xdbc0d2b6ab90a559, 0x94628d38d0c20584, 0x64972d68dee33360, 0xb9c11d5b1e43a07e,
    0x2de0966daf2f8b1c, 0x2e18bc1ad9704a68, 0xd4dba84729af48ad, 0xb7a0b174cff6f36e,
    0xe94c39a54a98307f, 0xaa70b5b4f89695a2, 0x3bdbb92c43b17f26, 0xcccb7005c6b9c28d,
    0x18a6a990c8b35ebd, 0xfc7c95d827357afa, 0x1fca8a92fd719f85, 0x1dd01aafcd53486a,
    0x49353fea39ba63b1, 0xf85b2b4fbcde44b7, 0xbe7444e39328a0ac, 0x3e2b8bcbf016d66d,
    0x964e915cd5e2b207, 0x1725cabfcb045b00, 0x7fbf21ec8a1f45ec, 0x11317ba87905e790,
    0x2fe4b17170e59750, 0xe8d9ecbe2cf3d73f, 0xb57d2e985e1419c7, 0x0572b974f03ce0bb,
    0xa8d7e4dab780a08d, 0x4715ed43e8a45c0a, 0xc330de426430f69d, 0x23b70edb1955c4bf,
    0x098954d51fff6580, 0x8107fccf064fcf56, 0x852f54934da55cc9, 0x09c7e552bc76492f,
    0xe9f6760e32cd8021, 0xa3bc941d0a5061cb, 0xba89142e007503b8, 0xdc842b7e2819e230,
    0xbbe83f4ecc2bdecb, 0xcd454f8f19c5126a, 0xc62c58f97dd949bf, 0x693501d628297551,
    0xb9ab4ce57f2d34f3, 0x9255abb50d532280, 0xebfafa33d7254b59, 0xe9f6082b05542e4e,
    0x35dd37d5871448af, 0xb03031a8b4516e84, 0xb3f256d8aca0b0b9, 0x0fd22063edc29fca,
    0xd9a11fbb3d9808e4, 0x3a9bf55ba91f81ca, 0xc8c93882f9475f5f, 0x947ae053ee56e63c,
    0xc7d9f16864a76e94, 0x7bd94e1d8e17debc, 0xd873db391292ed4f, 0x30f5611484119414,
    0x565c31f7de89ea27, 0xd0e4366228b03343, 0x325928ee6e6f8794, 0x6f423357e7c6a9f9,
    0x99170a5dc3115544, 0x59b97885e2f2ea28, 0xbc4097b116c524d2, 0x7a13f18bbedc4ff5,
    0x071582401c38434d, 0xb422061193d6f6a7, 0xb4b81b3fa97511e2, 0x65d34954daf3cebd,
    0xb344c470397bba52, 0xbac7a9a18531294b, 0xecb53939887e8175, 0x565601c0364e3228,
    0xef1955914b609f93, 0x16f50edf91e513af, 0x56963b0dca418fc0, 0xd60f6dcedc314222,
    0x364f6ffa464ee52e, 0x6c3b8e3e336139d3, 0xf943aee7febf21b8, 0x088e049589c432e0,
    0xd49503536abca345, 0x3a6c27934e31188a, 0x957baf61700cff4e, 0x37624ae5a48fa6e9,
    0x501f65edb3034d07, 0x907f30421d78c5de, 0x1a804aadb9cfa741, 0x0ce2a38c344a6eed,
    0xd363eff5f0977996, 0x2cd16e2abd791e33, 0x58627e1a149bba21, 0x7f9b6af1ebf78baf,
    0xd20d8c88c8ffe65f, 0x917f1dd5f8886c61, 0x56986e2ef3ed091b, 0x5fa7867caf35e149,
    0x81a1549fd6573da5, 0x96fbf83a12884624, 0xe728e8c83c334074, 0xf1bcc3d275afe51a,
    0x71f1ce2490d20b07, 0xe6c42178c4bbb92e, 0x0a9c32d5eae45305, 0x0c335248857fa9e7,
    0x142de49fff7a7c3d, 0x64a53dc924fe7ac9, 0x9f6a419d382595f4, 0x150f361dab9dec26,
    0xc61bb3a141e50e8c, 0x2785338347f2ba08, 0x7ca9723fbb2e8988, 0xce2f8642ca0712dc,
    0x59300222b4561e00, 0xc2b5a03f71471a6f, 0xd5f9e858292504d5, 0x65fa4f227a2b6d79,
    0x93cbe0b699c2585d, 0x1d95b0a5fcf90bc6, 0x17efee45b0dee640, 0x9e4c1269baa4bf37,
    0xd79476a84ee20d06, 0x0a56a5f0bfe39272, 0x7eba726d8c94094b, 0x5e5637885f29bc2b,
    0xd586bd01c5c217f6, 0x233003b5a6cfe6ad, 0x24c0e332b70019b0, 0x9da058c67844f20c,
    0xe4d9429322cd065a, 0x1fab64ea29a2ddf7, 0x8af38731c02ba980, 0x7dc7785b8efdfc80,
    0x486289ddcc3d6780, 0x222bbfae61725606, 0x2bc60a63a6f3b3f2, 0x177e00f9fc32f791,
    0x522e23f3925e319e, 0x9c2ed44081ce5fbd, 0x964781ce734b3c84, 0xf05d129681949a4c,
    0x046e3ecaaf453ce9, 0x962aceefa82e1c84, 0xf5b4b0b0d2deeeb4, 0x1af3dbe25d8f45da,
    0xf9f4892ed96bd438, 0xc4c118bfe78feaae, 0x07a69afdcc42261a, 0xf8549e1a3aa5e00d,
    0x2102ae466ebb1148, 0xe87fbb46217a360e, 0x310cb380db6f7503, 0xb5fdfc5d3132c498,
    0xdaf8e9829fe96b5f, 0xcac09afbddd2cdb4, 0xb862225b055b6960, 0x55b6344cf97aafae,
    0xff577222c14f0a3a, 0x4e4b705b92903ba4, 0x730499af921549ff, 0x13ae978d09fe5557,
    0xd9e92aa246bf719e, 0x7a4c10ec2158c4a6, 0x49cad48cebf4a71e, 0xcf05daf5ac8d77b0,
    0xabbdcdd7ed5c0860, 0x9853eab63b5e0b35, 0x352787baa0d7c22f, 0xc7f6aa2de59aea61,
    0x03727073c2e134b1, 0x5a0f544dd2b1fb18, 0x74f85198b05a2e7d, 0x963ef2c96b33be31,
    0x4659d2b743848a2c, 0x19ebb029435dcb0f, 0x4e9d2827355fc492, 0xccec0a73b49c9921,
    0x46c9feb55d120902, 0x8d2636b81555a786, 0x30c05b1ba332f41c, 0xf6f7fd1431714200,
    0x1a4ff12616eefc89, 0x990a98fd5071d263, 0x84547ddc3e203c94, 0x07a3aec79624c7da,
    0x8a328a1cedfe552c, 0xd1e649de1e7f268b, 0x2d8d5432157064c8, 0x4ae7d6a36eb5dbcb,
    0x57e3306d881edb4f, 0x0a804d18b7097475, 0xe74733427b72f0c1, 0x24b33c9d7ed25117,
    0xe805a1e290cf2456, 0x3b544ebe544c19f9, 0x3e666e6f69ae2c15, 0xfb152fe3ff26da89,
    0xb49b52e587a1ee60, 0xac042e70f8b383f2, 0x89c350c893ae7dc1, 0xb592bf39b0364963,
    0x190e714fada5156e, 0xec8177f83f900978, 0x91b534f885818a06, 0x81536d601170fc20,
    0xd4c718bc4ae8ae5f, 0x9eedeca8e272b933, 0x10e8b35af3eeab37, 0x0e09b88e1914f7af,
    0x3fa9ddfb67e2f199, 0xb10bb459132d0a26, 0x2c046f22062dc67d, 0x5e90277e7cb39e2d,
    0xd6b04d3b7651dd7e, 0xe34a1d250e7a8d6b, 0x53c065c6c8e63528, 0x1bdea12e35f6a8c9,
    0x21874b8b4d2dbc4f, 0x3a88a0fbbcb05c63, 0x43ed7f5a0fae657d, 0x230e343dfba08d33,
    0xb5b4071dbfc73a66, 0x8f9887e6078735a1, 0x08de8a1c7797da9b, 0xfcb6be43a9f2fe9b,
    0x049a7f41061a9e60, 0x9f91508bffcfc14a, 0xe3273522064480ca, 0xcd04f3ff001a4778,
    0x6bfa9aae5ec05779, 0x371f77e76bb8417e, 0x3550c2321fd6109c, 0xfb4a3d794a9a80d2,
    0xf43c732873f24c13, 0xaa9119ff184cccf4, 0xb69e38a8965c6b65, 0x1f2b1d1f15f6dc9c,
    0x67fef95d92607890, 0x31865ced6120f37d, 0x3a6853c7e70757a7, 0x32ab0edb696703d3,
    0xee97f453f06791ed, 0x6dc93d9526a50e68, 0x78edefd694af1eed, 0x9c1169fa2777b874,
    0x50065e535a213cf6, 0xde0c89a556b9ae70, 0xd1e0ccd25bb9c169, 0x6b17b224bad6bf27,
    0x6b02e63195ad0cf8, 0x455a4b4cfe30e3f5, 0x9338e69c052b8e7b, 0x5092ef950a16da0b,
    0x7c45d833aff07862, 0xa5b1cfdba0ab4067, 0x6ad047c430a12104, 0x6c47bec883a7de39,
    0x944f6de09134dfb6, 0x9aeba33ac6ecc6b0, 0x52e762596bf68235, 0x22af003ab672e811,
    0xb5635c95ff7296e2, 0xed2df21216235097, 0x4a29c6465a314cd1, 0xd83cc2687a19255f,
    0x506c11b9d90e8b1d, 0x57277707199b8175, 0xcaf21ecd4377b28c, 0xc0c0f5a60ef4cdcf,
    0x93b633abfa3469f8, 0xe846963877671a17, 0x59ac2c7873f910a3, 0x660d3257380841ee,
    0xd813f2fab7f5c5ca, 0x4112cf68649a260e, 0x443f64ec5a371195, 0xb0774d261cc609db,
    0x720bf5f26f4d2eaa, 0x1c2559e30f0946be, 0xe328e230e3e2b3fb, 0x087e79e5a57d1d13,
    0x08dd9bdfd96b9f63, 0x64d0e29eea8838b3, 0xddf957bc36d8b9ca, 0x6ffe73e81b637fb3,
    0x1a4e4822eb4d7a59, 0x5d94337fbfaf7f5b, 0xd30c088ba61ea5ef, 0x9d765e419fb69f6d,
    0x9e21f4f903b33fd9, 0xb4d8f77bc3e56167, 0x733ea705fae4fa77, 0xa4ec0132764ca04b,
    0x7976033a39f7d952, 0x106f72fe81e2c590, 0x8c90fd9b083f4558, 0xfd080d236da814ba,
    0x7b64978555326f9f, 0x60e8ed72c0dff5d1, 0xb063e962e045f54d, 0x959f587d507a8359,
    0x758f450c88572e0b, 0x1b6baca2ae4e125b, 0x61cf4f94c97df93d, 0x2738259634305c14,
    0xd39bb9c3a48db6cf, 0x8215e577001332c8, 0xa1082c0466df6c0a, 0xef02cdd06ffdb432,
    0xfc87614baf287e07, 0x240ab57a8b888b20, 0xbf8d5108e27e0d48, 0x61bdd1307c66e300,
    0xb925a6cd0421aff3, 0x3e003e616a6591e9, 0x94c3251f06f90cf3, 0xbf84470805e69b5f,
    0x98f076a4f7a2322e, 0x70cb6af7c2d5bcf0, 0xb64be8d8b25396c1, 0xa9aa4d20db084e9b,
    0x2e6d02c36017f67f, 0xefed53d75fd64e6b, 0xd9f1f30ccd97fb09, 0xa2ebee47e2fbfce1,
    0xb8d91274b9e9d4fb, 0x1db956e450275779, 0x4fc8e9560f91b123, 0x63573ff03e224774,
    0x0647dfedcd894a29, 0x7884d9bc6cb569d8, 0x7fba195410e5ca30, 0x106c09b972d2e822,
    0x241260ed4ad1e87d, 0x64c8e531bff53b55, 0xca672b91e9e4fa16, 0x3871700761b3f743,
    0xf95cffa23af5f6f4, 0x8d14dedb30be846e, 0x3b097adaf088f94e, 0x21e0bd5026c619bf,
    0x1bda0492e7e4586e, 0xd23c8e176d113600, 0x252f59cf0d9f04bb, 0xb3598080ce64a656,
    0x993e1de72d36d310, 0xa2853b80f17f58ee, 0x1877b51e57a764d5, 0x001f837cc7350524
  ]

/-- Two runs of a pass agree on the mixing array, the registers and the
first `k` words of the result array. -/
def PassAgree (k : Nat) (p q : Pass) : Prop :=
  p.mm = q.mm ∧ p.a = q.a ∧ p.b = q.b ∧ ∀ j : Fin 256, j.val < k → p.r.get j = q.r.get j

/-- The loop of a pass, as 64 blocks of four lanes. -/
def passLoop (w sa sb : Nat) (ops : Fin 4 → Nat → Nat) (p : Pass) : Pass :=
  forLoop 64 (fun k => laneBlock w sa sb ops (4 * k.val)) p

/-- The mixing array left by the two seeded loops of `randInit`, started from
the registers `v`, the seed `rsl` and the mixing array `mem`. -/
def seededMem (w : Nat) (mix : Regs → Regs) (v : Regs) (rsl mem : Words) : Words :=
  (forLoop 32 (fill2 w mix) (forLoop 32 (fill1 w mix rsl) (v, mem))).2

/-- The registers of `randInit` after the four scramble rounds (ISAAC64). -/
def Isaac64.scrambled : Regs :=
  forLoop 4 (fun _ => Isaac64.scrambleRound)
    ⟨Isaac64.golden, Isaac64.golden, Isaac64.golden, Isaac64.golden,
     Isaac64.golden, Isaac64.golden, Isaac64.golden, Isaac64.golden⟩

/-- The registers of `randInit` after the four scramble rounds (ISAAC). -/
def Isaac.scrambled : Regs :=
  forLoop 4 (fun _ => Isaac.scrambleRound)
    ⟨Isaac.golden, Isaac.golden, Isaac.golden, Isaac.golden,
     Isaac.golden, Isaac.golden, Isaac.golden, Isaac.golden⟩

/-- The state after `k` calls of `next` (32-bit variant); `none` if one of them panics. -/
def Isaac.nextN : Nat → Isaac → Option Isaac
  | 0, s => some s
  | k + 1, s => (Isaac.nextN k s).bind (fun t => (Isaac.next t).map (fun x => x.2))

/-- The state after `k` calls of `next` (64-bit variant); `none` if one of them panics. -/
def Isaac64.nextN : Nat → Isaac64 → Option Isaac64
  | 0, s => some s
  | k + 1, s => (Isaac64.nextN k s).bind (fun t => (Isaac64.next t).map (fun x => x.2))

/-- The states of an `Isaac` reachable from `NewIsaac()` by calls of the public methods. -/
inductive Isaac.Reachable : Isaac → Prop
  | new : Isaac.Reachable NewIsaac
  | seed (v : ℤ) {s : Isaac} : Isaac.Reachable s → Isaac.Reachable (Isaac.Seed v s)
  | seedBytes (bo : ByteOrder) (b : List Byte) {s t : Isaac} :
      Isaac.Reachable s → Isaac.SeedBytes bo b s = some t → Isaac.Reachable t
  | seedString (bo : ByteOrder) (b : List Byte) {s t : Isaac} :
      Isaac.Reachable s → Isaac.SeedString bo b s = some t → Isaac.Reachable t
  | uint32 {s t : Isaac} {v : Nat} :
      Isaac.Reachable s → Isaac.Uint32 s = some (v, t) → Isaac.Reachable t
  | uint64 {s t : Isaac} {v : Nat} :
      Isaac.Reachable s → Isaac.Uint64 s = some (v, t) → Isaac.Reachable t
  | int63 {s t : Isaac} {v : ℤ} :
      Isaac.Reachable s → Isaac.Int63 s = some (v, t) → Isaac.Reachable t
  | int31 {s t : Isaac} {v : ℤ} :
      Isaac.Reachable s → Isaac.Int31 s = some (v, t) → Isaac.Reachable t
  | int (bits : Nat) {s t : Isaac} {v : ℤ} :
      Isaac.Reachable s → Isaac.Int bits s = some (v, t) → Isaac.Reachable t

/-- The states of an `Isaac64` reachable from `NewIsaac64()` by calls of the public methods. -/
inductive Isaac64.Reachable : Isaac64 → Prop
  | new : Isaac64.Reachable NewIsaac64
  | seed (v : ℤ) {s : Isaac64} : Isaac64.Reachable s → Isaac64.Reachable (Isaac64.Seed v s)
  | seedBytes (bo : ByteOrder) (b : List Byte) {s t : Isaac64} :
      Isaac64.Reachable s → Isaac64.SeedBytes bo b s = some t → Isaac64.Reachable t
  | seedString (bo : ByteOrder) (b : List Byte) {s t : Isaac64} :
      Isaac64.Reachable s → Isaac64.SeedString bo b s = some t → Isaac64.Reachable t
  | uint32 {s t : Isaac64} {v : Nat} :
      Isaac64.Reachable s → Isaac64.Uint32 s = some (v, t) → Isaac64.Reachable t
  | uint64 {s t : Isaac64} {v : Nat} :
      Isaac64.Reachable s → Isaac64.Uint64 s = some (v, t) → Isaac64.Reachable t
  | int63 {s t : Isaac64} {v : ℤ} :
      Isaac64.Reachable s → Isaac64.Int63 s = some (v, t) → Isaac64.Reachable t
  | int31 {s t : Isaac64} {v : ℤ} :
      Isaac64.Reachable s → Isaac64.Int31 s = some (v, t) → Isaac64.Reachable t
  | int (bits : Nat) {s t : Isaac64} {v : ℤ} :
      Isaac64.Reachable s → Isaac64.Int bits s = some (v, t) → Isaac64.Reachable t

/-! ## The algorithms as the specification words them -/

/-- The lane operators of the 32-bit variant as the specification lists them (4.2). -/
def Isaac.specLaneOp (lane a : Nat) : Nat :=
  if lane = 0 then a ^^^ ((a <<< 13) % 2 ^ 32)
  else if lane = 1 then a ^^^ (a >>> 6)
  else if lane = 2 then a ^^^ ((a <<< 2) % 2 ^ 32)
  else a ^^^ (a >>> 16)

/-- Position `i` of the reference loop of the 32-bit pass, as the specification words it:
`x := mm[i]; a := lane_op(a) + mm[(i + 128) mod 256]; mm[i] := mm[(x >> 2) & 255] + a + b;
r[i] := mm[(mm[i] >> 10) & 255] + x; b := r[i]`, with `lane = i mod 4` and all arithmetic
modulo `2 ^ 32`. -/
def Isaac.specStep (i : Nat) (p : Pass) : Pass :=
  let x := p.mm.get (u8 i)
  let a := (Isaac.specLaneOp (i % 4) p.a + p.mm.get (u8 ((i + 128) % 256))) % 2 ^ 32
  let mm := p.mm.set (u8 i) ((p.mm.get (u8 ((x >>> 2) &&& 255)) + a + p.b) % 2 ^ 32)
  let r := p.r.set (u8 i) ((mm.get (u8 ((mm.get (u8 i) >>> 10) &&& 255)) + x) % 2 ^ 32)
  { mm := mm, r := r, a := a, b := r.get (u8 i) }

/-- The reference pass of the 32-bit variant: `cc := cc + 1`, `a := aa`, `b := bb + cc`
once, then the positions 0, 1, ..., 255 in order, and finally `bb := b`, `aa := a`. -/
def Isaac.specPass (s : Isaac) : Isaac :=
  let cc := (s.cc + 1) % 2 ^ 32
  let p := (List.range 256).foldl (fun p i => Isaac.specStep i p)
    { mm := s.randmem, r := s.randrsl, a := s.aa, b := (s.bb + cc) % 2 ^ 32 }
  { randrsl := p.r, randmem := p.mm, randcnt := s.randcnt, aa := p.a, bb := p.b, cc := cc }

/-- The lane operators of the 64-bit variant as the specification lists them (4.2). -/
def Isaac64.specLaneOp (lane a : Nat) : Nat :=
  if lane = 0 then (2 ^ 64 - 1) - (a ^^^ ((a <<< 21) % 2 ^ 64)) % 2 ^ 64
  else if lane = 1 then a ^^^ (a >>> 5)
  else if lane = 2 then a ^^^ ((a <<< 12) % 2 ^ 64)
  else a ^^^ (a >>> 33)

/-- Position `i` of the reference loop of the 64-bit pass, as the specification words it:
`x := mm[i]; a := lane_op(a) + mm[(i + 128) mod 256]; mm[i] := mm[(x >> 3) & 255] + a + b;
r[i] := mm[(mm[i] >> 11) & 255] + x; b := r[i]`, with `lane = i mod 4` and all arithmetic
modulo `2 ^ 64`. -/
def Isaac64.specStep (i : Nat) (p : Pass) : Pass :=
  let x := p.mm.get (u8 i)
  let a := (Isaac64.specLaneOp (i % 4) p.a + p.mm.get (u8 ((i + 128) % 256))) % 2 ^ 64
  let mm := p.mm.set (u8 i) ((p.mm.get (u8 ((x >>> 3) &&& 255)) + a + p.b) % 2 ^ 64)
  let r := p.r.set (u8 i) ((mm.get (u8 ((mm.get (u8 i) >>> 11) &&& 255)) + x) % 2 ^ 64)
  { mm := mm, r := r, a := a, b := r.get (u8 i) }

/-- The reference pass of the 64-bit variant: `cc := cc + 1`, `a := aa`, `b := bb + cc`
once, then the positions 0, 1, ..., 255 in order, and finally `bb := b`, `aa := a`. -/
def Isaac64.specPass (s : Isaac64) : Isaac64 :=
  let cc := (s.cc + 1) % 2 ^ 64
  let p := (List.range 256).foldl (fun p i => Isaac64.specStep i p)
    { mm := s.randmem, r := s.randrsl, a := s.aa, b := (s.bb + cc) % 2 ^ 64 }
  { randrsl := p.r, randmem := p.mm, randcnt := s.randcnt, aa := p.a, bb := p.b, cc := cc }

/-- The mixing array after the first two phases of the initialization, as the specification
words them (4.1), for words of `w` bits, the network `mix` and the constant `golden`:
(1) all eight registers start from `golden` and go through `mix` four times; (2) for the 32
groups of 8 words in ascending order the seed words of the group are added to the registers,
`mix` is applied once and the registers are stored into the mixing array; then the same is
repeated with the mixing array itself in the place of the seed. -/
def specFill (w : Nat) (mix : Regs → Regs) (golden : Nat) (rsl mem : Words) : Words :=
  let v := mix^[4] ⟨golden, golden, golden, golden, golden, golden, golden, golden⟩
  let pass1 := forLoop 32
    (fun k (x : Regs × Words) =>
      (mix (x.1.addWords w rsl k), (mix (x.1.addWords w rsl k)).store x.2 k)) (v, mem)
  let pass2 := forLoop 32
    (fun k (x : Regs × Words) =>
      (mix (x.1.addWords w x.2 k), (mix (x.1.addWords w x.2 k)).store x.2 k)) pass1
  pass2.2

/-- The seeded initialization of the 32-bit variant as the specification words it: the two
phases of `specFill`, then (3) one pass and the cursor set to 256. -/
def Isaac.specInit (s : Isaac) : Isaac :=
  { Isaac.isaac
      { s with randmem := (specFill 32 Isaac.scrambleRound Isaac.golden s.randrsl s.randmem) }
    with randcnt := 256 }

/-- The seeded initialization of the 64-bit variant as the specification words it: the two
phases of `specFill`, then (3) one pass and the cursor set to 256. -/
def Isaac64.specInit (s : Isaac64) : Isaac64 :=
  { Isaac64.isaac64
      { s with randmem := (specFill 64 Isaac64.scrambleRound Isaac64.golden s.randrsl s.randmem) }
    with randcnt := 256 }

/-- The seed array `Isaac.SeedBytes` hands to `randInit`: `randrsl` after the copy of the
seed bytes (the code of `SeedBytes` up to the call of `randInit`). -/
def Isaac.seedArray (bo : ByteOrder) (seed : List Byte) (ctx : Isaac) : Option Words :=
  let seed := if seed.length > 1024 then seed.take 1024 else seed
  match seed with
  | [] => none
  | _ :: _ => (unsafeCopy (ctx.randrsl.toBytes bo 4) seed seed.length).map (Words.ofBytes bo 4)

/-- The seed array `Isaac64.SeedBytes` hands to `randInit`: `randrsl` after the copy of the
seed bytes (the code of `SeedBytes` up to the call of `randInit`). -/
def Isaac64.seedArray (bo : ByteOrder) (seed : List Byte) (ctx : Isaac64) : Option Words :=
  let seed := if seed.length > 2048 then seed.take 2048 else seed
  match seed with
  | [] => none
  | _ :: _ => (unsafeCopy (ctx.randrsl.toBytes bo 8) seed seed.length).map (Words.ofBytes bo 8)

/-! # Theorems -/

/-! ## Loops -/

/-- An invariant that holds before a counted loop and is kept by every
iteration holds after the loop. -/
theorem forLoop_induction {α : Type} (P : Nat → α → Prop) :
    ∀ (n : Nat) (body : Fin n → α → α) (init : α), P 0 init →
      (∀ (k : Fin n) (s : α), P k.val s → P (k.val + 1) (body k s)) →
      P n (forLoop n body init)
  | 0, _, _, h0, _ => h0
  | m + 1, body, init, h0, hstep => by
    have ih := forLoop_induction P m (fun k => body k.castSucc) init h0
      (fun k s hk => hstep k.castSucc s hk)
    exact hstep (Fin.last m) _ ih

/-- Two counted loops whose bodies keep a relation between their states end
in related states. -/
theorem forLoop_rel {α β : Type} (R : Nat → α → β → Prop) :
    ∀ (n : Nat) (f : Fin n → α → α) (g : Fin n → β → β) (a : α) (b : β), R 0 a b →
      (∀ (k : Fin n) (x : α) (y : β), R k.val x y → R (k.val + 1) (f k x) (g k y)) →
      R n (forLoop n f a) (forLoop n g b)
  | 0, _, _, _, _, h0, _ => h0
  | m + 1, f, g, a, b, h0, hstep => by
    have ih := forLoop_rel R m (fun k => f k.castSucc) (fun k => g k.castSucc) a b h0
      (fun k x y hk => hstep k.castSucc x y hk)
    exact hstep (Fin.last m) _ _ ih

theorem forLoop_const {α : Type} (f : α → α) (x : α) :
    ∀ n : Nat, forLoop n (fun _ => f) x = f^[n] x
  | 0 => rfl
  | n + 1 => by
    rw [Function.iterate_succ_apply', ← forLoop_const f x n]
    rfl

theorem forLoop_eq_foldl {α : Type} (f : Nat → α → α) (init : α) :
    ∀ n : Nat, forLoop n (fun k => f k.val) init = (List.range n).foldl (fun x k => f k x) init
  | 0 => rfl
  | n + 1 => by
    rw [List.range_succ, List.foldl_append, ← forLoop_eq_foldl f init n]
    rfl

theorem foldl_range_four {α : Type} (f : Nat → α → α) (init : α) :
    ∀ n : Nat, (List.range (4 * n)).foldl (fun x i => f i x) init =
      (List.range n).foldl
        (fun x k => f (4 * k + 3) (f (4 * k + 2) (f (4 * k + 1) (f (4 * k) x)))) init
  | 0 => rfl
  | n + 1 => by
    rw [List.range_succ (n := n), List.foldl_append, ← foldl_range_four f init n,
      show 4 * (n + 1) = 4 * n + 1 + 1 + 1 + 1 from rfl,
      List.range_succ, List.range_succ, List.range_succ, List.range_succ]
    simp only [List.foldl_append, List.foldl_cons, List.foldl_nil]

attribute [irreducible] forLoop

/-! ## Packed arrays -/

theorem pack_get (l : List Nat) (hb : ∀ w ∈ l, w < 2 ^ 64) (i : Nat) :
    Packed.get (pack l) i = l.getD i 0 := by
  induction l generalizing i with
  | nil => simp [pack, Packed.get]
  | cons w t ih =>
    have hw : w < 2 ^ 64 := hb w (List.mem_cons_self _ _)
    have ht : ∀ x ∈ t, x < 2 ^ 64 := fun x hx => hb x (List.mem_cons_of_mem _ hx)
    cases i with
    | zero =>
      simp only [pack, Packed.get, Nat.mul_zero, Nat.shiftRight_zero, List.getD_cons_zero]
      rw [Nat.add_mul_mod_self_left, Nat.mod_eq_of_lt hw]
    | succ i =>
      have := ih ht i
      simp only [Packed.get, Nat.shiftRight_eq_div_pow] at this ⊢
      simp only [pack, List.getD_cons_succ]
      rw [← this, Nat.mul_succ, Nat.pow_add, Nat.mul_comm (2 ^ (64 * i)), ← Nat.div_div_eq_div_mul,
        Nat.add_mul_div_left _ _ (by positivity), Nat.div_eq_of_lt hw, Nat.zero_add]

theorem pack_set (l : List Nat) (hb : ∀ w ∈ l, w < 2 ^ 64) (i : Nat) (hi : i < l.length)
    (v : Nat) : pack (l.set i v) = Packed.set (pack l) i v := by
  induction l generalizing i with
  | nil => simp at hi
  | cons w t ih =>
    have hw : w < 2 ^ 64 := hb w (List.mem_cons_self _ _)
    have ht : ∀ x ∈ t, x < 2 ^ 64 := fun x hx => hb x (List.mem_cons_of_mem _ hx)
    have hdiv : (w + 2 ^ 64 * pack t) / 2 ^ 64 = pack t := by
      rw [Nat.add_mul_div_left _ _ (by positivity), Nat.div_eq_of_lt hw, Nat.zero_add]
    have hmod : (w + 2 ^ 64 * pack t) % 2 ^ 64 = w := by
      rw [Nat.add_mul_mod_self_left, Nat.mod_eq_of_lt hw]
    cases i with
    | zero =>
      simp only [List.set_cons_zero, pack, Packed.set, Nat.mul_zero, Nat.pow_zero, Nat.mod_one,
        Nat.zero_add, Nat.one_mul, Nat.mul_one, Nat.shiftRight_eq_div_pow, hdiv]
    | succ i =>
      have := ih ht i (by simpa using hi)
      simp only [List.set_cons_succ, pack, this]
      simp only [Packed.set, Nat.shiftRight_eq_div_pow]
      have e1 : 2 ^ (64 * (i + 1)) = 2 ^ 64 * 2 ^ (64 * i) := by
        rw [Nat.mul_succ, Nat.pow_add, Nat.mul_comm]
      have e2 : 2 ^ (64 * (i + 1 + 1)) = 2 ^ 64 * 2 ^ (64 * (i + 1)) := by
        rw [Nat.mul_succ, Nat.pow_add, Nat.mul_comm]
      rw [e2, ← Nat.div_div_eq_div_mul, hdiv, e1, Nat.mod_mul, hmod, hdiv]
      ring

theorem Words.get_eq_getD (v : Words) (i : Fin 256) : v.get i = v.toList.getD i.val 0 := by
  have h : i.val < v.toList.length := by simp
  rw [Mathlib.Vector.get_eq_get, List.getD_eq_getElem _ _ h]
  rfl

theorem Bounded64.mem {v : Words} (hb : Bounded64 v) : ∀ w ∈ v.toList, w < 2 ^ 64 := by
  intro w hw
  obtain ⟨i, hi, rfl⟩ := List.getElem_of_mem hw
  have hi' : i < 256 := by simpa using hi
  have := hb ⟨i, hi'⟩
  rw [Words.get_eq_getD, List.getD_eq_getElem _ _ hi] at this
  exact this

theorem Bounded64.set {v : Words} (hb : Bounded64 v) (i : Fin 256) {x : Nat} (hx : x < 2 ^ 64) :
    Bounded64 (v.set i x) := by
  intro j
  rw [Mathlib.Vector.get_set_eq_if]
  split
  · exact hx
  · exact hb j

theorem Words.get_of_pack {v : Words} (hb : Bounded64 v) (i : Fin 256) :
    Packed.get (pack v.toList) i.val = v.get i := by
  rw [GoIsaac.pack_get _ hb.mem, Words.get_eq_getD]

theorem Words.set_of_pack {v : Words} (hb : Bounded64 v) (i : Fin 256) (x : Nat) :
    pack (v.set i x).toList = Packed.set (pack v.toList) i.val x := by
  rw [Mathlib.Vector.toList_set, GoIsaac.pack_set _ hb.mem _ (by simp)]

theorem unpack_pack {v : Words} (hb : Bounded64 v) : unpack (pack v.toList) 256 = v.toList := by
  apply List.ext_getElem
  · simp [unpack]
  · intro i h1 h2
    have hi : i < 256 := by simpa using h2
    have := Words.get_of_pack hb ⟨i, hi⟩
    rw [Words.get_eq_getD, List.getD_eq_getElem _ _ h2] at this
    simp only [unpack, List.getElem_map, List.getElem_range]
    exact this

theorem U64.add_lt (x y : Nat) : U64.add x y < 2 ^ 64 := Nat.mod_lt _ (by positivity)

/-! ## The pass, lane by lane -/

namespace Isaac64

theorem isaac64Block_eq_lanes (ii : Nat) (p : Pass) :
    isaac64Block ii p = laneBlock 64 3 11 laneOp ii p := by
  have h1 : u8 ii + 1 + 128 = u8 ii + 129 := by rw [add_assoc]; rfl
  have h2 : u8 ii + 2 + 128 = u8 ii + 130 := by rw [add_assoc]; rfl
  have h3 : u8 ii + 3 + 128 = u8 ii + 131 := by rw [add_assoc]; rfl
  simp only [laneBlock, lane, h1, h2, h3, laneOp]
  rfl

theorem lane_sim64 (op : Nat → Nat) (i : Fin 256) {p : Pass} {P : PackedPass}
    (h : PassSim p P) : PassSim (lane 64 3 11 op i p) (laneP op i P) := by
  obtain ⟨hm, hr, em, er, ea, eb⟩ := h
  have hm' : Bounded64 (lane 64 3 11 op i p).mm := hm.set i (Nat.mod_lt _ (Nat.two_pow_pos 64))
  refine ⟨hm', hr.set i (Nat.mod_lt _ (Nat.two_pow_pos 64)), ?_, ?_, ?_, ?_⟩
  all_goals simp only [lane] at hm'
  · simp only [lane, laneP, U64.add, U64.shr, em, ea, eb, Words.get_of_pack hm,
      Words.set_of_pack hm]
  · simp only [lane, laneP, U64.add, U64.shr, em, er, ea, eb, Words.get_of_pack hm,
      Words.set_of_pack hr, ← Words.set_of_pack hm, Words.get_of_pack hm',
      Mathlib.Vector.get_set_same]
  · simp only [lane, laneP, U64.add, U64.shr, em, ea, Words.get_of_pack hm]
  · simp only [lane, laneP, U64.add, U64.shr, em, er, ea, eb, Words.get_of_pack hm,
      ← Words.set_of_pack hm, Words.get_of_pack hm', Mathlib.Vector.get_set_same]

theorem block_sim64 (ii : Nat) {p : Pass} {P : PackedPass} (h : PassSim p P) :
    PassSim (isaac64Block ii p) (blockP ii P) := by
  rw [isaac64Block_eq_lanes]
  exact lane_sim64 _ _ (lane_sim64 _ _ (lane_sim64 _ _ (lane_sim64 _ _ h)))

theorem isaac64_sim {s : Isaac64} {P : PackedState} (h : Sim s P) :
    Sim (isaac64 s) (isaac64P P) := by
  obtain ⟨hr, hm, er, em, ea, eb, ec⟩ := h
  have key := forLoop_rel (fun _ => PassSim) 64 (fun k => isaac64Block (4 * k.val))
    (fun k => blockP (4 * k.val))
    { mm := s.randmem, r := s.randrsl, a := s.aa, b := U64.add s.bb (U64.add s.cc 1) }
    { mm := P.mem, r := P.rsl, a := P.aa, b := U64.add P.bb (U64.add P.cc 1) }
    ⟨hm, hr, em, er, ea, by simp only [eb, ec]⟩ (fun k x y hxy => block_sim64 _ hxy)
  obtain ⟨km, kr, kem, ker, kea, keb⟩ := key
  exact ⟨kr, km, ker, kem, kea, keb, congrArg (fun c => U64.add c 1) ec⟩

end Isaac64

/-! ## The seeded initialization, group by group -/

theorem U64.sub_lt (x y : Nat) : U64.sub x y < 2 ^ 64 := Nat.mod_lt _ (by positivity)

theorem U64.shl_lt (x k : Nat) : U64.shl x k < 2 ^ 64 := Nat.mod_lt _ (by positivity)

theorem U64.shr_lt {x : Nat} (k : Nat) (h : x < 2 ^ 64) : U64.shr x k < 2 ^ 64 := by
  unfold U64.shr
  rw [Nat.shiftRight_eq_div_pow]
  exact lt_of_le_of_lt (Nat.div_le_self _ _) h

theorem U64.xor_lt {x y : Nat} (hx : x < 2 ^ 64) (hy : y < 2 ^ 64) : U64.xor x y < 2 ^ 64 :=
  Nat.xor_lt_two_pow hx hy

namespace Isaac64

theorem scrambleRound_bounded64 (v : Regs) : (scrambleRound v).Bounded64 := by
  obtain ⟨a, b, c, d, e, f, g, h⟩ := v
  refine ⟨?_, ?_, ?_, ?_, ?_, ?_, ?_, ?_⟩
  · exact U64.xor_lt (U64.add_lt _ _) (U64.shl_lt _ _)
  · exact U64.xor_lt (U64.add_lt _ _) (U64.shr_lt _ (U64.sub_lt _ _))
  · exact U64.xor_lt (U64.add_lt _ _) (U64.shl_lt _ _)
  · exact U64.xor_lt (U64.add_lt _ _) (U64.shr_lt _ (U64.sub_lt _ _))
  · exact U64.xor_lt (U64.add_lt _ _) (U64.shl_lt _ _)
  · exact U64.add_lt _ _
  · exact U64.add_lt _ _
  · exact U64.sub_lt _ _

theorem seedPass1_eq64 (k : Fin 32) (v : Regs) (ctx : Isaac64) :
    seedPass1 k (v, ctx) =
      ((fill1 64 scrambleRound ctx.randrsl k (v, ctx.randmem)).1,
        { ctx with randmem := (fill1 64 scrambleRound ctx.randrsl k (v, ctx.randmem)).2 }) :=
  rfl

theorem seedPass2_eq64 (k : Fin 32) (v : Regs) (ctx : Isaac64) :
    seedPass2 k (v, ctx) =
      ((fill2 64 scrambleRound k (v, ctx.randmem)).1,
        { ctx with randmem := (fill2 64 scrambleRound k (v, ctx.randmem)).2 }) :=
  rfl

theorem noSeedPass_eq64 (k : Fin 32) (v : Regs) (ctx : Isaac64) :
    noSeedPass k (v, ctx) =
      ((fill0 scrambleRound k (v, ctx.randmem)).1,
        { ctx with randmem := (fill0 scrambleRound k (v, ctx.randmem)).2 }) :=
  rfl

end Isaac64

theorem Regs.add64_pack (v : Regs) {w : Words} (hb : GoIsaac.Bounded64 w) (k : Fin 32) :
    v.add64P (pack w.toList) k = v.addWords 64 w k := by
  simp only [Regs.add64P, Regs.addWords, U64.add, Words.get_of_pack hb]

theorem Regs.store_bounded {v : Regs} (hv : v.Bounded64) {w : Words}
    (hb : GoIsaac.Bounded64 w) (k : Fin 32) : GoIsaac.Bounded64 (v.store w k) := by
  obtain ⟨h0, h1, h2, h3, h4, h5, h6, h7⟩ := hv
  exact (((((((hb.set _ h0).set _ h1).set _ h2).set _ h3).set _ h4).set _ h5).set _ h6).set _ h7

theorem Regs.store_pack {v : Regs} (hv : v.Bounded64) {w : Words}
    (hb : GoIsaac.Bounded64 w) (k : Fin 32) :
    v.storeP (pack w.toList) k = pack (v.store w k).toList := by
  obtain ⟨h0, h1, h2, h3, h4, h5, h6, h7⟩ := hv
  have b0 := hb.set (idx8 k 0) h0
  have b1 := b0.set (idx8 k 1) h1
  have b2 := b1.set (idx8 k 2) h2
  have b3 := b2.set (idx8 k 3) h3
  have b4 := b3.set (idx8 k 4) h4
  have b5 := b4.set (idx8 k 5) h5
  have b6 := b5.set (idx8 k 6) h6
  simp only [Regs.storeP, Regs.store, Words.set_of_pack b6, Words.set_of_pack b5, Words.set_of_pack b4,
    Words.set_of_pack b3, Words.set_of_pack b2, Words.set_of_pack b1, Words.set_of_pack b0, Words.set_of_pack hb]

namespace Isaac64

theorem randInit_sim64 {s : Isaac64} {P : PackedState} (h : Sim s P) :
    Sim (randInit true s) (randInitP P) := by
  obtain ⟨hr, hm, er, em, ea, eb, ec⟩ := h
  let v0 : Regs := forLoop 4 (fun _ => scrambleRound)
    ⟨golden, golden, golden, golden, golden, golden, golden, golden⟩
  -- the relation kept by both seeded loops
  let R : Regs × Isaac64 → Regs × Nat → Prop := fun x y =>
    x.1 = y.1 ∧ GoIsaac.Bounded64 x.2.randmem ∧ y.2 = pack x.2.randmem.toList ∧
      x.2.randrsl = s.randrsl ∧ x.2.aa = s.aa ∧ x.2.bb = s.bb ∧ x.2.cc = s.cc
  have k1 := forLoop_rel (fun _ => R) 32 seedPass1
    (fun k (x : Regs × Nat) =>
      let v := scrambleRound (x.1.add64P P.rsl k)
      (v, v.storeP x.2 k)) (v0, s) (v0, P.mem) ⟨rfl, hm, em, rfl, rfl, rfl, rfl⟩
    (by
      rintro k ⟨v, ctx⟩ ⟨v', N⟩ ⟨e1, hb, e2, e3, e4, e5, e6⟩
      simp only at e1 e2 e3 e4 e5 e6 hb
      subst e1 e2
      rw [seedPass1_eq64]
      have hrs : GoIsaac.Bounded64 ctx.randrsl := e3 ▸ hr
      refine ⟨?_, ?_, ?_, e3, e4, e5, e6⟩
      · simp only [fill1, er, ← e3, Regs.add64_pack v hrs]
      · exact Regs.store_bounded (scrambleRound_bounded64 _) hb k
      · simp only [fill1, er, ← e3, Regs.add64_pack v hrs,
          Regs.store_pack (scrambleRound_bounded64 _) hb])
  have k2 := forLoop_rel (fun _ => R) 32 seedPass2
    (fun k (x : Regs × Nat) =>
      let v := scrambleRound (x.1.add64P x.2 k)
      (v, v.storeP x.2 k)) _ _ k1
    (by
      rintro k ⟨v, ctx⟩ ⟨v', N⟩ ⟨e1, hb, e2, e3, e4, e5, e6⟩
      simp only at e1 e2 e3 e4 e5 e6 hb
      subst e1 e2
      rw [seedPass2_eq64]
      refine ⟨?_, ?_, ?_, e3, e4, e5, e6⟩
      · simp only [fill2, Regs.add64_pack v hb]
      · exact Regs.store_bounded (scrambleRound_bounded64 _) hb k
      · simp only [fill2, Regs.add64_pack v hb,
          Regs.store_pack (scrambleRound_bounded64 _) hb])
  obtain ⟨-, hb, e2, e3, e4, e5, e6⟩ := k2
  have hs : Sim (forLoop 32 seedPass2 (forLoop 32 seedPass1 (v0, s))).2
      { P with mem := (forLoop 32
        (fun k (x : Regs × Nat) =>
          let v := scrambleRound (x.1.add64P x.2 k)
          (v, v.storeP x.2 k))
        (forLoop 32
          (fun k (x : Regs × Nat) =>
            let v := scrambleRound (x.1.add64P P.rsl k)
            (v, v.storeP x.2 k)) (v0, P.mem))).2 } :=
    ⟨e3 ▸ hr, hb, by rw [e3]; exact er, e2, by rw [e4]; exact ea, by rw [e5]; exact eb,
      by rw [e6]; exact ec⟩
  exact isaac64_sim hs

end Isaac64

/-! ## Reference vectors -/

theorem pack_replicate_zero (n : Nat) : pack (List.replicate n 0) = 0 := by
  induction n with
  | zero => rfl
  | succ n ih => simp [List.replicate_succ, pack, ih]

theorem Isaac64.sim_new : Isaac64.Sim NewIsaac64 ⟨0, 0, 0, 0, 0⟩ := by
  have hb : Bounded64 Words.zero := by
    intro i
    show (Mathlib.Vector.replicate 256 0).get i < 2 ^ 64
    rw [Mathlib.Vector.get_replicate]
    exact Nat.two_pow_pos 64
  exact ⟨hb, hb, (pack_replicate_zero 256).symm, (pack_replicate_zero 256).symm, rfl, rfl, rfl⟩

theorem Isaac64.packed_reference :
    unpack (Isaac64.isaac64P (Isaac64.randInitP ⟨0, 0, 0, 0, 0⟩)).rsl 256 = vectors.take 256 ∧
    unpack (Isaac64.isaac64P (Isaac64.isaac64P (Isaac64.randInitP ⟨0, 0, 0, 0, 0⟩))).rsl 256
      = vectors.drop 256 := by
  decide!

/-- C1: after `randInit(true)` on a fresh `Isaac64`, the first pass of `isaac64` leaves in
`randrsl` the first 256 reference words and the second pass the next 256, as
`TestIsaac64Vectors` checks. -/
theorem Isaac64.reference_vectors :
    (Isaac64.isaac64 (Isaac64.randInit true NewIsaac64)).randrsl.toList = vectors.take 256 ∧
    (Isaac64.isaac64 (Isaac64.isaac64 (Isaac64.randInit true NewIsaac64))).randrsl.toList
      = vectors.drop 256 ∧
    (Isaac64.isaac64 (Isaac64.randInit true NewIsaac64)).randrsl.get 0 = 0x12a8f216af9418c2 ∧
    (Isaac64.isaac64 (Isaac64.randInit true NewIsaac64)).randrsl.get 1 = 0xd4490ad526f14431 ∧
    (Isaac64.isaac64 (Isaac64.randInit true NewIsaac64)).randrsl.get 2 = 0xb49c3b3995091a36 ∧
    (Isaac64.isaac64 (Isaac64.randInit true NewIsaac64)).randrsl.get 3 = 0x5b45e522e4b1b4ef ∧
    (Isaac64.isaac64 (Isaac64.isaac64 (Isaac64.randInit true NewIsaac64))).randrsl.get 255
      = 0x001f837cc7350524 := by
  have h1 := Isaac64.isaac64_sim (Isaac64.randInit_sim64 Isaac64.sim_new)
  have h2 := Isaac64.isaac64_sim h1
  have e1 : (Isaac64.isaac64 (Isaac64.randInit true NewIsaac64)).randrsl.toList
      = vectors.take 256 := by
    rw [← unpack_pack h1.1, ← h1.2.2.1]
    exact Isaac64.packed_reference.1
  have e2 : (Isaac64.isaac64 (Isaac64.isaac64 (Isaac64.randInit true NewIsaac64))).randrsl.toList
      = vectors.drop 256 := by
    rw [← unpack_pack h2.1, ← h2.2.2.1]
    exact Isaac64.packed_reference.2
  refine ⟨e1, e2, ?_, ?_, ?_, ?_, ?_⟩
  · rw [Words.get_eq_getD, e1]; decide!
  · rw [Words.get_eq_getD, e1]; decide!
  · rw [Words.get_eq_getD, e1]; decide!
  · rw [Words.get_eq_getD, e1]; decide!
  · rw [Words.get_eq_getD, e2]; decide!

/-! ## What a pass and the seeded loops depend on -/

theorem u8_val_add (ii j : Nat) : (u8 ii + u8 j).val = (ii % 256 + j % 256) % 256 := rfl

theorem lane_agree (w sa sb : Nat) (op : Nat → Nat) (i : Fin 256) {p q : Pass}
    (h : PassAgree i.val p q) :
    PassAgree (i.val + 1) (lane w sa sb op i p) (lane w sa sb op i q) := by
  obtain ⟨pm, pr, pa, pb⟩ := p
  obtain ⟨qm, qr, qa, qb⟩ := q
  obtain ⟨hm, ha, hb, hr⟩ := h
  simp only at hm ha hb hr
  subst hm ha hb
  refine ⟨rfl, rfl, ?_, ?_⟩
  · simp only [lane, Mathlib.Vector.get_set_same]
  · intro j hj
    simp only [lane, Mathlib.Vector.get_set_eq_if]
    split
    · rfl
    · rename_i hne
      have : j.val ≠ i.val := fun e => hne (Fin.ext e.symm)
      exact hr j (by omega)

theorem laneBlock_agree (w sa sb : Nat) (ops : Fin 4 → Nat → Nat) (m : Fin 64) {p q : Pass}
    (h : PassAgree (4 * m.val) p q) :
    PassAgree (4 * (m.val + 1)) (laneBlock w sa sb ops (4 * m.val) p)
      (laneBlock w sa sb ops (4 * m.val) q) := by
  have hm := m.isLt
  have e0 : (u8 (4 * m.val)).val = 4 * m.val := by show 4 * m.val % 256 = _; omega
  have e1 : (u8 (4 * m.val) + 1).val = 4 * m.val + 1 := by
    show (4 * m.val % 256 + 1) % 256 = _; omega
  have e2 : (u8 (4 * m.val) + 2).val = 4 * m.val + 2 := by
    show (4 * m.val % 256 + 2) % 256 = _; omega
  have e3 : (u8 (4 * m.val) + 3).val = 4 * m.val + 3 := by
    show (4 * m.val % 256 + 3) % 256 = _; omega
  have a0 := lane_agree w sa sb (ops 0) (u8 (4 * m.val)) (e0 ▸ h)
  rw [e0, ← e1] at a0
  have a1 := lane_agree w sa sb (ops 1) _ a0
  rw [e1, show 4 * m.val + 1 + 1 = (u8 (4 * m.val) + 2).val by rw [e2]] at a1
  have a2 := lane_agree w sa sb (ops 2) _ a1
  rw [e2, show 4 * m.val + 2 + 1 = (u8 (4 * m.val) + 3).val by rw [e3]] at a2
  have a3 := lane_agree w sa sb (ops 3) _ a2
  rw [e3, show 4 * m.val + 3 + 1 = 4 * (m.val + 1) by ring] at a3
  exact a3

theorem passLoop_agree (w sa sb : Nat) (ops : Fin 4 → Nat → Nat) (mm r r' : Words) (a b : Nat) :
    passLoop w sa sb ops ⟨mm, r, a, b⟩ = passLoop w sa sb ops ⟨mm, r', a, b⟩ := by
  have key := forLoop_rel (fun k => PassAgree (4 * k)) 64
    (fun k => laneBlock w sa sb ops (4 * k.val)) (fun k => laneBlock w sa sb ops (4 * k.val))
    ⟨mm, r, a, b⟩ ⟨mm, r', a, b⟩ ⟨rfl, rfl, rfl, fun j hj => absurd hj (by omega)⟩
    (fun k x y hxy => laneBlock_agree w sa sb ops k hxy)
  obtain ⟨hm, ha, hb, hr⟩ := key
  have hr' : (passLoop w sa sb ops ⟨mm, r, a, b⟩).r = (passLoop w sa sb ops ⟨mm, r', a, b⟩).r :=
    Mathlib.Vector.ext (fun j => hr j j.isLt)
  unfold passLoop at hr' ⊢
  generalize forLoop 64 (fun k => laneBlock w sa sb ops (4 * k.val)) ⟨mm, r, a, b⟩ = x at *
  generalize forLoop 64 (fun k => laneBlock w sa sb ops (4 * k.val)) ⟨mm, r', a, b⟩ = y at *
  cases x; cases y
  simp only at hm ha hb hr'
  subst hm ha hb hr'
  rfl

theorem Regs.store_agree (v : Regs) (k : Fin 32) {m m' : Words}
    (h : ∀ j : Fin 256, j.val < 8 * k.val → m.get j = m'.get j) :
    ∀ j : Fin 256, j.val < 8 * (k.val + 1) → (v.store m k).get j = (v.store m' k).get j := by
  intro j hj
  simp only [Regs.store, Mathlib.Vector.get_set_eq_if]
  by_cases h7 : idx8 k 7 = j; · simp only [h7, if_true]
  by_cases h6 : idx8 k 6 = j; · simp only [h7, h6, if_true, if_false]
  by_cases h5 : idx8 k 5 = j; · simp only [h7, h6, h5, if_true, if_false]
  by_cases h4 : idx8 k 4 = j; · simp only [h7, h6, h5, h4, if_true, if_false]
  by_cases h3 : idx8 k 3 = j; · simp only [h7, h6, h5, h4, h3, if_true, if_false]
  by_cases h2 : idx8 k 2 = j; · simp only [h7, h6, h5, h4, h3, h2, if_true, if_false]
  by_cases h1 : idx8 k 1 = j; · simp only [h7, h6, h5, h4, h3, h2, h1, if_true, if_false]
  by_cases h0 : idx8 k 0 = j; · simp only [h7, h6, h5, h4, h3, h2, h1, h0, if_true, if_false]
  simp only [h7, h6, h5, h4, h3, h2, h1, h0, if_false]
  apply h
  have n0 : (idx8 k 0).val ≠ j.val := fun e => h0 (Fin.ext e)
  have n1 : (idx8 k 1).val ≠ j.val := fun e => h1 (Fin.ext e)
  have n2 : (idx8 k 2).val ≠ j.val := fun e => h2 (Fin.ext e)
  have n3 : (idx8 k 3).val ≠ j.val := fun e => h3 (Fin.ext e)
  have n4 : (idx8 k 4).val ≠ j.val := fun e => h4 (Fin.ext e)
  have n5 : (idx8 k 5).val ≠ j.val := fun e => h5 (Fin.ext e)
  have n6 : (idx8 k 6).val ≠ j.val := fun e => h6 (Fin.ext e)
  have n7 : (idx8 k 7).val ≠ j.val := fun e => h7 (Fin.ext e)
  have v0 : (idx8 k 0).val = 8 * k.val + 0 := rfl
  have v1 : (idx8 k 1).val = 8 * k.val + 1 := rfl
  have v2 : (idx8 k 2).val = 8 * k.val + 2 := rfl
  have v3 : (idx8 k 3).val = 8 * k.val + 3 := rfl
  have v4 : (idx8 k 4).val = 8 * k.val + 4 := rfl
  have v5 : (idx8 k 5).val = 8 * k.val + 5 := rfl
  have v6 : (idx8 k 6).val = 8 * k.val + 6 := rfl
  have v7 : (idx8 k 7).val = 8 * k.val + 7 := rfl
  omega

theorem fill1_agree (w : Nat) (mix : Regs → Regs) (rsl : Words) (v : Regs) (m m' : Words) :
    forLoop 32 (fill1 w mix rsl) (v, m) = forLoop 32 (fill1 w mix rsl) (v, m') := by
  have key := forLoop_rel
    (fun k (x y : Regs × Words) =>
      x.1 = y.1 ∧ ∀ j : Fin 256, j.val < 8 * k → x.2.get j = y.2.get j) 32
    (fill1 w mix rsl) (fill1 w mix rsl) (v, m) (v, m')
    ⟨rfl, fun j hj => absurd hj (by omega)⟩
    (by
      rintro k ⟨x1, x2⟩ ⟨y1, y2⟩ ⟨e, h⟩
      simp only at e h
      subst e
      exact ⟨rfl, Regs.store_agree _ k h⟩)
  exact Prod.ext key.1 (Mathlib.Vector.ext (fun j => key.2 j j.isLt))

theorem seededMem_agree (w : Nat) (mix : Regs → Regs) (v : Regs) (rsl m m' : Words) :
    seededMem w mix v rsl m = seededMem w mix v rsl m' := by
  unfold seededMem
  rw [fill1_agree w mix rsl v m m']

/-! ## Normal forms of `isaac64`, `isaac` and `randInit` -/

theorem Isaac64.isaac64_eq (s : Isaac64) :
    Isaac64.isaac64 s =
      { randrsl := (passLoop 64 3 11 Isaac64.laneOp
          ⟨s.randmem, s.randrsl, s.aa, (s.bb + (s.cc + 1) % 2 ^ 64) % 2 ^ 64⟩).r,
        randmem := (passLoop 64 3 11 Isaac64.laneOp
          ⟨s.randmem, s.randrsl, s.aa, (s.bb + (s.cc + 1) % 2 ^ 64) % 2 ^ 64⟩).mm,
        randcnt := s.randcnt,
        aa := (passLoop 64 3 11 Isaac64.laneOp
          ⟨s.randmem, s.randrsl, s.aa, (s.bb + (s.cc + 1) % 2 ^ 64) % 2 ^ 64⟩).a,
        bb := (passLoop 64 3 11 Isaac64.laneOp
          ⟨s.randmem, s.randrsl, s.aa, (s.bb + (s.cc + 1) % 2 ^ 64) % 2 ^ 64⟩).b,
        cc := (s.cc + 1) % 2 ^ 64 } := by
  have h : (fun k : Fin 64 => Isaac64.isaac64Block (4 * k.val)) =
      fun k => laneBlock 64 3 11 Isaac64.laneOp (4 * k.val) :=
    funext fun k => funext fun p => Isaac64.isaac64Block_eq_lanes _ p
  unfold Isaac64.isaac64 passLoop
  rw [h]
  rfl

theorem Isaac.isaacBlock_eq_lanes (ii : Nat) (p : Pass) :
    Isaac.isaacBlock ii p = laneBlock 32 2 10 Isaac.laneOp ii p := by
  have h1 : u8 ii + 1 + 128 = u8 ii + 129 := by rw [add_assoc]; rfl
  have h2 : u8 ii + 2 + 128 = u8 ii + 130 := by rw [add_assoc]; rfl
  have h3 : u8 ii + 3 + 128 = u8 ii + 131 := by rw [add_assoc]; rfl
  simp only [laneBlock, lane, h1, h2, h3, Isaac.laneOp]
  rfl

theorem Isaac.isaac_eq (s : Isaac) :
    Isaac.isaac s =
      { randrsl := (passLoop 32 2 10 Isaac.laneOp
          ⟨s.randmem, s.randrsl, s.aa, (s.bb + (s.cc + 1) % 2 ^ 32) % 2 ^ 32⟩).r,
        randmem := (passLoop 32 2 10 Isaac.laneOp
          ⟨s.randmem, s.randrsl, s.aa, (s.bb + (s.cc + 1) % 2 ^ 32) % 2 ^ 32⟩).mm,
        randcnt := s.randcnt,
        aa := (passLoop 32 2 10 Isaac.laneOp
          ⟨s.randmem, s.randrsl, s.aa, (s.bb + (s.cc + 1) % 2 ^ 32) % 2 ^ 32⟩).a,
        bb := (passLoop 32 2 10 Isaac.laneOp
          ⟨s.randmem, s.randrsl, s.aa, (s.bb + (s.cc + 1) % 2 ^ 32) % 2 ^ 32⟩).b,
        cc := (s.cc + 1) % 2 ^ 32 } := by
  have h : (fun k : Fin 64 => Isaac.isaacBlock (4 * k.val)) =
      fun k => laneBlock 32 2 10 Isaac.laneOp (4 * k.val) :=
    funext fun k => funext fun p => Isaac.isaacBlock_eq_lanes _ p
  unfold Isaac.isaac passLoop
  rw [h]
  rfl

theorem Isaac.seedPass1_eq32 (k : Fin 32) (v : Regs) (ctx : Isaac) :
    Isaac.seedPass1 k (v, ctx) =
      ((fill1 32 Isaac.scrambleRound ctx.randrsl k (v, ctx.randmem)).1,
        { ctx with randmem := (fill1 32 Isaac.scrambleRound ctx.randrsl k (v, ctx.randmem)).2 }) :=
  rfl

theorem Isaac.seedPass2_eq32 (k : Fin 32) (v : Regs) (ctx : Isaac) :
    Isaac.seedPass2 k (v, ctx) =
      ((fill2 32 Isaac.scrambleRound k (v, ctx.randmem)).1,
        { ctx with randmem := (fill2 32 Isaac.scrambleRound k (v, ctx.randmem)).2 }) :=
  rfl

theorem Isaac.noSeedPass_eq32 (k : Fin 32) (v : Regs) (ctx : Isaac) :
    Isaac.noSeedPass k (v, ctx) =
      ((fill0 Isaac.scrambleRound k (v, ctx.randmem)).1,
        { ctx with randmem := (fill0 Isaac.scrambleRound k (v, ctx.randmem)).2 }) :=
  rfl

theorem Isaac64.randInit_eq64 (s : Isaac64) :
    Isaac64.randInit true s =
      { Isaac64.isaac64
          { s with randmem :=
              (seededMem 64 Isaac64.scrambleRound Isaac64.scrambled s.randrsl s.randmem) }
        with randcnt := 256 } := by
  have k1 := forLoop_rel
    (fun _ (x : Regs × Isaac64) (y : Regs × Words) => x.1 = y.1 ∧ x.2 = { s with randmem := y.2 })
    32 Isaac64.seedPass1 (fill1 64 Isaac64.scrambleRound s.randrsl)
    (Isaac64.scrambled, s) (Isaac64.scrambled, s.randmem) ⟨rfl, rfl⟩
    (by
      rintro k ⟨v, ctx⟩ ⟨v', m⟩ ⟨e1, e2⟩
      simp only at e1 e2
      subst e1 e2
      rw [Isaac64.seedPass1_eq64]
      exact ⟨rfl, rfl⟩)
  have k2 := forLoop_rel
    (fun _ (x : Regs × Isaac64) (y : Regs × Words) => x.1 = y.1 ∧ x.2 = { s with randmem := y.2 })
    32 Isaac64.seedPass2 (fill2 64 Isaac64.scrambleRound) _ _ k1
    (by
      rintro k ⟨v, ctx⟩ ⟨v', m⟩ ⟨e1, e2⟩
      simp only at e1 e2
      subst e1 e2
      rw [Isaac64.seedPass2_eq64]
      exact ⟨rfl, rfl⟩)
  show ({ Isaac64.isaac64 (forLoop 32 Isaac64.seedPass2
    (forLoop 32 Isaac64.seedPass1 (Isaac64.scrambled, s))).2 with randcnt := 256 } : Isaac64) = _
  rw [k2.2]
  rfl

theorem Isaac.randInit_eq32 (s : Isaac) :
    Isaac.randInit true s =
      { Isaac.isaac
          { s with randmem :=
              (seededMem 32 Isaac.scrambleRound Isaac.scrambled s.randrsl s.randmem) }
        with randcnt := 256 } := by
  have k1 := forLoop_rel
    (fun _ (x : Regs × Isaac) (y : Regs × Words) => x.1 = y.1 ∧ x.2 = { s with randmem := y.2 })
    32 Isaac.seedPass1 (fill1 32 Isaac.scrambleRound s.randrsl)
    (Isaac.scrambled, s) (Isaac.scrambled, s.randmem) ⟨rfl, rfl⟩
    (by
      rintro k ⟨v, ctx⟩ ⟨v', m⟩ ⟨e1, e2⟩
      simp only at e1 e2
      subst e1 e2
      rw [Isaac.seedPass1_eq32]
      exact ⟨rfl, rfl⟩)
  have k2 := forLoop_rel
    (fun _ (x : Regs × Isaac) (y : Regs × Words) => x.1 = y.1 ∧ x.2 = { s with randmem := y.2 })
    32 Isaac.seedPass2 (fill2 32 Isaac.scrambleRound) _ _ k1
    (by
      rintro k ⟨v, ctx⟩ ⟨v', m⟩ ⟨e1, e2⟩
      simp only at e1 e2
      subst e1 e2
      rw [Isaac.seedPass2_eq32]
      exact ⟨rfl, rfl⟩)
  show ({ Isaac.isaac (forLoop 32 Isaac.seedPass2
    (forLoop 32 Isaac.seedPass1 (Isaac.scrambled, s))).2 with randcnt := 256 } : Isaac) = _
  rw [k2.2]
  rfl

/-! ## The output cursor -/

theorem Isaac.next_of_zero {s : Isaac} (h : s.randcnt = 0) :
    Isaac.next s =
      some ((Isaac.isaac s).randrsl.get 255, { Isaac.isaac s with randcnt := 255 }) := by
  simp only [Isaac.next, h, if_true]

theorem Isaac.next_of_pos {s : Isaac} (h0 : s.randcnt ≠ 0) (h : s.randcnt ≤ 256) :
    Isaac.next s =
      some (s.randrsl.get ⟨s.randcnt - 1, by omega⟩, { s with randcnt := s.randcnt - 1 }) := by
  have hlt : s.randcnt - 1 < 256 := by omega
  simp only [Isaac.next, h0, if_false, hlt, dite_true]

theorem Isaac64.next_of_zero64 {s : Isaac64} (h : s.randcnt = 0) :
    Isaac64.next s =
      some ((Isaac64.isaac64 s).randrsl.get 255, { Isaac64.isaac64 s with randcnt := 255 }) := by
  simp only [Isaac64.next, h, if_true]

theorem Isaac64.next_of_pos64 {s : Isaac64} (h0 : s.randcnt ≠ 0) (h : s.randcnt ≤ 256) :
    Isaac64.next s =
      some (s.randrsl.get ⟨s.randcnt - 1, by omega⟩, { s with randcnt := s.randcnt - 1 }) := by
  have hlt : s.randcnt - 1 < 256 := by omega
  simp only [Isaac64.next, h0, if_false, hlt, dite_true]

theorem Isaac.next_valid {t : Isaac} (ht : t.randcnt ≤ 256) :
    ∃ v u, Isaac.next t = some (v, u) ∧ u.randcnt ≤ 256 := by
  by_cases h0 : t.randcnt = 0
  · exact ⟨_, _, Isaac.next_of_zero h0, by show (255 : Nat) ≤ 256; decide⟩
  · exact ⟨_, _, Isaac.next_of_pos h0 ht, by show t.randcnt - 1 ≤ 256; omega⟩

theorem Isaac.uint64_eq_bind (s : Isaac) :
    Isaac.Uint64 s =
      (Isaac.Uint32 s).bind (fun x =>
        (Isaac.Uint32 x.2).map (fun y => (((x.1 <<< 32) % 2 ^ 64) ||| y.1, y.2))) := by
  unfold Isaac.Uint64 Isaac.Uint32
  cases h1 : Isaac.next s with
  | none => rfl
  | some x =>
    obtain ⟨a, s1⟩ := x
    cases h2 : Isaac.next s1 with
    | none => simp [h2]
    | some y => simp [h2]

theorem Isaac.uint64_total {s : Isaac} (h : s.randcnt ≤ 256) :
    ∃ a s1 b s2, Isaac.Uint32 s = some (a, s1) ∧ Isaac.Uint32 s1 = some (b, s2) ∧
      Isaac.Uint64 s = some (((a <<< 32) % 2 ^ 64) ||| b, s2) := by
  obtain ⟨a, s1, h1, hs1⟩ := Isaac.next_valid h
  obtain ⟨b, s2, h2, -⟩ := Isaac.next_valid hs1
  refine ⟨a, s1, b, s2, h1, h2, ?_⟩
  rw [Isaac.uint64_eq_bind]
  simp only [Isaac.Uint32, h1, h2, Option.some_bind, Option.map_some']

/-! ### The cursor -/

theorem Isaac.next_cursor {s t : Isaac} {v : Nat} (h : Isaac.next s = some (v, t)) :
    t.randcnt < 256 := by
  unfold Isaac.next at h
  split at h
  · simp only [Option.some.injEq, Prod.mk.injEq] at h
    rw [← h.2]
    show (255 : Nat) < 256
    decide
  · dsimp only at h
    split at h
    · rename_i hlt
      simp only [Option.some.injEq, Prod.mk.injEq] at h
      rw [← h.2]
      exact hlt
    · exact absurd h (by simp)

theorem Isaac64.next_cursor64 {s t : Isaac64} {v : Nat} (h : Isaac64.next s = some (v, t)) :
    t.randcnt < 256 := by
  unfold Isaac64.next at h
  split at h
  · simp only [Option.some.injEq, Prod.mk.injEq] at h
    rw [← h.2]
    show (255 : Nat) < 256
    decide
  · dsimp only at h
    split at h
    · rename_i hlt
      simp only [Option.some.injEq, Prod.mk.injEq] at h
      rw [← h.2]
      exact hlt
    · exact absurd h (by simp)

theorem Isaac.next_total {s : Isaac} (h : s.randcnt ≤ 256) : (Isaac.next s).isSome = true := by
  by_cases h0 : s.randcnt = 0
  · rw [Isaac.next_of_zero h0]; rfl
  · rw [Isaac.next_of_pos h0 h]; rfl

theorem Isaac64.next_total64 {s : Isaac64} (h : s.randcnt ≤ 256) :
    (Isaac64.next s).isSome = true := by
  by_cases h0 : s.randcnt = 0
  · rw [Isaac64.next_of_zero64 h0]; rfl
  · rw [Isaac64.next_of_pos64 h0 h]; rfl

theorem Isaac.uint64_cursor {s t : Isaac} {v : Nat} (h : Isaac.Uint64 s = some (v, t)) :
    t.randcnt < 256 := by
  unfold Isaac.Uint64 at h
  cases h1 : Isaac.next s with
  | none => simp [h1] at h
  | some x =>
    obtain ⟨a, s1⟩ := x
    cases h2 : Isaac.next s1 with
    | none => simp [h1, h2] at h
    | some y =>
      obtain ⟨b, s2⟩ := y
      simp only [h1, h2, Option.some.injEq, Prod.mk.injEq] at h
      rw [← h.2]
      exact Isaac.next_cursor h2

theorem Isaac.seedBytes_some {bo : ByteOrder} {b : List Byte} {s t : Isaac}
    (h : Isaac.SeedBytes bo b s = some t) :
    ∃ r : Words, t = Isaac.randInit true { s with randrsl := r } := by
  unfold Isaac.SeedBytes at h
  dsimp only at h
  generalize (if b.length > 1024 then b.take 1024 else b) = seed at h
  cases seed with
  | nil => exact absurd h (by simp)
  | cons x xs =>
    dsimp only at h
    cases hc : unsafeCopy (Words.toBytes bo 4 s.randrsl) (x :: xs) (x :: xs).length with
    | none => rw [hc] at h; exact absurd h (by simp)
    | some mem =>
      rw [hc] at h
      simp only [Option.some.injEq] at h
      exact ⟨_, h.symm⟩

theorem Isaac64.seedBytes_some64 {bo : ByteOrder} {b : List Byte} {s t : Isaac64}
    (h : Isaac64.SeedBytes bo b s = some t) :
    ∃ r : Words, t = Isaac64.randInit true { s with randrsl := r } := by
  unfold Isaac64.SeedBytes at h
  dsimp only at h
  generalize (if b.length > 2048 then b.take 2048 else b) = seed at h
  cases seed with
  | nil => exact absurd h (by simp)
  | cons x xs =>
    dsimp only at h
    cases hc : unsafeCopy (Words.toBytes bo 8 s.randrsl) (x :: xs) (x :: xs).length with
    | none => rw [hc] at h; exact absurd h (by simp)
    | some mem =>
      rw [hc] at h
      simp only [Option.some.injEq] at h
      exact ⟨_, h.symm⟩

theorem Isaac.reachable_cursor {s : Isaac} (h : Isaac.Reachable s) : s.randcnt ≤ 256 := by
  induction h with
  | new => show (0 : Nat) ≤ 256; decide
  | seed v _ _ => exact Nat.le_refl 256
  | seedBytes bo b _ hb _ =>
    obtain ⟨r, rfl⟩ := Isaac.seedBytes_some hb
    exact Nat.le_refl 256
  | seedString bo b _ hb _ =>
    obtain ⟨r, rfl⟩ := Isaac.seedBytes_some hb
    exact Nat.le_refl 256
  | uint32 _ hn _ => exact Nat.le_of_lt (Isaac.next_cursor hn)
  | uint64 _ hn _ => exact Nat.le_of_lt (Isaac.uint64_cursor hn)
  | int63 _ hn _ =>
    unfold Isaac.Int63 at hn
    obtain ⟨x, hx, e⟩ := Option.map_eq_some'.mp hn
    simp only [Prod.mk.injEq] at e
    rw [← e.2]
    exact Nat.le_of_lt (Isaac.uint64_cursor (v := x.1) (t := x.2) hx)
  | int31 _ hn _ =>
    unfold Isaac.Int31 Isaac.Int63 at hn
    obtain ⟨y, hy, e⟩ := Option.map_eq_some'.mp hn
    obtain ⟨x, hx, e'⟩ := Option.map_eq_some'.mp hy
    simp only [Prod.mk.injEq] at e
    rw [← e.2, ← e']
    exact Nat.le_of_lt (Isaac.uint64_cursor (v := x.1) (t := x.2) hx)
  | int bits _ hn _ =>
    unfold Isaac.Int at hn
    obtain ⟨x, hx, e⟩ := Option.map_eq_some'.mp hn
    simp only [Prod.mk.injEq] at e
    rw [← e.2]
    exact Nat.le_of_lt (Isaac.uint64_cursor (v := x.1) (t := x.2) hx)

theorem Isaac64.reachable_cursor64 {s : Isaac64} (h : Isaac64.Reachable s) :
    s.randcnt ≤ 256 := by
  induction h with
  | new => show (0 : Nat) ≤ 256; decide
  | seed v _ _ => exact Nat.le_refl 256
  | seedBytes bo b _ hb _ =>
    obtain ⟨r, rfl⟩ := Isaac64.seedBytes_some64 hb
    exact Nat.le_refl 256
  | seedString bo b _ hb _ =>
    obtain ⟨r, rfl⟩ := Isaac64.seedBytes_some64 hb
    exact Nat.le_refl 256
  | uint32 _ hn _ =>
    unfold Isaac64.Uint32 at hn
    obtain ⟨x, hx, e⟩ := Option.map_eq_some'.mp hn
    simp only [Prod.mk.injEq] at e
    rw [← e.2]
    exact Nat.le_of_lt (Isaac64.next_cursor64 (v := x.1) (t := x.2) hx)
  | uint64 _ hn _ => exact Nat.le_of_lt (Isaac64.next_cursor64 hn)
  | int63 _ hn _ =>
    unfold Isaac64.Int63 Isaac64.Uint64 at hn
    obtain ⟨x, hx, e⟩ := Option.map_eq_some'.mp hn
    simp only [Prod.mk.injEq] at e
    rw [← e.2]
    exact Nat.le_of_lt (Isaac64.next_cursor64 (v := x.1) (t := x.2) hx)
  | int31 _ hn _ =>
    unfold Isaac64.Int31 Isaac64.Int63 Isaac64.Uint64 at hn
    obtain ⟨y, hy, e⟩ := Option.map_eq_some'.mp hn
    obtain ⟨x, hx, e'⟩ := Option.map_eq_some'.mp hy
    simp only [Prod.mk.injEq] at e
    rw [← e.2, ← e']
    exact Nat.le_of_lt (Isaac64.next_cursor64 (v := x.1) (t := x.2) hx)
  | int bits _ hn _ =>
    unfold Isaac64.Int Isaac64.Uint64 at hn
    obtain ⟨x, hx, e⟩ := Option.map_eq_some'.mp hn
    simp only [Prod.mk.injEq] at e
    rw [← e.2]
    exact Nat.le_of_lt (Isaac64.next_cursor64 (v := x.1) (t := x.2) hx)

/-- C9: in every state reachable from `NewIsaac()` (resp. `NewIsaac64()`) by `Seed`, by the
calls of `SeedBytes` and `SeedString` that return, and by the accessors, the cursor is at most
256, and `next` finds its index inside `randrsl`: it returns. -/
theorem cursor_range :
    (∀ s : Isaac, Isaac.Reachable s → s.randcnt ≤ 256 ∧ (Isaac.next s).isSome = true) ∧
    (∀ s : Isaac64, Isaac64.Reachable s → s.randcnt ≤ 256 ∧ (Isaac64.next s).isSome = true) :=
  ⟨fun _ h => ⟨Isaac.reachable_cursor h, Isaac.next_total (Isaac.reachable_cursor h)⟩,
    fun _ h => ⟨Isaac64.reachable_cursor64 h, Isaac64.next_total64 (Isaac64.reachable_cursor64 h)⟩⟩

/-- The state after `Seed(1)` on a fresh generator is reachable and its cursor is at most 256. -/
theorem cursor_range_witness :
    (Isaac.Reachable (Isaac.Seed 1 NewIsaac) ∧ Isaac64.Reachable (Isaac64.Seed 1 NewIsaac64)) ∧
    (Isaac.Seed 1 NewIsaac).randcnt ≤ 256 ∧ (Isaac64.Seed 1 NewIsaac64).randcnt ≤ 256 :=
  ⟨⟨Isaac.Reachable.seed 1 Isaac.Reachable.new, Isaac64.Reachable.seed 1 Isaac64.Reachable.new⟩,
    (cursor_range.1 _ (Isaac.Reachable.seed 1 Isaac.Reachable.new)).1,
    (cursor_range.2 _ (Isaac64.Reachable.seed 1 Isaac64.Reachable.new)).1⟩

/-! ### The signed accessors -/

theorem uintMask_eq : uintMask = 2 ^ 63 - 1 := by decide

theorem toInt64_mask (u : Nat) :
    0 ≤ toInt64 (u &&& uintMask) ∧ toInt64 (u &&& uintMask) < 2 ^ 63 := by
  have h : u &&& uintMask ≤ 2 ^ 63 - 1 := uintMask_eq ▸ Nat.and_le_right
  have h1 : (u &&& uintMask) % 2 ^ 64 = u &&& uintMask := Nat.mod_eq_of_lt (by omega)
  have h2 : (u &&& uintMask) < 2 ^ 63 := by omega
  unfold toInt64
  rw [h1, if_pos h2]
  exact ⟨Int.natCast_nonneg _, by exact_mod_cast h2⟩

theorem toInt32_shift {v : ℤ} (h0 : 0 ≤ v) (h1 : v < 2 ^ 63) :
    0 ≤ toInt32 (Int.shiftRight v 32) ∧ toInt32 (Int.shiftRight v 32) < 2 ^ 31 := by
  have e : Int.shiftRight v 32 = v / 2 ^ 32 := Int.shiftRight_eq_div_pow v 32
  rw [e]
  unfold toInt32
  norm_num at h1 ⊢
  have a : 0 ≤ v / 4294967296 := by omega
  have b : v / 4294967296 < 2147483648 := by omega
  have c : v / 4294967296 % 4294967296 = v / 4294967296 := by omega
  rw [c, if_pos b]
  exact ⟨a, b⟩

/-- C8: `Int63` never returns a value outside `[0, 2^63)` and `Int31` never one outside
`[0, 2^31)`, in either variant and from any state; from a state whose cursor is at most 256
both return. -/
theorem accessors_nonneg :
    (∀ s : Isaac,
      (∀ v t, Isaac.Int63 s = some (v, t) → 0 ≤ v ∧ v < 2 ^ 63) ∧
      (∀ v t, Isaac.Int31 s = some (v, t) → 0 ≤ v ∧ v < 2 ^ 31) ∧
      (s.randcnt ≤ 256 → (Isaac.Int63 s).isSome = true ∧ (Isaac.Int31 s).isSome = true)) ∧
    (∀ s : Isaac64,
      (∀ v t, Isaac64.Int63 s = some (v, t) → 0 ≤ v ∧ v < 2 ^ 63) ∧
      (∀ v t, Isaac64.Int31 s = some (v, t) → 0 ≤ v ∧ v < 2 ^ 31) ∧
      (s.randcnt ≤ 256 → (Isaac64.Int63 s).isSome = true ∧ (Isaac64.Int31 s).isSome = true)) := by
  constructor
  · intro s
    have h63 : ∀ v t, Isaac.Int63 s = some (v, t) → 0 ≤ v ∧ v < 2 ^ 63 := by
      intro v t h
      unfold Isaac.Int63 at h
      obtain ⟨x, _, e⟩ := Option.map_eq_some'.mp h
      simp only [Prod.mk.injEq] at e
      rw [← e.1]
      exact toInt64_mask x.1
    refine ⟨h63, ?_, ?_⟩
    · intro v t h
      unfold Isaac.Int31 at h
      obtain ⟨y, hy, e⟩ := Option.map_eq_some'.mp h
      simp only [Prod.mk.injEq] at e
      rw [← e.1]
      have := h63 y.1 y.2 hy
      exact toInt32_shift this.1 this.2
    · intro hc
      obtain ⟨a, s1, b, s2, -, -, hu⟩ := Isaac.uint64_total hc
      simp only [Isaac.Int31, Isaac.Int63, hu, Option.map_some', Option.isSome_some, and_self]
  · intro s
    have h63 : ∀ v t, Isaac64.Int63 s = some (v, t) → 0 ≤ v ∧ v < 2 ^ 63 := by
      intro v t h
      unfold Isaac64.Int63 at h
      obtain ⟨x, _, e⟩ := Option.map_eq_some'.mp h
      simp only [Prod.mk.injEq] at e
      rw [← e.1]
      exact toInt64_mask x.1
    refine ⟨h63, ?_, ?_⟩
    · intro v t h
      unfold Isaac64.Int31 at h
      obtain ⟨y, hy, e⟩ := Option.map_eq_some'.mp h
      simp only [Prod.mk.injEq] at e
      rw [← e.1]
      have := h63 y.1 y.2 hy
      exact toInt32_shift this.1 this.2
    · intro hc
      obtain ⟨x, hx⟩ := Option.isSome_iff_exists.mp (Isaac64.next_total64 hc)
      simp only [Isaac64.Int31, Isaac64.Int63, Isaac64.Uint64, hx, Option.map_some',
        Option.isSome_some, and_self]

/-- The signed accessors return on the fresh generators. -/
theorem accessors_nonneg_witness :
    (0 : Nat) ≤ 256 ∧ (Isaac.Int63 NewIsaac).isSome = true ∧
      (Isaac64.Int31 NewIsaac64).isSome = true :=
  ⟨by decide, ((accessors_nonneg.1 NewIsaac).2.2 (by decide)).1,
    ((accessors_nonneg.2 NewIsaac64).2.2 (by decide)).2⟩

/-! ### Seeding from bytes -/

theorem unsafeCopy_some : ∀ (dst src : List Byte), src.length ≤ dst.length →
    unsafeCopy dst src src.length = some (src ++ dst.drop src.length)
  | dst, [], _ => by simp [unsafeCopy]
  | [], _ :: _, h => by simp at h
  | d :: dst, b :: src, h => by
    have ih := unsafeCopy_some dst src (by simpa using h)
    simp only [List.length_cons, unsafeCopy, ih, Option.map_some', List.cons_append,
      List.drop_succ_cons]

theorem wordBytes_length (bo : ByteOrder) (w x : Nat) : (wordBytes bo w x).length = w := by
  cases bo <;> simp [wordBytes]

theorem Words.toBytes_length (bo : ByteOrder) (w : Nat) (v : Words) :
    (v.toBytes bo w).length = 256 * w := by
  have key : ∀ l : List Nat, (l.flatMap (wordBytes bo w)).length = l.length * w := by
    intro l
    induction l with
    | nil => simp
    | cons x xs ih =>
      simp only [List.flatMap_cons, List.length_append, ih, wordBytes_length, List.length_cons]
      ring
  unfold Words.toBytes
  rw [key, Mathlib.Vector.toList_length]

/-- C6: a seed longer than the capacity (1024 bytes for `Isaac`, 2048 for `Isaac64`) is cut to
the capacity: from any state `SeedBytes(b)` gives what `SeedBytes` of the first 1024 (2048)
bytes of `b` gives, it returns, and the copy fills exactly the memory of `randrsl`, never a
byte outside it. -/
theorem seedBytes_truncation :
    (∀ (bo : ByteOrder) (b : List Byte) (s : Isaac), b.length > 1024 →
      Isaac.SeedBytes bo b s = Isaac.SeedBytes bo (b.take 1024) s ∧
      (Isaac.SeedBytes bo b s).isSome = true ∧
      unsafeCopy (s.randrsl.toBytes bo 4) (b.take 1024) (b.take 1024).length
        = some (b.take 1024)) ∧
    (∀ (bo : ByteOrder) (b : List Byte) (s : Isaac64), b.length > 2048 →
      Isaac64.SeedBytes bo b s = Isaac64.SeedBytes bo (b.take 2048) s ∧
      (Isaac64.SeedBytes bo b s).isSome = true ∧
      unsafeCopy (s.randrsl.toBytes bo 8) (b.take 2048) (b.take 2048).length
        = some (b.take 2048)) := by
  constructor
  · intro bo b s h
    have hl : (b.take 1024).length = 1024 := by rw [List.length_take]; omega
    have hn : ¬ (b.take 1024).length > 1024 := by omega
    have hc : unsafeCopy (s.randrsl.toBytes bo 4) (b.take 1024) (b.take 1024).length
        = some (b.take 1024) := by
      rw [unsafeCopy_some _ _ (by rw [Words.toBytes_length, hl])]
      rw [List.drop_eq_nil_of_le (by rw [Words.toBytes_length, hl]), List.append_nil]
    have e : Isaac.SeedBytes bo b s = Isaac.SeedBytes bo (b.take 1024) s := by
      unfold Isaac.SeedBytes
      simp only [h, hn, if_true, if_false]
    refine ⟨e, ?_, hc⟩
    rw [e]
    unfold Isaac.SeedBytes
    simp only [hn, if_false]
    cases hb : b.take 1024 with
    | nil => rw [hb] at hl; simp at hl
    | cons x xs =>
      rw [hb] at hc
      simp only [hc, Option.isSome_some]
  · intro bo b s h
    have hl : (b.take 2048).length = 2048 := by rw [List.length_take]; omega
    have hn : ¬ (b.take 2048).length > 2048 := by omega
    have hc : unsafeCopy (s.randrsl.toBytes bo 8) (b.take 2048) (b.take 2048).length
        = some (b.take 2048) := by
      rw [unsafeCopy_some _ _ (by rw [Words.toBytes_length, hl])]
      rw [List.drop_eq_nil_of_le (by rw [Words.toBytes_length, hl]), List.append_nil]
    have e : Isaac64.SeedBytes bo b s = Isaac64.SeedBytes bo (b.take 2048) s := by
      unfold Isaac64.SeedBytes
      simp only [h, hn, if_true, if_false]
    refine ⟨e, ?_, hc⟩
    rw [e]
    unfold Isaac64.SeedBytes
    simp only [hn, if_false]
    cases hb : b.take 2048 with
    | nil => rw [hb] at hl; simp at hl
    | cons x xs =>
      rw [hb] at hc
      simp only [hc, Option.isSome_some]

/-- Seeds of `cap + 100` bytes are cut to `cap` bytes. -/
theorem seedBytes_truncation_witness :
    ((List.replicate 1124 (7 : Byte)).length > 1024 ∧
      (List.replicate 2148 (7 : Byte)).length > 2048) ∧
    Isaac.SeedBytes ByteOrder.little (List.replicate 1124 7) NewIsaac
      = Isaac.SeedBytes ByteOrder.little ((List.replicate 1124 7).take 1024) NewIsaac ∧
    Isaac64.SeedBytes ByteOrder.little (List.replicate 2148 7) NewIsaac64
      = Isaac64.SeedBytes ByteOrder.little ((List.replicate 2148 7).take 2048) NewIsaac64 :=
  ⟨⟨by rw [List.length_replicate]; decide, by rw [List.length_replicate]; decide⟩,
    (seedBytes_truncation.1 ByteOrder.little (List.replicate 1124 7) NewIsaac
      (by rw [List.length_replicate]; decide)).1,
    (seedBytes_truncation.2 ByteOrder.little (List.replicate 2148 7) NewIsaac64
      (by rw [List.length_replicate]; decide)).1⟩

/-! ### Re-seeding (Isaac) -/

theorem Isaac.randInit_agree32 {s t : Isaac} (hr : s.randrsl = t.randrsl) (ha : s.aa = t.aa)
    (hb : s.bb = t.bb) (hc : s.cc = t.cc) :
    Isaac.randInit true s = Isaac.randInit true t := by
  obtain ⟨srsl, smem, scnt, saa, sbb, scc⟩ := s
  obtain ⟨trsl, tmem, tcnt, taa, tbb, tcc⟩ := t
  simp only at hr ha hb hc
  subst hr ha hb hc
  rw [Isaac.randInit_eq32, Isaac.randInit_eq32,
    seededMem_agree 32 Isaac.scrambleRound Isaac.scrambled srsl smem tmem,
    Isaac.isaac_eq, Isaac.isaac_eq]

theorem Isaac.randInit_cc32 (s : Isaac) :
    (Isaac.randInit true s).cc = (s.cc + 1) % 2 ^ 32 := by
  rw [Isaac.randInit_eq32, Isaac.isaac_eq]

theorem Isaac.seedBytes_agree32 (bo : ByteOrder) (b : List Byte) {s t : Isaac}
    (hr : s.randrsl = t.randrsl) (ha : s.aa = t.aa) (hb : s.bb = t.bb) (hc : s.cc = t.cc) :
    Isaac.SeedBytes bo b s = Isaac.SeedBytes bo b t := by
  unfold Isaac.SeedBytes
  dsimp only
  rw [hr]
  generalize (if b.length > 1024 then b.take 1024 else b) = seed
  cases seed with
  | nil => rfl
  | cons x xs =>
    dsimp only
    cases unsafeCopy (Words.toBytes bo 4 t.randrsl) (x :: xs) (x :: xs).length with
    | none => rfl
    | some mem => exact congrArg some (Isaac.randInit_agree32 rfl ha hb hc)
/-! ### Re-seeding (Isaac64) -/

theorem Isaac64.randInit_agree64 {s t : Isaac64} (hr : s.randrsl = t.randrsl) (ha : s.aa = t.aa)
    (hb : s.bb = t.bb) (hc : s.cc = t.cc) :
    Isaac64.randInit true s = Isaac64.randInit true t := by
  obtain ⟨srsl, smem, scnt, saa, sbb, scc⟩ := s
  obtain ⟨trsl, tmem, tcnt, taa, tbb, tcc⟩ := t
  simp only at hr ha hb hc
  subst hr ha hb hc
  rw [Isaac64.randInit_eq64, Isaac64.randInit_eq64,
    seededMem_agree 64 Isaac64.scrambleRound Isaac64.scrambled srsl smem tmem,
    Isaac64.isaac64_eq, Isaac64.isaac64_eq]

theorem Isaac64.randInit_cc64 (s : Isaac64) :
    (Isaac64.randInit true s).cc = (s.cc + 1) % 2 ^ 64 := by
  rw [Isaac64.randInit_eq64, Isaac64.isaac64_eq]

theorem Isaac64.seedBytes_agree64 (bo : ByteOrder) (b : List Byte) {s t : Isaac64}
    (hr : s.randrsl = t.randrsl) (ha : s.aa = t.aa) (hb : s.bb = t.bb) (hc : s.cc = t.cc) :
    Isaac64.SeedBytes bo b s = Isaac64.SeedBytes bo b t := by
  unfold Isaac64.SeedBytes
  dsimp only
  rw [hr]
  generalize (if b.length > 2048 then b.take 2048 else b) = seed
  cases seed with
  | nil => rfl
  | cons x xs =>
    dsimp only
    cases unsafeCopy (Words.toBytes bo 8 t.randrsl) (x :: xs) (x :: xs).length with
    | none => rfl
    | some mem => exact congrArg some (Isaac64.randInit_agree64 rfl ha hb hc)
/-- C3, counterexample: seeding an already seeded `Isaac` again with the same seed does not
give the state of the first seeding, let alone the state a fresh generator gets from that
seed: `cc` is one pass further. -/
theorem reseed_residue :
    Isaac.Seed 0 (Isaac.Seed 0 NewIsaac) ≠ Isaac.Seed 0 NewIsaac := by
  intro h
  have hcc := congrArg Isaac.cc h
  simp only [Isaac.Seed, Isaac.randInit_cc32] at hcc
  exact absurd hcc (by decide)

/-- C3, as amended: what a seeding call leaves is fixed by the seed together with the prior
`aa`, `bb`, `cc` and the prior words of `randrsl` that the call does not overwrite; the prior
`randmem` and cursor leave no trace.  For `Seed` the words from 2 on (`Isaac`) or from 1 on
(`Isaac64`) are not overwritten. -/
theorem reseed_determined :
    (∀ (v : ℤ) (s t : Isaac), (∀ i : Fin 256, 2 ≤ i.val → s.randrsl.get i = t.randrsl.get i) →
      s.aa = t.aa → s.bb = t.bb → s.cc = t.cc → Isaac.Seed v s = Isaac.Seed v t) ∧
    (∀ (bo : ByteOrder) (b : List Byte) (s t : Isaac), s.randrsl = t.randrsl →
      s.aa = t.aa → s.bb = t.bb → s.cc = t.cc →
      Isaac.SeedBytes bo b s = Isaac.SeedBytes bo b t ∧
      Isaac.SeedString bo b s = Isaac.SeedString bo b t) ∧
    (∀ (v : ℤ) (s t : Isaac64), (∀ i : Fin 256, 1 ≤ i.val → s.randrsl.get i = t.randrsl.get i) →
      s.aa = t.aa → s.bb = t.bb → s.cc = t.cc → Isaac64.Seed v s = Isaac64.Seed v t) ∧
    (∀ (bo : ByteOrder) (b : List Byte) (s t : Isaac64), s.randrsl = t.randrsl →
      s.aa = t.aa → s.bb = t.bb → s.cc = t.cc →
      Isaac64.SeedBytes bo b s = Isaac64.SeedBytes bo b t ∧
      Isaac64.SeedString bo b s = Isaac64.SeedString bo b t) := by
  refine ⟨?_, ?_, ?_, ?_⟩
  · intro v s t hr ha hb hc
    refine Isaac.randInit_agree32 (Mathlib.Vector.ext fun i => ?_) ha hb hc
    simp only [Mathlib.Vector.get_set_eq_if]
    by_cases h1 : (1 : Fin 256) = i
    · simp only [h1, if_true]
    · by_cases h0 : (0 : Fin 256) = i
      · simp only [h1, h0, if_true, if_false]
      · simp only [h1, h0, if_false]
        apply hr
        have n0 : (0 : Fin 256).val ≠ i.val := fun e => h0 (Fin.ext e)
        have n1 : (1 : Fin 256).val ≠ i.val := fun e => h1 (Fin.ext e)
        have z0 : (0 : Fin 256).val = 0 := rfl
        have z1 : (1 : Fin 256).val = 1 := rfl
        omega
  · intro bo b s t hr ha hb hc
    exact ⟨Isaac.seedBytes_agree32 bo b hr ha hb hc, Isaac.seedBytes_agree32 bo b hr ha hb hc⟩
  · intro v s t hr ha hb hc
    refine Isaac64.randInit_agree64 (Mathlib.Vector.ext fun i => ?_) ha hb hc
    simp only [Mathlib.Vector.get_set_eq_if]
    by_cases h0 : (0 : Fin 256) = i
    · simp only [h0, if_true]
    · simp only [h0, if_false]
      apply hr
      have n0 : (0 : Fin 256).val ≠ i.val := fun e => h0 (Fin.ext e)
      have z0 : (0 : Fin 256).val = 0 := rfl
      omega
  · intro bo b s t hr ha hb hc
    exact ⟨Isaac64.seedBytes_agree64 bo b hr ha hb hc, Isaac64.seedBytes_agree64 bo b hr ha hb hc⟩

/-- A generator with a changed mixing array and cursor is seeded like a fresh one. -/
theorem reseed_determined_witness :
    (({ NewIsaac with randmem := Words.zero.set 3 9, randcnt := 17 } : Isaac).randrsl
        = NewIsaac.randrsl ∧
      ({ NewIsaac64 with randmem := Words.zero.set 3 9, randcnt := 17 } : Isaac64).randrsl
        = NewIsaac64.randrsl) ∧
    Isaac.Seed 5 { NewIsaac with randmem := Words.zero.set 3 9, randcnt := 17 }
      = Isaac.Seed 5 NewIsaac ∧
    Isaac64.SeedBytes ByteOrder.little [1, 2, 3]
        { NewIsaac64 with randmem := Words.zero.set 3 9, randcnt := 17 }
      = Isaac64.SeedBytes ByteOrder.little [1, 2, 3] NewIsaac64 :=
  ⟨⟨rfl, rfl⟩,
    reseed_determined.1 5 { NewIsaac with randmem := Words.zero.set 3 9, randcnt := 17 } NewIsaac
      (fun _ _ => rfl) rfl rfl rfl,
    (reseed_determined.2.2.2 ByteOrder.little [1, 2, 3]
      { NewIsaac64 with randmem := Words.zero.set 3 9, randcnt := 17 } NewIsaac64
      rfl rfl rfl rfl).1⟩

/-! ### Draw by draw (Isaac) -/

theorem Isaac.draw_step32 (s0 : Isaac) (h : s0.randcnt = 256) (k : Nat) :
    (Isaac.nextN k s0).bind Isaac.next =
      some ((Isaac.isaac^[k / 256] s0).randrsl.get ⟨255 - k % 256, by omega⟩,
        { Isaac.isaac^[k / 256] s0 with randcnt := 255 - k % 256 }) := by
  induction k with
  | zero =>
    have h0 : s0.randcnt ≠ 0 := by omega
    show Isaac.next s0 = _
    rw [Isaac.next_of_pos h0 (by omega)]
    simp only [Nat.zero_div, Function.iterate_zero, id_eq, Nat.zero_mod, Nat.sub_zero, h]
  | succ k ih =>
    have hn : Isaac.nextN (k + 1) s0 =
        some { Isaac.isaac^[k / 256] s0 with randcnt := 255 - k % 256 } := by
      show (Isaac.nextN k s0).bind (fun t => (Isaac.next t).map (fun x => x.2)) = _
      cases hk : Isaac.nextN k s0 with
      | none => rw [hk] at ih; exact absurd ih (by simp)
      | some t =>
        rw [hk] at ih
        simp only [Option.some_bind] at ih ⊢
        rw [ih]
        rfl
    rw [hn, Option.some_bind]
    by_cases hr : k % 256 = 255
    · have hq : (k + 1) / 256 = k / 256 + 1 := by omega
      have hm : (k + 1) % 256 = 0 := by omega
      have hz : ({ Isaac.isaac^[k / 256] s0 with randcnt := 255 - k % 256 } : Isaac).randcnt
          = 0 := by show 255 - k % 256 = 0; omega
      rw [Isaac.next_of_zero hz]
      simp only [hq, hm, Function.iterate_succ_apply', Nat.sub_zero]
      rfl
    · have hq : (k + 1) / 256 = k / 256 := by omega
      have hm : (k + 1) % 256 = k % 256 + 1 := by omega
      have hz : ({ Isaac.isaac^[k / 256] s0 with randcnt := 255 - k % 256 } : Isaac).randcnt
          ≠ 0 := by show 255 - k % 256 ≠ 0; omega
      rw [Isaac.next_of_pos hz (by show 255 - k % 256 ≤ 256; omega)]
      simp only [hq, hm]
      rfl
/-! ### Draw by draw (Isaac64) -/

theorem Isaac64.draw_step64 (s0 : Isaac64) (h : s0.randcnt = 256) (k : Nat) :
    (Isaac64.nextN k s0).bind Isaac64.next =
      some ((Isaac64.isaac64^[k / 256] s0).randrsl.get ⟨255 - k % 256, by omega⟩,
        { Isaac64.isaac64^[k / 256] s0 with randcnt := 255 - k % 256 }) := by
  induction k with
  | zero =>
    have h0 : s0.randcnt ≠ 0 := by omega
    show Isaac64.next s0 = _
    rw [Isaac64.next_of_pos64 h0 (by omega)]
    simp only [Nat.zero_div, Function.iterate_zero, id_eq, Nat.zero_mod, Nat.sub_zero, h]
  | succ k ih =>
    have hn : Isaac64.nextN (k + 1) s0 =
        some { Isaac64.isaac64^[k / 256] s0 with randcnt := 255 - k % 256 } := by
      show (Isaac64.nextN k s0).bind (fun t => (Isaac64.next t).map (fun x => x.2)) = _
      cases hk : Isaac64.nextN k s0 with
      | none => rw [hk] at ih; exact absurd ih (by simp)
      | some t =>
        rw [hk] at ih
        simp only [Option.some_bind] at ih ⊢
        rw [ih]
        rfl
    rw [hn, Option.some_bind]
    by_cases hr : k % 256 = 255
    · have hq : (k + 1) / 256 = k / 256 + 1 := by omega
      have hm : (k + 1) % 256 = 0 := by omega
      have hz : ({ Isaac64.isaac64^[k / 256] s0 with randcnt := 255 - k % 256 } : Isaac64).randcnt
          = 0 := by show 255 - k % 256 = 0; omega
      rw [Isaac64.next_of_zero64 hz]
      simp only [hq, hm, Function.iterate_succ_apply', Nat.sub_zero]
      rfl
    · have hq : (k + 1) / 256 = k / 256 := by omega
      have hm : (k + 1) % 256 = k % 256 + 1 := by omega
      have hz : ({ Isaac64.isaac64^[k / 256] s0 with randcnt := 255 - k % 256 } : Isaac64).randcnt
          ≠ 0 := by show 255 - k % 256 ≠ 0; omega
      rw [Isaac64.next_of_pos64 hz (by show 255 - k % 256 ≤ 256; omega)]
      simp only [hq, hm]
      rfl
/-- C5: from a state `s0` with cursor 256, as a seeding call leaves it, the `k`-th call of
`next` (counted from 0) returns word `255 - k mod 256` of the result array of the state
reached from `s0` by `k / 256` passes, and leaves that state with cursor `255 - k mod 256`;
so the first 256 draws hand out the batch of `s0` from word 255 down to word 0 without a
pass.  Both variants. -/
theorem draws_top_down :
    (∀ (s0 : Isaac) (k : Nat), s0.randcnt = 256 →
      (Isaac.nextN k s0).bind Isaac.next =
        some ((Isaac.isaac^[k / 256] s0).randrsl.get ⟨255 - k % 256, by omega⟩,
          { Isaac.isaac^[k / 256] s0 with randcnt := 255 - k % 256 }) ∧
      (k < 256 → (Isaac.nextN k s0).bind Isaac.next =
        some (s0.randrsl.get ⟨255 - k, by omega⟩, { s0 with randcnt := 255 - k }))) ∧
    (∀ (s0 : Isaac64) (k : Nat), s0.randcnt = 256 →
      (Isaac64.nextN k s0).bind Isaac64.next =
        some ((Isaac64.isaac64^[k / 256] s0).randrsl.get ⟨255 - k % 256, by omega⟩,
          { Isaac64.isaac64^[k / 256] s0 with randcnt := 255 - k % 256 }) ∧
      (k < 256 → (Isaac64.nextN k s0).bind Isaac64.next =
        some (s0.randrsl.get ⟨255 - k, by omega⟩, { s0 with randcnt := 255 - k }))) := by
  constructor
  · intro s0 k h
    refine ⟨Isaac.draw_step32 s0 h k, fun hk => ?_⟩
    rw [Isaac.draw_step32 s0 h k]
    have hq : k / 256 = 0 := by omega
    have hm : k % 256 = k := by omega
    simp only [hq, hm, Function.iterate_zero, id_eq]
  · intro s0 k h
    refine ⟨Isaac64.draw_step64 s0 h k, fun hk => ?_⟩
    rw [Isaac64.draw_step64 s0 h k]
    have hq : k / 256 = 0 := by omega
    have hm : k % 256 = k := by omega
    simp only [hq, hm, Function.iterate_zero, id_eq]

/-- The draw number 700 after `Seed(3)` comes from the state two passes later. -/
theorem draws_top_down_witness :
    ((Isaac.Seed 3 NewIsaac).randcnt = 256 ∧ (Isaac64.Seed 3 NewIsaac64).randcnt = 256) ∧
    (Isaac.nextN 700 (Isaac.Seed 3 NewIsaac)).bind Isaac.next =
      some ((Isaac.isaac^[700 / 256] (Isaac.Seed 3 NewIsaac)).randrsl.get
          ⟨255 - 700 % 256, by omega⟩,
        { Isaac.isaac^[700 / 256] (Isaac.Seed 3 NewIsaac) with randcnt := 255 - 700 % 256 }) ∧
    (Isaac64.nextN 700 (Isaac64.Seed 3 NewIsaac64)).bind Isaac64.next =
      some ((Isaac64.isaac64^[700 / 256] (Isaac64.Seed 3 NewIsaac64)).randrsl.get
          ⟨255 - 700 % 256, by omega⟩,
        { Isaac64.isaac64^[700 / 256] (Isaac64.Seed 3 NewIsaac64) with
          randcnt := 255 - 700 % 256 }) :=
  ⟨⟨rfl, rfl⟩, (draws_top_down.1 (Isaac.Seed 3 NewIsaac) 700 rfl).1,
    (draws_top_down.2 (Isaac64.Seed 3 NewIsaac64) 700 rfl).1⟩

/-! ## The claims -/

/-- C2 (the code fails here): `SeedBytes` on the empty byte sequence, and so `SeedString` on the
empty string, panics in both variants whatever the state, because it takes the address of
`seed[0]`; it does not yield the state seeded with zeros. -/
theorem seedBytes_empty_panics (bo : ByteOrder) (s : Isaac) (t : Isaac64) :
    Isaac.SeedBytes bo [] s = none ∧ Isaac.SeedString bo [] s = none ∧
    Isaac64.SeedBytes bo [] t = none ∧ Isaac64.SeedString bo [] t = none :=
  ⟨rfl, rfl, rfl, rfl⟩

/-- C4: `next` on a state with cursor 0 runs one pass, sets the cursor to 255 and returns word
255 of the new result array; on a state with cursor `c` in 1..256 it returns `randrsl[c - 1]`
and changes nothing but the cursor, which becomes `c - 1`.  Both variants. -/
theorem next_step :
    (∀ s : Isaac,
      (s.randcnt = 0 → Isaac.next s =
        some ((Isaac.isaac s).randrsl.get 255, { Isaac.isaac s with randcnt := 255 })) ∧
      (s.randcnt ≠ 0 → ∀ h : s.randcnt ≤ 256, Isaac.next s =
        some (s.randrsl.get ⟨s.randcnt - 1, by omega⟩, { s with randcnt := s.randcnt - 1 }))) ∧
    (∀ s : Isaac64,
      (s.randcnt = 0 → Isaac64.next s =
        some ((Isaac64.isaac64 s).randrsl.get 255, { Isaac64.isaac64 s with randcnt := 255 })) ∧
      (s.randcnt ≠ 0 → ∀ h : s.randcnt ≤ 256, Isaac64.next s =
        some (s.randrsl.get ⟨s.randcnt - 1, by omega⟩, { s with randcnt := s.randcnt - 1 }))) :=
  ⟨fun _ => ⟨Isaac.next_of_zero, Isaac.next_of_pos⟩,
    fun _ => ⟨Isaac64.next_of_zero64, Isaac64.next_of_pos64⟩⟩

/-- The cursor step at a state with cursor 2: word 1 is returned and the cursor becomes 1. -/
theorem next_step_witness :
    ((2 : Nat) ≠ 0 ∧ (2 : Nat) ≤ 256) ∧
      Isaac.next { NewIsaac with randcnt := 2 } =
        some (Words.zero.get 1, { NewIsaac with randcnt := 1 }) ∧
      Isaac64.next { NewIsaac64 with randcnt := 2 } =
        some (Words.zero.get 1, { NewIsaac64 with randcnt := 1 }) :=
  ⟨⟨by decide, by decide⟩,
    (next_step.1 { NewIsaac with randcnt := 2 }).2 (by decide) (by decide),
    (next_step.2 { NewIsaac64 with randcnt := 2 }).2 (by decide) (by decide)⟩

/-- C7: on the 32-bit variant `Uint64` is two `Uint32` draws in a row, the first in the high
half: it returns `(a << 32) | b` and leaves the state the two draws leave; from a state with
cursor at most 256 both draws and `Uint64` return. -/
theorem uint64_two_draws (s : Isaac) :
    Isaac.Uint64 s =
      (Isaac.Uint32 s).bind (fun x =>
        (Isaac.Uint32 x.2).map (fun y => (((x.1 <<< 32) % 2 ^ 64) ||| y.1, y.2))) ∧
    (s.randcnt ≤ 256 → ∃ a s1 b s2, Isaac.Uint32 s = some (a, s1) ∧
      Isaac.Uint32 s1 = some (b, s2) ∧
      Isaac.Uint64 s = some (((a <<< 32) % 2 ^ 64) ||| b, s2)) :=
  ⟨Isaac.uint64_eq_bind s, Isaac.uint64_total⟩

/-- The two draws behind `Uint64` on the fresh 32-bit generator. -/
theorem uint64_two_draws_witness :
    (0 : Nat) ≤ 256 ∧ ∃ a s1 b s2, Isaac.Uint32 NewIsaac = some (a, s1) ∧
      Isaac.Uint32 s1 = some (b, s2) ∧
      Isaac.Uint64 NewIsaac = some (((a <<< 32) % 2 ^ 64) ||| b, s2) :=
  ⟨by decide, (uint64_two_draws NewIsaac).2 (by decide)⟩

/-- C10: a pass is a function of the mixing array and `aa`, `bb`, `cc` alone: two states that
agree on these (and differ at will in `randrsl` and the cursor) agree after `isaac` (resp.
`isaac64`) on `randmem`, the whole of `randrsl`, `aa`, `bb` and `cc`; and the pass leaves the
cursor unchanged. -/
theorem pass_pure_function :
    (∀ s t : Isaac, s.randmem = t.randmem → s.aa = t.aa → s.bb = t.bb → s.cc = t.cc →
      (Isaac.isaac s).randmem = (Isaac.isaac t).randmem ∧
      (Isaac.isaac s).randrsl = (Isaac.isaac t).randrsl ∧
      (Isaac.isaac s).aa = (Isaac.isaac t).aa ∧ (Isaac.isaac s).bb = (Isaac.isaac t).bb ∧
      (Isaac.isaac s).cc = (Isaac.isaac t).cc ∧ (Isaac.isaac s).randcnt = s.randcnt) ∧
    (∀ s t : Isaac64, s.randmem = t.randmem → s.aa = t.aa → s.bb = t.bb → s.cc = t.cc →
      (Isaac64.isaac64 s).randmem = (Isaac64.isaac64 t).randmem ∧
      (Isaac64.isaac64 s).randrsl = (Isaac64.isaac64 t).randrsl ∧
      (Isaac64.isaac64 s).aa = (Isaac64.isaac64 t).aa ∧
      (Isaac64.isaac64 s).bb = (Isaac64.isaac64 t).bb ∧
      (Isaac64.isaac64 s).cc = (Isaac64.isaac64 t).cc ∧
      (Isaac64.isaac64 s).randcnt = s.randcnt) := by
  constructor
  · intro s t hm ha hb hc
    rw [Isaac.isaac_eq s, Isaac.isaac_eq t, hm, ha, hb, hc,
      passLoop_agree 32 2 10 Isaac.laneOp t.randmem s.randrsl t.randrsl]
    exact ⟨rfl, rfl, rfl, rfl, rfl, rfl⟩
  · intro s t hm ha hb hc
    rw [Isaac64.isaac64_eq s, Isaac64.isaac64_eq t, hm, ha, hb, hc,
      passLoop_agree 64 3 11 Isaac64.laneOp t.randmem s.randrsl t.randrsl]
    exact ⟨rfl, rfl, rfl, rfl, rfl, rfl⟩

/-- Two states that differ in `randrsl` and the cursor have the same result array after a pass. -/
theorem pass_pure_function_witness :
    (NewIsaac.randmem = ({ NewIsaac with randrsl := Words.zero.set 0 5, randcnt := 9 } : Isaac).randmem ∧
      NewIsaac64.randmem = ({ NewIsaac64 with randrsl := Words.zero.set 0 5, randcnt := 9 } : Isaac64).randmem) ∧
    (Isaac.isaac NewIsaac).randrsl = (Isaac.isaac { NewIsaac with randrsl := Words.zero.set 0 5, randcnt := 9 }).randrsl ∧
    (Isaac64.isaac64 NewIsaac64).randrsl
      = (Isaac64.isaac64 { NewIsaac64 with randrsl := Words.zero.set 0 5, randcnt := 9 }).randrsl :=
  ⟨⟨rfl, rfl⟩,
    (pass_pure_function.1 NewIsaac { NewIsaac with randrsl := Words.zero.set 0 5, randcnt := 9 } rfl rfl rfl rfl).2.1,
    (pass_pure_function.2 NewIsaac64 { NewIsaac64 with randrsl := Words.zero.set 0 5, randcnt := 9 } rfl rfl rfl rfl).2.1⟩

/-! ### Seeding from an integer -/

theorem int64_low32 (v : ℤ) : (v % 2 ^ 32).toNat = (v % 2 ^ 64).toNat % 2 ^ 32 := by
  have h1 : 0 ≤ v % 2 ^ 32 := Int.emod_nonneg _ (by norm_num)
  have h2 : 0 ≤ v % 2 ^ 64 := Int.emod_nonneg _ (by norm_num)
  have h3 : ((v % 2 ^ 32).toNat : ℤ) = v % 2 ^ 32 := Int.toNat_of_nonneg h1
  have h4 : ((v % 2 ^ 64).toNat : ℤ) = v % 2 ^ 64 := Int.toNat_of_nonneg h2
  norm_num at h3 h4 ⊢
  omega

theorem int64_shiftRight32 (v : ℤ) : v >>> (32 : ℤ) = v / 2 ^ 32 := by
  have e : v >>> (32 : ℤ) = Int.shiftRight v 32 := by cases v <;> rfl
  rw [e]
  exact Int.shiftRight_eq_div_pow v 32

theorem int64_high32 (v : ℤ) (hlo : -2 ^ 63 ≤ v) (hhi : v < 2 ^ 63) :
    ((v >>> 32) % 2 ^ 32).toNat = (v % 2 ^ 64).toNat / 2 ^ 32 := by
  rw [int64_shiftRight32]
  have h1 : 0 ≤ (v / 2 ^ 32) % 2 ^ 32 := Int.emod_nonneg _ (by norm_num)
  have h2 : 0 ≤ v % 2 ^ 64 := Int.emod_nonneg _ (by norm_num)
  have h3 : (((v / 2 ^ 32) % 2 ^ 32).toNat : ℤ) = (v / 2 ^ 32) % 2 ^ 32 := Int.toNat_of_nonneg h1
  have h4 : ((v % 2 ^ 64).toNat : ℤ) = v % 2 ^ 64 := Int.toNat_of_nonneg h2
  norm_num at hlo hhi h3 h4 ⊢
  omega

theorem Words.zero_get (i : Fin 256) : Words.zero.get i = 0 :=
  Mathlib.Vector.get_replicate 0 i

/-- C11: on a fresh generator and for every `int64` `v`, `Isaac.Seed(v)` is the seeded
initialization of the seed array with the low 32 bits of `v` (in two's complement) in word 0,
its high 32 bits in word 1 and zero elsewhere, and `Isaac64.Seed(v)` is the seeded
initialization of the seed array with the 64 bits of `v` in word 0 and zero elsewhere. -/
theorem seed_layout (v : ℤ) (hlo : -2 ^ 63 ≤ v) (hhi : v < 2 ^ 63) :
    Isaac.Seed v NewIsaac =
      Isaac.randInit true
        { NewIsaac with randrsl := Mathlib.Vector.ofFn (fun i : Fin 256 =>
            if i.val = 0 then (v % 2 ^ 64).toNat % 2 ^ 32
            else if i.val = 1 then (v % 2 ^ 64).toNat / 2 ^ 32 else 0) } ∧
    Isaac64.Seed v NewIsaac64 =
      Isaac64.randInit true
        { NewIsaac64 with randrsl := Mathlib.Vector.ofFn (fun i : Fin 256 =>
            if i.val = 0 then (v % 2 ^ 64).toNat else 0) } := by
  have e32 : (Words.zero.set 0 (v % 2 ^ 32).toNat).set 1 ((v >>> 32) % 2 ^ 32).toNat =
      Mathlib.Vector.ofFn (fun i : Fin 256 =>
        if i.val = 0 then (v % 2 ^ 64).toNat % 2 ^ 32
        else if i.val = 1 then (v % 2 ^ 64).toNat / 2 ^ 32 else 0) := by
    apply Mathlib.Vector.ext
    intro i
    simp only [Mathlib.Vector.get_set_eq_if, Mathlib.Vector.get_ofFn]
    by_cases h1 : (1 : Fin 256) = i
    · subst h1
      simp only [if_true]
      exact int64_high32 v hlo hhi
    · by_cases h0 : (0 : Fin 256) = i
      · subst h0
        simp only [h1, if_false, if_true]
        exact int64_low32 v
      · have n0 : i.val ≠ 0 := fun e => h0 (Fin.ext e.symm)
        have n1 : i.val ≠ 1 := fun e => h1 (Fin.ext e.symm)
        simp only [h1, h0, n0, n1, if_false]
        exact Words.zero_get i
  have e64 : Words.zero.set 0 (v % 2 ^ 64).toNat =
      Mathlib.Vector.ofFn (fun i : Fin 256 => if i.val = 0 then (v % 2 ^ 64).toNat else 0) := by
    apply Mathlib.Vector.ext
    intro i
    simp only [Mathlib.Vector.get_set_eq_if, Mathlib.Vector.get_ofFn]
    by_cases h0 : (0 : Fin 256) = i
    · subst h0
      simp only [if_true]
      rfl
    · have n0 : i.val ≠ 0 := fun e => h0 (Fin.ext e.symm)
      simp only [h0, n0, if_false]
      exact Words.zero_get i
  constructor
  · have h : Isaac.Seed v NewIsaac = Isaac.randInit true { NewIsaac with randrsl :=
        ((Words.zero.set 0 (v % 2 ^ 32).toNat).set 1 ((v >>> 32) % 2 ^ 32).toNat) } := rfl
    rw [h, e32]
  · have h : Isaac64.Seed v NewIsaac64 = Isaac64.randInit true { NewIsaac64 with randrsl :=
        (Words.zero.set 0 (v % 2 ^ 64).toNat) } := rfl
    rw [h, e64]

/-- The layout of the seed array for the negative seed `-2`. -/
theorem seed_layout_witness :
    ((-2 ^ 63 : ℤ) ≤ -2 ∧ (-2 : ℤ) < 2 ^ 63) ∧
    Isaac.Seed (-2) NewIsaac =
      Isaac.randInit true
        { NewIsaac with randrsl := Mathlib.Vector.ofFn (fun i : Fin 256 =>
            if i.val = 0 then ((-2 : ℤ) % 2 ^ 64).toNat % 2 ^ 32
            else if i.val = 1 then ((-2 : ℤ) % 2 ^ 64).toNat / 2 ^ 32 else 0) } :=
  ⟨⟨by decide, by decide⟩, (seed_layout (-2) (by decide) (by decide)).1⟩

/-! ### The platform-width accessor -/

theorem toIntShift_64 (u : Nat) : toIntShift 64 u = ((u % 2 ^ 63 : ℕ) : ℤ) := by
  have e : ((u % 2 ^ 64) <<< 1 % 2 ^ 64) >>> 1 = u % 2 ^ 63 := by
    rw [Nat.shiftLeft_eq, Nat.shiftRight_eq_div_pow]
    norm_num
    omega
  have h : u % 2 ^ 63 < 2 ^ (64 - 1) := Nat.mod_lt _ (by norm_num)
  unfold toIntShift
  simp only [e, h, if_true]

theorem toInt64_mask_eq (u : Nat) : toInt64 (u &&& uintMask) = ((u % 2 ^ 63 : ℕ) : ℤ) := by
  have e : u &&& uintMask = u % 2 ^ 63 := by
    rw [uintMask_eq]
    exact Nat.and_pow_two_sub_one_eq_mod u 63
  have h1 : u % 2 ^ 63 % 2 ^ 64 = u % 2 ^ 63 := Nat.mod_eq_of_lt (by omega)
  have h2 : u % 2 ^ 63 < 2 ^ 63 := Nat.mod_lt _ (by norm_num)
  unfold toInt64
  rw [e, h1, if_pos h2]

/-- C13: on a host with a 64-bit `int`, `Int()` takes one `Uint64()` draw `u`, returns
`u mod 2^63` (a non-negative number) and leaves the state that draw leaves; this is what
`Int63()` does from the same state.  Both variants. -/
theorem int_is_int63 :
    (∀ s : Isaac,
      Isaac.Int 64 s = (Isaac.Uint64 s).map (fun x => (((x.1 % 2 ^ 63 : ℕ) : ℤ), x.2)) ∧
      Isaac.Int 64 s = Isaac.Int63 s) ∧
    (∀ s : Isaac64,
      Isaac64.Int 64 s = (Isaac64.Uint64 s).map (fun x => (((x.1 % 2 ^ 63 : ℕ) : ℤ), x.2)) ∧
      Isaac64.Int 64 s = Isaac64.Int63 s) := by
  constructor
  · intro s
    unfold Isaac.Int Isaac.Int63
    simp only [toIntShift_64, toInt64_mask_eq, and_self]
  · intro s
    unfold Isaac64.Int Isaac64.Int63
    simp only [toIntShift_64, toInt64_mask_eq, and_self]

/-! ### The pass against the reference loop (Isaac) -/

theorem Isaac.lane_eq_specStep32 (op : Nat → Nat) (i : Fin 256) (n : Nat) (hi : i = u8 n)
    (hop : op = Isaac.specLaneOp (n % 4)) (p : Pass) :
    lane 32 2 10 op i p = Isaac.specStep n p := by
  subst hi hop
  have h128 : u8 n + 128 = u8 ((n + 128) % 256) := by
    apply Fin.ext
    show (n % 256 + 128) % 256 = (n + 128) % 256 % 256
    omega
  have hand : ∀ y : Nat, and255 y = u8 (y &&& 255) := by
    intro y
    apply Fin.ext
    show y &&& 255 = (y &&& 255) % 256
    have : y &&& 255 ≤ 255 := Nat.and_le_right
    omega
  have hadd : ∀ g a b : Nat, ((g + a) % 2 ^ 32 + b) % 2 ^ 32 = (g + a + b) % 2 ^ 32 :=
    fun g a b => Nat.mod_add_mod _ _ _
  simp only [lane, Isaac.specStep, h128, hand, hadd]

theorem Isaac.laneBlock_eq_specSteps32 (k : Nat) (p : Pass) :
    laneBlock 32 2 10 Isaac.laneOp (4 * k) p =
      Isaac.specStep (4 * k + 3) (Isaac.specStep (4 * k + 2)
        (Isaac.specStep (4 * k + 1) (Isaac.specStep (4 * k) p))) := by
  have i1 : u8 (4 * k) + 1 = u8 (4 * k + 1) := by
    apply Fin.ext; show (4 * k % 256 + 1) % 256 = (4 * k + 1) % 256; omega
  have i2 : u8 (4 * k) + 2 = u8 (4 * k + 2) := by
    apply Fin.ext; show (4 * k % 256 + 2) % 256 = (4 * k + 2) % 256; omega
  have i3 : u8 (4 * k) + 3 = u8 (4 * k + 3) := by
    apply Fin.ext; show (4 * k % 256 + 3) % 256 = (4 * k + 3) % 256; omega
  have m0 : 4 * k % 4 = 0 := by omega
  have m1 : (4 * k + 1) % 4 = 1 := by omega
  have m2 : (4 * k + 2) % 4 = 2 := by omega
  have m3 : (4 * k + 3) % 4 = 3 := by omega
  have o0 : Isaac.laneOp 0 = Isaac.specLaneOp (4 * k % 4) := by rw [m0]; rfl
  have o1 : Isaac.laneOp 1 = Isaac.specLaneOp ((4 * k + 1) % 4) := by rw [m1]; rfl
  have o2 : Isaac.laneOp 2 = Isaac.specLaneOp ((4 * k + 2) % 4) := by rw [m2]; rfl
  have o3 : Isaac.laneOp 3 = Isaac.specLaneOp ((4 * k + 3) % 4) := by rw [m3]; rfl
  unfold laneBlock
  rw [Isaac.lane_eq_specStep32 _ _ (4 * k) rfl o0,
    Isaac.lane_eq_specStep32 _ _ (4 * k + 1) i1 o1,
    Isaac.lane_eq_specStep32 _ _ (4 * k + 2) i2 o2,
    Isaac.lane_eq_specStep32 _ _ (4 * k + 3) i3 o3]

theorem Isaac.passLoop_eq_foldl32 (p : Pass) :
    passLoop 32 2 10 Isaac.laneOp p =
      (List.range 256).foldl (fun p i => Isaac.specStep i p) p := by
  unfold passLoop
  rw [forLoop_eq_foldl (fun k => laneBlock 32 2 10 Isaac.laneOp (4 * k)) p 64,
    show (256 : Nat) = 4 * 64 from rfl, foldl_range_four (fun i p => Isaac.specStep i p) p 64]
  congr 1
  funext x k
  exact Isaac.laneBlock_eq_specSteps32 k x

theorem Isaac.isaac_eq_specPass (s : Isaac) : Isaac.isaac s = Isaac.specPass s := by
  rw [Isaac.isaac_eq, Isaac.passLoop_eq_foldl32]
  rfl
/-! ### The pass against the reference loop (Isaac64) -/

theorem Isaac64.lane_eq_specStep64 (op : Nat → Nat) (i : Fin 256) (n : Nat) (hi : i = u8 n)
    (hop : op = Isaac64.specLaneOp (n % 4)) (p : Pass) :
    lane 64 3 11 op i p = Isaac64.specStep n p := by
  subst hi hop
  have h128 : u8 n + 128 = u8 ((n + 128) % 256) := by
    apply Fin.ext
    show (n % 256 + 128) % 256 = (n + 128) % 256 % 256
    omega
  have hand : ∀ y : Nat, and255 y = u8 (y &&& 255) := by
    intro y
    apply Fin.ext
    show y &&& 255 = (y &&& 255) % 256
    have : y &&& 255 ≤ 255 := Nat.and_le_right
    omega
  have hadd : ∀ g a b : Nat, ((g + a) % 2 ^ 64 + b) % 2 ^ 64 = (g + a + b) % 2 ^ 64 :=
    fun g a b => Nat.mod_add_mod _ _ _
  simp only [lane, Isaac64.specStep, h128, hand, hadd]

theorem Isaac64.laneBlock_eq_specSteps64 (k : Nat) (p : Pass) :
    laneBlock 64 3 11 Isaac64.laneOp (4 * k) p =
      Isaac64.specStep (4 * k + 3) (Isaac64.specStep (4 * k + 2)
        (Isaac64.specStep (4 * k + 1) (Isaac64.specStep (4 * k) p))) := by
  have i1 : u8 (4 * k) + 1 = u8 (4 * k + 1) := by
    apply Fin.ext; show (4 * k % 256 + 1) % 256 = (4 * k + 1) % 256; omega
  have i2 : u8 (4 * k) + 2 = u8 (4 * k + 2) := by
    apply Fin.ext; show (4 * k % 256 + 2) % 256 = (4 * k + 2) % 256; omega
  have i3 : u8 (4 * k) + 3 = u8 (4 * k + 3) := by
    apply Fin.ext; show (4 * k % 256 + 3) % 256 = (4 * k + 3) % 256; omega
  have m0 : 4 * k % 4 = 0 := by omega
  have m1 : (4 * k + 1) % 4 = 1 := by omega
  have m2 : (4 * k + 2) % 4 = 2 := by omega
  have m3 : (4 * k + 3) % 4 = 3 := by omega
  have o0 : Isaac64.laneOp 0 = Isaac64.specLaneOp (4 * k % 4) := by rw [m0]; rfl
  have o1 : Isaac64.laneOp 1 = Isaac64.specLaneOp ((4 * k + 1) % 4) := by rw [m1]; rfl
  have o2 : Isaac64.laneOp 2 = Isaac64.specLaneOp ((4 * k + 2) % 4) := by rw [m2]; rfl
  have o3 : Isaac64.laneOp 3 = Isaac64.specLaneOp ((4 * k + 3) % 4) := by rw [m3]; rfl
  unfold laneBlock
  rw [Isaac64.lane_eq_specStep64 _ _ (4 * k) rfl o0,
    Isaac64.lane_eq_specStep64 _ _ (4 * k + 1) i1 o1,
    Isaac64.lane_eq_specStep64 _ _ (4 * k + 2) i2 o2,
    Isaac64.lane_eq_specStep64 _ _ (4 * k + 3) i3 o3]

theorem Isaac64.passLoop_eq_foldl64 (p : Pass) :
    passLoop 64 3 11 Isaac64.laneOp p =
      (List.range 256).foldl (fun p i => Isaac64.specStep i p) p := by
  unfold passLoop
  rw [forLoop_eq_foldl (fun k => laneBlock 64 3 11 Isaac64.laneOp (4 * k)) p 64,
    show (256 : Nat) = 4 * 64 from rfl, foldl_range_four (fun i p => Isaac64.specStep i p) p 64]
  congr 1
  funext x k
  exact Isaac64.laneBlock_eq_specSteps64 k x

theorem Isaac64.isaac64_eq_specPass (s : Isaac64) : Isaac64.isaac64 s = Isaac64.specPass s := by
  rw [Isaac64.isaac64_eq, Isaac64.passLoop_eq_foldl64]
  rfl

/-! ### The initialization against its three phases (Isaac) -/

theorem Isaac.scrambled_eq_iterate32 :
    Isaac.scrambled = Isaac.scrambleRound^[4]
      ⟨Isaac.golden, Isaac.golden, Isaac.golden, Isaac.golden,
       Isaac.golden, Isaac.golden, Isaac.golden, Isaac.golden⟩ :=
  forLoop_const Isaac.scrambleRound _ 4

theorem Isaac.seededMem_eq_specFill32 (rsl mem : Words) :
    seededMem 32 Isaac.scrambleRound Isaac.scrambled rsl mem =
      specFill 32 Isaac.scrambleRound Isaac.golden rsl mem := by
  unfold seededMem specFill
  rw [Isaac.scrambled_eq_iterate32]
  rfl

theorem Isaac.randInit_eq_specInit32 (s : Isaac) :
    Isaac.randInit true s = Isaac.specInit s := by
  rw [Isaac.randInit_eq32, Isaac.seededMem_eq_specFill32]
  rfl

theorem Isaac.randInit_false_eq32 (s : Isaac) :
    Isaac.randInit false s =
      { Isaac.isaac
          { s with randmem :=
              (forLoop 32 (fill0 Isaac.scrambleRound) (Isaac.scrambled, s.randmem)).2 }
        with randcnt := 256 } := by
  have k0 := forLoop_rel
    (fun _ (x : Regs × Isaac) (y : Regs × Words) => x.1 = y.1 ∧ x.2 = { s with randmem := y.2 })
    32 Isaac.noSeedPass (fill0 Isaac.scrambleRound)
    (Isaac.scrambled, s) (Isaac.scrambled, s.randmem) ⟨rfl, rfl⟩
    (by
      rintro k ⟨v, ctx⟩ ⟨v', m⟩ ⟨e1, e2⟩
      simp only at e1 e2
      subst e1 e2
      rw [Isaac.noSeedPass_eq32]
      exact ⟨rfl, rfl⟩)
  show ({ Isaac.isaac (forLoop 32 Isaac.noSeedPass (Isaac.scrambled, s)).2
    with randcnt := 256 } : Isaac) = _
  rw [k0.2]
/-! ### The initialization against its three phases (Isaac64) -/

theorem Isaac64.scrambled_eq_iterate64 :
    Isaac64.scrambled = Isaac64.scrambleRound^[4]
      ⟨Isaac64.golden, Isaac64.golden, Isaac64.golden, Isaac64.golden,
       Isaac64.golden, Isaac64.golden, Isaac64.golden, Isaac64.golden⟩ :=
  forLoop_const Isaac64.scrambleRound _ 4

theorem Isaac64.seededMem_eq_specFill64 (rsl mem : Words) :
    seededMem 64 Isaac64.scrambleRound Isaac64.scrambled rsl mem =
      specFill 64 Isaac64.scrambleRound Isaac64.golden rsl mem := by
  unfold seededMem specFill
  rw [Isaac64.scrambled_eq_iterate64]
  rfl

theorem Isaac64.randInit_eq_specInit64 (s : Isaac64) :
    Isaac64.randInit true s = Isaac64.specInit s := by
  rw [Isaac64.randInit_eq64, Isaac64.seededMem_eq_specFill64]
  rfl

theorem Isaac64.randInit_false_eq64 (s : Isaac64) :
    Isaac64.randInit false s =
      { Isaac64.isaac64
          { s with randmem :=
              (forLoop 32 (fill0 Isaac64.scrambleRound) (Isaac64.scrambled, s.randmem)).2 }
        with randcnt := 256 } := by
  have k0 := forLoop_rel
    (fun _ (x : Regs × Isaac64) (y : Regs × Words) => x.1 = y.1 ∧ x.2 = { s with randmem := y.2 })
    32 Isaac64.noSeedPass (fill0 Isaac64.scrambleRound)
    (Isaac64.scrambled, s) (Isaac64.scrambled, s.randmem) ⟨rfl, rfl⟩
    (by
      rintro k ⟨v, ctx⟩ ⟨v', m⟩ ⟨e1, e2⟩
      simp only at e1 e2
      subst e1 e2
      rw [Isaac64.noSeedPass_eq64]
      exact ⟨rfl, rfl⟩)
  show ({ Isaac64.isaac64 (forLoop 32 Isaac64.noSeedPass (Isaac64.scrambled, s)).2
    with randcnt := 256 } : Isaac64) = _
  rw [k0.2]

/-! ### Claims on the pass and the initialization -/

theorem Isaac.next_cc {s t : Isaac} {v : Nat} (h : Isaac.next s = some (v, t)) :
    t.cc = if s.randcnt = 0 then (s.cc + 1) % 2 ^ 32 else s.cc := by
  unfold Isaac.next at h
  split at h
  · rename_i h0
    simp only [Option.some.injEq, Prod.mk.injEq] at h
    rw [← h.2, if_pos h0]
    rfl
  · rename_i h0
    dsimp only at h
    split at h
    · simp only [Option.some.injEq, Prod.mk.injEq] at h
      rw [← h.2, if_neg h0]
    · exact absurd h (by simp)

theorem Isaac64.next_cc64 {s t : Isaac64} {v : Nat} (h : Isaac64.next s = some (v, t)) :
    t.cc = if s.randcnt = 0 then (s.cc + 1) % 2 ^ 64 else s.cc := by
  unfold Isaac64.next at h
  split at h
  · rename_i h0
    simp only [Option.some.injEq, Prod.mk.injEq] at h
    rw [← h.2, if_pos h0]
    rfl
  · rename_i h0
    dsimp only at h
    split at h
    · simp only [Option.some.injEq, Prod.mk.injEq] at h
      rw [← h.2, if_neg h0]
    · exact absurd h (by simp)

theorem Isaac.randInit_pass (flag : Bool) (s : Isaac) :
    ∃ t : Isaac, Isaac.randInit flag s = { Isaac.isaac t with randcnt := 256 } ∧
      t.aa = s.aa ∧ t.bb = s.bb ∧ t.cc = s.cc := by
  cases flag
  · exact ⟨_, Isaac.randInit_false_eq32 s, rfl, rfl, rfl⟩
  · exact ⟨_, Isaac.randInit_eq32 s, rfl, rfl, rfl⟩

theorem Isaac64.randInit_pass64 (flag : Bool) (s : Isaac64) :
    ∃ t : Isaac64, Isaac64.randInit flag s = { Isaac64.isaac64 t with randcnt := 256 } ∧
      t.aa = s.aa ∧ t.bb = s.bb ∧ t.cc = s.cc := by
  cases flag
  · exact ⟨_, Isaac64.randInit_false_eq64 s, rfl, rfl, rfl⟩
  · exact ⟨_, Isaac64.randInit_eq64 s, rfl, rfl, rfl⟩

/-- C15: for every state, `isaac` gives the state the reference loop of the specification
gives (`Isaac.specPass`): the same `randmem`, `randrsl`, `aa`, `bb` and `cc`, and the same
cursor. -/
theorem isaac_refines_spec (s : Isaac) : Isaac.isaac s = Isaac.specPass s :=
  Isaac.isaac_eq_specPass s

/-- C16: for every state, `isaac64` gives the state the reference loop of the specification
gives (`Isaac64.specPass`): the same `randmem`, `randrsl`, `aa`, `bb` and `cc`, and the same
cursor. -/
theorem isaac64_refines_spec (s : Isaac64) : Isaac64.isaac64 s = Isaac64.specPass s :=
  Isaac64.isaac64_eq_specPass s

/-- C17: in each variant `randInit(true)` is the three-phase initialization of the
specification (`specInit`: four rounds of the network on the golden-ratio constant, the two
seeded sweeps over the 32 groups, one pass and cursor 256), and the network is the same
function in the four places of the code where it is written out: each loop body of
`randInit` is the scramble round applied to the registers (after adding the group's words,
in the seeded loops) followed by the store of the registers. -/
theorem init_three_phases :
    ((∀ s : Isaac, Isaac.randInit true s = Isaac.specInit s) ∧
      ∀ (k : Fin 32) (v : Regs) (ctx : Isaac),
        Isaac.seedPass1 k (v, ctx) =
          (Isaac.scrambleRound (v.addWords 32 ctx.randrsl k),
            { ctx with randmem :=
                ((Isaac.scrambleRound (v.addWords 32 ctx.randrsl k)).store ctx.randmem k) }) ∧
        Isaac.seedPass2 k (v, ctx) =
          (Isaac.scrambleRound (v.addWords 32 ctx.randmem k),
            { ctx with randmem :=
                ((Isaac.scrambleRound (v.addWords 32 ctx.randmem k)).store ctx.randmem k) }) ∧
        Isaac.noSeedPass k (v, ctx) =
          (Isaac.scrambleRound v,
            { ctx with randmem := ((Isaac.scrambleRound v).store ctx.randmem k) })) ∧
    ((∀ s : Isaac64, Isaac64.randInit true s = Isaac64.specInit s) ∧
      ∀ (k : Fin 32) (v : Regs) (ctx : Isaac64),
        Isaac64.seedPass1 k (v, ctx) =
          (Isaac64.scrambleRound (v.addWords 64 ctx.randrsl k),
            { ctx with randmem :=
                ((Isaac64.scrambleRound (v.addWords 64 ctx.randrsl k)).store ctx.randmem k) }) ∧
        Isaac64.seedPass2 k (v, ctx) =
          (Isaac64.scrambleRound (v.addWords 64 ctx.randmem k),
            { ctx with randmem :=
                ((Isaac64.scrambleRound (v.addWords 64 ctx.randmem k)).store ctx.randmem k) }) ∧
        Isaac64.noSeedPass k (v, ctx) =
          (Isaac64.scrambleRound v,
            { ctx with randmem := ((Isaac64.scrambleRound v).store ctx.randmem k) })) :=
  ⟨⟨Isaac.randInit_eq_specInit32, fun k v ctx =>
      ⟨Isaac.seedPass1_eq32 k v ctx, Isaac.seedPass2_eq32 k v ctx, Isaac.noSeedPass_eq32 k v ctx⟩⟩,
    ⟨Isaac64.randInit_eq_specInit64, fun k v ctx =>
      ⟨Isaac64.seedPass1_eq64 k v ctx, Isaac64.seedPass2_eq64 k v ctx,
        Isaac64.noSeedPass_eq64 k v ctx⟩⟩⟩

/-- C18: in the block of a pass for the loop counter `4 * k` (`k` from 0 to 63) the lane
positions are `4 * k`, ..., `4 * k + 3`, the partner of position `i` is `(i + 128) mod 256`,
which lies in the other half of the array, and a gather index is `(x >> s) & 255`, at most
255; all array accesses of a block are those of its four lanes, so every index is in
`[0, 255]` and the pass, a total function, never leaves the arrays.  Both variants. -/
theorem pass_index_safety :
    (∀ k : Fin 64,
      (u8 (4 * k.val)).val = 4 * k.val ∧ (u8 (4 * k.val) + 1).val = 4 * k.val + 1 ∧
      (u8 (4 * k.val) + 2).val = 4 * k.val + 2 ∧ (u8 (4 * k.val) + 3).val = 4 * k.val + 3 ∧
      (u8 (4 * k.val) + 128).val = (4 * k.val + 128) % 256 ∧
      (u8 (4 * k.val) + 129).val = (4 * k.val + 1 + 128) % 256 ∧
      (u8 (4 * k.val) + 130).val = (4 * k.val + 2 + 128) % 256 ∧
      (u8 (4 * k.val) + 131).val = (4 * k.val + 3 + 128) % 256) ∧
    (∀ i : Fin 256, (i + 128).val = (i.val + 128) % 256 ∧ (i + 128).val < 256 ∧
      (i.val < 128 ↔ 128 ≤ (i + 128).val)) ∧
    (∀ x s : Nat, (and255 (x >>> s)).val = (x >>> s) &&& 255 ∧ (and255 (x >>> s)).val ≤ 255) ∧
    (∀ (ii : Nat) (p : Pass), Isaac.isaacBlock ii p = laneBlock 32 2 10 Isaac.laneOp ii p) ∧
    (∀ (ii : Nat) (p : Pass), Isaac64.isaac64Block ii p = laneBlock 64 3 11 Isaac64.laneOp ii p) := by
  refine ⟨fun k => ?_, fun i => ?_, fun x s => ⟨rfl, Nat.and_le_right⟩,
    Isaac.isaacBlock_eq_lanes, Isaac64.isaac64Block_eq_lanes⟩
  · have hk := k.isLt
    refine ⟨?_, ?_, ?_, ?_, ?_, ?_, ?_, ?_⟩
    · show 4 * k.val % 256 = _; omega
    · show (4 * k.val % 256 + 1) % 256 = _; omega
    · show (4 * k.val % 256 + 2) % 256 = _; omega
    · show (4 * k.val % 256 + 3) % 256 = _; omega
    · show (4 * k.val % 256 + 128) % 256 = _; omega
    · show (4 * k.val % 256 + 129) % 256 = _; omega
    · show (4 * k.val % 256 + 130) % 256 = _; omega
    · show (4 * k.val % 256 + 131) % 256 = _; omega
  · have hi := i.isLt
    have e : (i + 128).val = (i.val + 128) % 256 := rfl
    refine ⟨e, (i + 128).isLt, ?_⟩
    rw [e]
    omega

/-- C20: a pass changes `cc` to `cc + 1` modulo `2 ^ w`, once; its loop starts from `a = aa`
and `b = bb + (cc + 1)` and its final `a` and `b` become `aa` and `bb`.  Nothing else changes
`cc`: `randInit` hands `aa`, `bb`, `cc` unchanged to its one pass, and `next` leaves `cc`
alone unless the cursor is 0, when it runs one pass.  Both variants. -/
theorem pass_counter :
    (∀ s : Isaac,
      (Isaac.isaac s).cc = (s.cc + 1) % 2 ^ 32 ∧
      (Isaac.isaac s).aa = (forLoop 64 (fun k => Isaac.isaacBlock (4 * k.val))
        { mm := s.randmem, r := s.randrsl, a := s.aa,
          b := (s.bb + (s.cc + 1) % 2 ^ 32) % 2 ^ 32 }).a ∧
      (Isaac.isaac s).bb = (forLoop 64 (fun k => Isaac.isaacBlock (4 * k.val))
        { mm := s.randmem, r := s.randrsl, a := s.aa,
          b := (s.bb + (s.cc + 1) % 2 ^ 32) % 2 ^ 32 }).b ∧
      (∀ flag : Bool, ∃ t : Isaac,
        Isaac.randInit flag s = { Isaac.isaac t with randcnt := 256 } ∧
        t.aa = s.aa ∧ t.bb = s.bb ∧ t.cc = s.cc) ∧
      (∀ v t, Isaac.next s = some (v, t) →
        t.cc = if s.randcnt = 0 then (s.cc + 1) % 2 ^ 32 else s.cc)) ∧
    (∀ s : Isaac64,
      (Isaac64.isaac64 s).cc = (s.cc + 1) % 2 ^ 64 ∧
      (Isaac64.isaac64 s).aa = (forLoop 64 (fun k => Isaac64.isaac64Block (4 * k.val))
        { mm := s.randmem, r := s.randrsl, a := s.aa,
          b := (s.bb + (s.cc + 1) % 2 ^ 64) % 2 ^ 64 }).a ∧
      (Isaac64.isaac64 s).bb = (forLoop 64 (fun k => Isaac64.isaac64Block (4 * k.val))
        { mm := s.randmem, r := s.randrsl, a := s.aa,
          b := (s.bb + (s.cc + 1) % 2 ^ 64) % 2 ^ 64 }).b ∧
      (∀ flag : Bool, ∃ t : Isaac64,
        Isaac64.randInit flag s = { Isaac64.isaac64 t with randcnt := 256 } ∧
        t.aa = s.aa ∧ t.bb = s.bb ∧ t.cc = s.cc) ∧
      (∀ v t, Isaac64.next s = some (v, t) →
        t.cc = if s.randcnt = 0 then (s.cc + 1) % 2 ^ 64 else s.cc)) :=
  ⟨fun s => ⟨rfl, rfl, rfl, fun flag => Isaac.randInit_pass flag s,
      fun _ _ h => Isaac.next_cc h⟩,
    fun s => ⟨rfl, rfl, rfl, fun flag => Isaac64.randInit_pass64 flag s,
      fun _ _ h => Isaac64.next_cc64 h⟩⟩

/-- A draw from a state with cursor 2 leaves `cc` as it is. -/
theorem pass_counter_witness :
    Isaac.next { NewIsaac with randcnt := 2 } =
        some (Words.zero.get 1, { NewIsaac with randcnt := 1 }) ∧
      ({ NewIsaac with randcnt := 1 } : Isaac).cc = 0 :=
  ⟨rfl, (pass_counter.1 { NewIsaac with randcnt := 2 }).2.2.2.2 _ _ rfl⟩

/-! ### The lane operators are bijections -/

theorem testBit_of_lt_two_pow {a w i : Nat} (ha : a < 2 ^ w) (hi : w ≤ i) :
    a.testBit i = false :=
  Nat.testBit_lt_two_pow (lt_of_lt_of_le ha (Nat.pow_le_pow_right (by decide) hi))

theorem bool_xor_cancel : ∀ x y c : Bool, xor x c = xor y c → x = y := by decide

theorem xorshl_injective (w k : Nat) (hk : 0 < k) (a b : Nat)
    (h : a ^^^ ((a <<< k) % 2 ^ w) = b ^^^ ((b <<< k) % 2 ^ w)) : a = b := by
  apply Nat.eq_of_testBit_eq
  intro i
  induction i using Nat.strong_induction_on with
  | _ i ih =>
    have hi := congrArg (fun x => Nat.testBit x i) h
    simp only [Nat.testBit_xor, Nat.testBit_mod_two_pow, Nat.testBit_shiftLeft] at hi
    by_cases hik : k ≤ i
    · have hprev := ih (i - k) (by omega)
      rw [hprev] at hi
      exact bool_xor_cancel _ _ _ hi
    · have hdec : decide (i ≥ k) = false := by simpa using hik
      simp only [hdec, Bool.false_and, Bool.and_false, Bool.xor_false] at hi
      exact hi

theorem xorshr_injective (w k : Nat) (hk : 0 < k) (a b : Nat) (ha : a < 2 ^ w) (hb : b < 2 ^ w)
    (h : a ^^^ (a >>> k) = b ^^^ (b >>> k)) : a = b := by
  apply Nat.eq_of_testBit_eq
  have key : ∀ n i : Nat, w ≤ i + n → a.testBit i = b.testBit i := by
    intro n
    induction n with
    | zero =>
      intro i hi
      rw [testBit_of_lt_two_pow ha (by omega), testBit_of_lt_two_pow hb (by omega)]
    | succ n ih =>
      intro i hi
      have hnext := ih (k + i) (by omega)
      have hx := congrArg (fun x => Nat.testBit x i) h
      simp only [Nat.testBit_xor, Nat.testBit_shiftRight] at hx
      rw [hnext] at hx
      exact bool_xor_cancel _ _ _ hx
  exact fun i => key w i (by omega)

theorem xorshl_lt (w k : Nat) {a : Nat} (ha : a < 2 ^ w) : a ^^^ ((a <<< k) % 2 ^ w) < 2 ^ w :=
  Nat.xor_lt_two_pow ha (Nat.mod_lt _ (Nat.two_pow_pos w))

theorem xorshr_lt (w k : Nat) {a : Nat} (ha : a < 2 ^ w) : a ^^^ (a >>> k) < 2 ^ w := by
  refine Nat.xor_lt_two_pow ha ?_
  rw [Nat.shiftRight_eq_div_pow]
  exact lt_of_le_of_lt (Nat.div_le_self _ _) ha

theorem bijOn_below (N : Nat) (f : Nat → Nat) (hm : ∀ a, a < N → f a < N)
    (hi : ∀ a b, a < N → b < N → f a = f b → a = b) :
    Set.BijOn f {a | a < N} {a | a < N} := by
  refine ⟨fun a ha => hm a ha, fun a ha b hb h => hi a b ha hb h, ?_⟩
  intro y hy
  obtain ⟨a, ha, e⟩ := Finset.surj_on_of_inj_on_of_card_le (s := Finset.range N)
    (t := Finset.range N) (fun a _ => f a)
    (fun a ha => Finset.mem_range.mpr (hm a (Finset.mem_range.mp ha)))
    (fun a b ha hb h => hi a b (Finset.mem_range.mp ha) (Finset.mem_range.mp hb) h)
    (le_refl _) y (Finset.mem_range.mpr hy)
  exact ⟨a, Finset.mem_range.mp ha, e.symm⟩

theorem not64_lt (x : Nat) : U64.not x < 2 ^ 64 := by
  unfold U64.not
  omega

theorem not64_injective (a b : Nat) (ha : a < 2 ^ 64) (hb : b < 2 ^ 64)
    (h : U64.not a = U64.not b) : a = b := by
  unfold U64.not at h
  omega

/-- C19: each of the four lane operators of `isaac` is a bijection of the 32-bit words and
each of the four lane operators of `isaac64` is a bijection of the 64-bit words. -/
theorem lane_ops_bijective :
    (∀ j : Fin 4, Set.BijOn (Isaac.laneOp j) {a | a < 2 ^ 32} {a | a < 2 ^ 32}) ∧
    (∀ j : Fin 4, Set.BijOn (Isaac64.laneOp j) {a | a < 2 ^ 64} {a | a < 2 ^ 64}) := by
  constructor
  · intro j
    apply bijOn_below
    · intro a ha
      fin_cases j
      · exact xorshl_lt 32 13 ha
      · exact xorshr_lt 32 6 ha
      · exact xorshl_lt 32 2 ha
      · exact xorshr_lt 32 16 ha
    · intro a b ha hb h
      fin_cases j
      · exact xorshl_injective 32 13 (by decide) a b h
      · exact xorshr_injective 32 6 (by decide) a b ha hb h
      · exact xorshl_injective 32 2 (by decide) a b h
      · exact xorshr_injective 32 16 (by decide) a b ha hb h
  · intro j
    apply bijOn_below
    · intro a ha
      fin_cases j
      · exact not64_lt _
      · exact xorshr_lt 64 5 ha
      · exact xorshl_lt 64 12 ha
      · exact xorshr_lt 64 33 ha
    · intro a b ha hb h
      fin_cases j
      · exact xorshl_injective 64 21 (by decide) a b
          (not64_injective _ _ (xorshl_lt 64 21 ha) (xorshl_lt 64 21 hb) h)
      · exact xorshr_injective 64 5 (by decide) a b ha hb h
      · exact xorshl_injective 64 12 (by decide) a b h
      · exact xorshr_injective 64 33 (by decide) a b ha hb h

/-! ### The memory of the seed array -/

theorem wordBytes_zero (bo : ByteOrder) (w : Nat) : wordBytes bo w 0 = List.replicate w 0 := by
  have h : (List.range w).map (fun j => u8 (0 >>> (8 * j))) = List.replicate w (0 : Byte) := by
    apply List.eq_replicate_iff.mpr
    refine ⟨by simp, ?_⟩
    intro b hb
    obtain ⟨j, -, rfl⟩ := List.mem_map.mp hb
    rw [Nat.zero_shiftRight]
    rfl
  cases bo
  · exact h
  · show ((List.range w).map (fun j => u8 (0 >>> (8 * j)))).reverse = _
    rw [h, List.reverse_replicate]

theorem Words.toBytes_zero (bo : ByteOrder) (w : Nat) :
    Words.zero.toBytes bo w = List.replicate (256 * w) 0 := by
  have key : ∀ n : Nat,
      (List.replicate n 0).flatMap (wordBytes bo w) = List.replicate (n * w) (0 : Byte) := by
    intro n
    induction n with
    | zero => simp
    | succ n ih =>
      rw [List.replicate_succ, List.flatMap_cons, ih, wordBytes_zero, List.append_replicate_replicate]
      congr 1
      ring
  exact key 256

theorem Isaac.seedBytes_eq_map (bo : ByteOrder) (b : List Byte) (s : Isaac) :
    Isaac.SeedBytes bo b s =
      (Isaac.seedArray bo b s).map (fun r => Isaac.randInit true { s with randrsl := r }) := by
  unfold Isaac.SeedBytes Isaac.seedArray
  dsimp only
  generalize (if b.length > 1024 then b.take 1024 else b) = seed
  cases seed with
  | nil => rfl
  | cons x xs =>
    dsimp only
    cases unsafeCopy (Words.toBytes bo 4 s.randrsl) (x :: xs) (x :: xs).length <;> rfl

theorem Isaac64.seedBytes_eq_map64 (bo : ByteOrder) (b : List Byte) (s : Isaac64) :
    Isaac64.SeedBytes bo b s =
      (Isaac64.seedArray bo b s).map (fun r => Isaac64.randInit true { s with randrsl := r }) := by
  unfold Isaac64.SeedBytes Isaac64.seedArray
  dsimp only
  generalize (if b.length > 2048 then b.take 2048 else b) = seed
  cases seed with
  | nil => rfl
  | cons x xs =>
    dsimp only
    cases unsafeCopy (Words.toBytes bo 8 s.randrsl) (x :: xs) (x :: xs).length <;> rfl

theorem Isaac.seedArray_new (bo : ByteOrder) (b : List Byte) (hne : b ≠ [])
    (hl : b.length ≤ 1024) :
    unsafeCopy (NewIsaac.randrsl.toBytes bo 4) b b.length
      = some (b ++ List.replicate (1024 - b.length) 0) ∧
    Isaac.seedArray bo b NewIsaac
      = some (Words.ofBytes bo 4 (b ++ List.replicate (1024 - b.length) 0)) := by
  have hz : NewIsaac.randrsl.toBytes bo 4 = List.replicate 1024 0 := Words.toBytes_zero bo 4
  have hc : unsafeCopy (NewIsaac.randrsl.toBytes bo 4) b b.length
      = some (b ++ List.replicate (1024 - b.length) 0) := by
    rw [unsafeCopy_some _ _ (by rw [hz, List.length_replicate]; exact hl), hz,
      List.drop_replicate]
  refine ⟨hc, ?_⟩
  unfold Isaac.seedArray
  have hn : ¬ b.length > 1024 := by omega
  simp only [hn, if_false]
  cases b with
  | nil => exact absurd rfl hne
  | cons x xs =>
    dsimp only
    rw [hc]
    rfl

theorem Isaac64.seedArray_new64 (bo : ByteOrder) (b : List Byte) (hne : b ≠ [])
    (hl : b.length ≤ 2048) :
    unsafeCopy (NewIsaac64.randrsl.toBytes bo 8) b b.length
      = some (b ++ List.replicate (2048 - b.length) 0) ∧
    Isaac64.seedArray bo b NewIsaac64
      = some (Words.ofBytes bo 8 (b ++ List.replicate (2048 - b.length) 0)) := by
  have hz : NewIsaac64.randrsl.toBytes bo 8 = List.replicate 2048 0 := Words.toBytes_zero bo 8
  have hc : unsafeCopy (NewIsaac64.randrsl.toBytes bo 8) b b.length
      = some (b ++ List.replicate (2048 - b.length) 0) := by
    rw [unsafeCopy_some _ _ (by rw [hz, List.length_replicate]; exact hl), hz,
      List.drop_replicate]
  refine ⟨hc, ?_⟩
  unfold Isaac64.seedArray
  have hn : ¬ b.length > 2048 := by omega
  simp only [hn, if_false]
  cases b with
  | nil => exact absurd rfl hne
  | cons x xs =>
    dsimp only
    rw [hc]
    rfl

/-- C12: on a fresh generator a non-empty seed shorter than the capacity (1024 bytes for
`Isaac`, 2048 for `Isaac64`) gives the state the same seed followed by zero bytes up to the
capacity gives, and the call returns: after the copy the memory of `randrsl` holds the seed
bytes followed by zeros. -/
theorem seedBytes_zero_padding :
    (∀ (bo : ByteOrder) (b : List Byte), b ≠ [] → b.length < 1024 →
      Isaac.SeedBytes bo b NewIsaac
        = Isaac.SeedBytes bo (b ++ List.replicate (1024 - b.length) 0) NewIsaac ∧
      (Isaac.SeedBytes bo b NewIsaac).isSome = true ∧
      unsafeCopy (NewIsaac.randrsl.toBytes bo 4) b b.length
        = some (b ++ List.replicate (1024 - b.length) 0)) ∧
    (∀ (bo : ByteOrder) (b : List Byte), b ≠ [] → b.length < 2048 →
      Isaac64.SeedBytes bo b NewIsaac64
        = Isaac64.SeedBytes bo (b ++ List.replicate (2048 - b.length) 0) NewIsaac64 ∧
      (Isaac64.SeedBytes bo b NewIsaac64).isSome = true ∧
      unsafeCopy (NewIsaac64.randrsl.toBytes bo 8) b b.length
        = some (b ++ List.replicate (2048 - b.length) 0)) := by
  constructor
  · intro bo b hne hl
    have h1 := Isaac.seedArray_new bo b hne (by omega)
    have hlen : (b ++ List.replicate (1024 - b.length) (0 : Byte)).length = 1024 := by
      rw [List.length_append, List.length_replicate]; omega
    have h2 := Isaac.seedArray_new bo (b ++ List.replicate (1024 - b.length) 0)
      (by simp [hne]) (by omega)
    rw [hlen, Nat.sub_self, List.replicate_zero, List.append_nil] at h2
    rw [Isaac.seedBytes_eq_map, Isaac.seedBytes_eq_map, h1.2, h2.2]
    exact ⟨rfl, rfl, h1.1⟩
  · intro bo b hne hl
    have h1 := Isaac64.seedArray_new64 bo b hne (by omega)
    have hlen : (b ++ List.replicate (2048 - b.length) (0 : Byte)).length = 2048 := by
      rw [List.length_append, List.length_replicate]; omega
    have h2 := Isaac64.seedArray_new64 bo (b ++ List.replicate (2048 - b.length) 0)
      (by simp [hne]) (by omega)
    rw [hlen, Nat.sub_self, List.replicate_zero, List.append_nil] at h2
    rw [Isaac64.seedBytes_eq_map64, Isaac64.seedBytes_eq_map64, h1.2, h2.2]
    exact ⟨rfl, rfl, h1.1⟩

/-- The padding law for the three-byte seed 1, 2, 3. -/
theorem seedBytes_zero_padding_witness :
    (([1, 2, 3] : List Byte) ≠ [] ∧ ([1, 2, 3] : List Byte).length < 1024) ∧
    Isaac.SeedBytes ByteOrder.little [1, 2, 3] NewIsaac
      = Isaac.SeedBytes ByteOrder.little
          ([1, 2, 3] ++ List.replicate (1024 - ([1, 2, 3] : List Byte).length) 0) NewIsaac :=
  ⟨⟨by decide, by decide⟩,
    (seedBytes_zero_padding.1 ByteOrder.little [1, 2, 3] (by decide) (by decide)).1⟩

/-! ### The packing of seed bytes into words -/

theorem bytesWord_little_sum (l : List Byte) :
    bytesWord ByteOrder.little l =
      ∑ j ∈ Finset.range l.length, (l.getD j 0).val * 256 ^ j := by
  induction l with
  | nil => rfl
  | cons b t ih =>
    have h : bytesWord ByteOrder.little (b :: t) = b.val + 256 * bytesWord ByteOrder.little t :=
      rfl
    rw [h, ih, List.length_cons, Finset.sum_range_succ', Finset.mul_sum]
    simp only [List.getD_cons_succ, List.getD_cons_zero, pow_zero, mul_one, pow_succ]
    rw [add_comm]
    congr 1
    apply Finset.sum_congr rfl
    intro j _
    ring

theorem foldl_big_sum (l : List Byte) (acc : Nat) :
    l.foldl (fun acc b => 256 * acc + b.val) acc =
      acc * 256 ^ l.length +
        ∑ j ∈ Finset.range l.length, (l.getD j 0).val * 256 ^ (l.length - 1 - j) := by
  induction l generalizing acc with
  | nil => simp
  | cons b t ih =>
    rw [List.foldl_cons, ih, List.length_cons, Finset.sum_range_succ']
    simp only [List.getD_cons_succ, List.getD_cons_zero, Nat.add_sub_cancel, Nat.sub_zero]
    have e : ∀ j, 256 ^ (t.length - (j + 1)) = 256 ^ (t.length - 1 - j) :=
      fun j => congrArg (fun n => 256 ^ n) (by omega)
    simp only [e]
    ring

theorem bytesWord_big_sum (l : List Byte) :
    bytesWord ByteOrder.big l =
      ∑ j ∈ Finset.range l.length, (l.getD j 0).val * 256 ^ (l.length - 1 - j) := by
  have h := foldl_big_sum l 0
  rw [Nat.zero_mul, Nat.zero_add] at h
  exact h

theorem getD_append_zeros (b : List Byte) (m i : Nat) :
    (b ++ List.replicate m 0).getD i 0 = b.getD i 0 := by
  by_cases h : i < b.length
  · rw [List.getD_append _ _ _ _ h]
  · rw [List.getD_append_right _ _ _ _ (by omega), List.getD_eq_default b 0 (by omega)]
    by_cases h2 : i - b.length < m
    · rw [List.getD_eq_getElem _ _ (by simpa using h2), List.getElem_replicate]
    · rw [List.getD_eq_default _ _ (by simpa using h2)]

theorem getD_slice (l : List Byte) (a w j : Nat) (hj : j < w) :
    ((l.drop a).take w).getD j 0 = l.getD (a + j) 0 := by
  simp only [List.getD_eq_getElem?_getD, List.getElem?_take, hj, if_true, List.getElem?_drop]

theorem slice_length (l : List Byte) (a w : Nat) (h : a + w ≤ l.length) :
    ((l.drop a).take w).length = w := by
  rw [List.length_take, List.length_drop]
  omega

theorem ofBytes_get_little (w : Nat) (b : List Byte) (m : Nat) (k : Fin 256)
    (h : w * k.val + w ≤ (b ++ List.replicate m (0 : Byte)).length) :
    (Words.ofBytes ByteOrder.little w (b ++ List.replicate m 0)).get k =
      ∑ j ∈ Finset.range w, (b.getD (w * k.val + j) 0).val * 256 ^ j := by
  unfold Words.ofBytes
  rw [Mathlib.Vector.get_ofFn, bytesWord_little_sum, slice_length _ _ _ h]
  apply Finset.sum_congr rfl
  intro j hj
  rw [getD_slice _ _ _ _ (Finset.mem_range.mp hj), getD_append_zeros]

theorem ofBytes_get_big (w : Nat) (b : List Byte) (m : Nat) (k : Fin 256)
    (h : w * k.val + w ≤ (b ++ List.replicate m (0 : Byte)).length) :
    (Words.ofBytes ByteOrder.big w (b ++ List.replicate m 0)).get k =
      ∑ j ∈ Finset.range w, (b.getD (w * k.val + j) 0).val * 256 ^ (w - 1 - j) := by
  unfold Words.ofBytes
  rw [Mathlib.Vector.get_ofFn, bytesWord_big_sum, slice_length _ _ _ h]
  apply Finset.sum_congr rfl
  intro j hj
  rw [getD_slice _ _ _ _ (Finset.mem_range.mp hj), getD_append_zeros]

/-- C14, counterexample: the word the one-byte seed `1` leaves in word 0 of the seed array
depends on the host: it is 1 on a little-endian host and `0x01000000` on a big-endian one,
which is not the little-endian value of the seed bytes. -/
theorem seed_packing_depends_on_host :
    (Isaac.seedArray ByteOrder.little [1] NewIsaac).map (fun r => r.get 0) = some 1 ∧
    (Isaac.seedArray ByteOrder.big [1] NewIsaac).map (fun r => r.get 0) = some 16777216 := by
  constructor
  · rw [(Isaac.seedArray_new ByteOrder.little [1] (by decide) (by decide)).2, Option.map_some',
      ofBytes_get_little 4 [1] _ 0
        (by rw [List.length_append, List.length_replicate]; decide)]
    decide
  · rw [(Isaac.seedArray_new ByteOrder.big [1] (by decide) (by decide)).2, Option.map_some',
      ofBytes_get_big 4 [1] _ 0
        (by rw [List.length_append, List.length_replicate]; decide)]
    decide

/-- C14, as amended: on a fresh generator and for a non-empty seed of at most the capacity,
`SeedBytes` returns and the seed array it hands to `randInit` has in word `k` the value of
the seed bytes `w * k`, ..., `w * k + w - 1` (missing bytes count as zero) read in the byte
order of the host: the little-endian value on a little-endian host, the big-endian value on
a big-endian host (`w = 4` for `Isaac`, 8 for `Isaac64`). -/
theorem seed_packing_host_order :
    (∀ (bo : ByteOrder) (b : List Byte), b ≠ [] → b.length ≤ 1024 →
      ∃ r : Words, Isaac.seedArray bo b NewIsaac = some r ∧
        Isaac.SeedBytes bo b NewIsaac
          = some (Isaac.randInit true { NewIsaac with randrsl := r }) ∧
        ∀ k : Fin 256, r.get k =
          match bo with
          | ByteOrder.little =>
            ∑ j ∈ Finset.range 4, (b.getD (4 * k.val + j) 0).val * 256 ^ j
          | ByteOrder.big =>
            ∑ j ∈ Finset.range 4, (b.getD (4 * k.val + j) 0).val * 256 ^ (4 - 1 - j)) ∧
    (∀ (bo : ByteOrder) (b : List Byte), b ≠ [] → b.length ≤ 2048 →
      ∃ r : Words, Isaac64.seedArray bo b NewIsaac64 = some r ∧
        Isaac64.SeedBytes bo b NewIsaac64
          = some (Isaac64.randInit true { NewIsaac64 with randrsl := r }) ∧
        ∀ k : Fin 256, r.get k =
          match bo with
          | ByteOrder.little =>
            ∑ j ∈ Finset.range 8, (b.getD (8 * k.val + j) 0).val * 256 ^ j
          | ByteOrder.big =>
            ∑ j ∈ Finset.range 8, (b.getD (8 * k.val + j) 0).val * 256 ^ (8 - 1 - j)) := by
  constructor
  · intro bo b hne hl
    have h := (Isaac.seedArray_new bo b hne hl).2
    refine ⟨_, h, by rw [Isaac.seedBytes_eq_map, h]; rfl, fun k => ?_⟩
    have hk := k.isLt
    have hlen : 4 * k.val + 4 ≤ (b ++ List.replicate (1024 - b.length) (0 : Byte)).length := by
      rw [List.length_append, List.length_replicate]; omega
    cases bo
    · exact ofBytes_get_little 4 b _ k hlen
    · exact ofBytes_get_big 4 b _ k hlen
  · intro bo b hne hl
    have h := (Isaac64.seedArray_new64 bo b hne hl).2
    refine ⟨_, h, by rw [Isaac64.seedBytes_eq_map64, h]; rfl, fun k => ?_⟩
    have hk := k.isLt
    have hlen : 8 * k.val + 8 ≤ (b ++ List.replicate (2048 - b.length) (0 : Byte)).length := by
      rw [List.length_append, List.length_replicate]; omega
    cases bo
    · exact ofBytes_get_little 8 b _ k hlen
    · exact ofBytes_get_big 8 b _ k hlen

/-- The seed array of the five-byte seed 1, 2, 3, 4, 5 on a little-endian host. -/
theorem seed_packing_host_order_witness :
    (([1, 2, 3, 4, 5] : List Byte) ≠ [] ∧ ([1, 2, 3, 4, 5] : List Byte).length ≤ 1024) ∧
    ∃ r : Words, Isaac.seedArray ByteOrder.little [1, 2, 3, 4, 5] NewIsaac = some r ∧
      Isaac.SeedBytes ByteOrder.little [1, 2, 3, 4, 5] NewIsaac
        = some (Isaac.randInit true { NewIsaac with randrsl := r }) ∧
      ∀ k : Fin 256, r.get k =
        ∑ j ∈ Finset.range 4,
          (([1, 2, 3, 4, 5] : List Byte).getD (4 * k.val + j) 0).val * 256 ^ j :=
  ⟨⟨by decide, by decide⟩,
    seed_packing_host_order.1 ByteOrder.little [1, 2, 3, 4, 5] (by decide) (by decide)⟩

/-! ### What seeding depends on -/

/-- C21: two states of the same variant that agree on `randrsl`, `aa`, `bb` and `cc`, and
differ at will in `randmem` and in the cursor, are taken to the same state by
`randInit(true)`, and so by `Seed(v)`, `SeedBytes(b)` and `SeedString(b)` with the same
argument. -/
theorem seeding_ignores_mem_and_cursor :
    (∀ s t : Isaac, s.randrsl = t.randrsl → s.aa = t.aa → s.bb = t.bb → s.cc = t.cc →
      Isaac.randInit true s = Isaac.randInit true t ∧
      (∀ v : ℤ, Isaac.Seed v s = Isaac.Seed v t) ∧
      (∀ (bo : ByteOrder) (b : List Byte),
        Isaac.SeedBytes bo b s = Isaac.SeedBytes bo b t ∧
        Isaac.SeedString bo b s = Isaac.SeedString bo b t)) ∧
    (∀ s t : Isaac64, s.randrsl = t.randrsl → s.aa = t.aa → s.bb = t.bb → s.cc = t.cc →
      Isaac64.randInit true s = Isaac64.randInit true t ∧
      (∀ v : ℤ, Isaac64.Seed v s = Isaac64.Seed v t) ∧
      (∀ (bo : ByteOrder) (b : List Byte),
        Isaac64.SeedBytes bo b s = Isaac64.SeedBytes bo b t ∧
        Isaac64.SeedString bo b s = Isaac64.SeedString bo b t)) := by
  constructor
  · intro s t hr ha hb hc
    refine ⟨Isaac.randInit_agree32 hr ha hb hc, fun v => ?_, fun bo b =>
      ⟨Isaac.seedBytes_agree32 bo b hr ha hb hc, Isaac.seedBytes_agree32 bo b hr ha hb hc⟩⟩
    exact Isaac.randInit_agree32
      (show (s.randrsl.set 0 (v % 2 ^ 32).toNat).set 1 ((v >>> 32) % 2 ^ 32).toNat
        = (t.randrsl.set 0 (v % 2 ^ 32).toNat).set 1 ((v >>> 32) % 2 ^ 32).toNat by rw [hr])
      ha hb hc
  · intro s t hr ha hb hc
    refine ⟨Isaac64.randInit_agree64 hr ha hb hc, fun v => ?_, fun bo b =>
      ⟨Isaac64.seedBytes_agree64 bo b hr ha hb hc, Isaac64.seedBytes_agree64 bo b hr ha hb hc⟩⟩
    exact Isaac64.randInit_agree64
      (show s.randrsl.set 0 (v % 2 ^ 64).toNat = t.randrsl.set 0 (v % 2 ^ 64).toNat by rw [hr])
      ha hb hc

/-- A generator whose mixing array and cursor were changed is initialized like a fresh one. -/
theorem seeding_ignores_mem_and_cursor_witness :
    (({ NewIsaac with randmem := Words.zero.set 7 11, randcnt := 40 } : Isaac).randrsl
        = NewIsaac.randrsl ∧
      ({ NewIsaac64 with randmem := Words.zero.set 7 11, randcnt := 40 } : Isaac64).randrsl
        = NewIsaac64.randrsl) ∧
    Isaac.randInit true { NewIsaac with randmem := Words.zero.set 7 11, randcnt := 40 }
      = Isaac.randInit true NewIsaac ∧
    Isaac64.randInit true { NewIsaac64 with randmem := Words.zero.set 7 11, randcnt := 40 }
      = Isaac64.randInit true NewIsaac64 :=
  ⟨⟨rfl, rfl⟩,
    (seeding_ignores_mem_and_cursor.1
      { NewIsaac with randmem := Words.zero.set 7 11, randcnt := 40 } NewIsaac
      rfl rfl rfl rfl).1,
    (seeding_ignores_mem_and_cursor.2
      { NewIsaac64 with randmem := Words.zero.set 7 11, randcnt := 40 } NewIsaac64
      rfl rfl rfl rfl).1⟩

/-! ### `Int31` on the 32-bit variant -/

theorem lane_r_bounded (w sa sb : Nat) (op : Nat → Nat) (i : Fin 256) {p : Pass}
    (h : ∀ j : Fin 256, j.val < i.val → p.r.get j < 2 ^ w) :
    ∀ j : Fin 256, j.val < i.val + 1 → (lane w sa sb op i p).r.get j < 2 ^ w := by
  intro j hj
  simp only [lane, Mathlib.Vector.get_set_eq_if]
  split
  · exact Nat.mod_lt _ (Nat.two_pow_pos w)
  · rename_i hne
    have : j.val ≠ i.val := fun e => hne (Fin.ext e.symm)
    exact h j (by omega)

theorem laneBlock_r_bounded (w sa sb : Nat) (ops : Fin 4 → Nat → Nat) (m : Fin 64) {p : Pass}
    (h : ∀ j : Fin 256, j.val < 4 * m.val → p.r.get j < 2 ^ w) :
    ∀ j : Fin 256, j.val < 4 * (m.val + 1) →
      (laneBlock w sa sb ops (4 * m.val) p).r.get j < 2 ^ w := by
  have hm := m.isLt
  have e0 : (u8 (4 * m.val)).val = 4 * m.val := by show 4 * m.val % 256 = _; omega
  have e1 : (u8 (4 * m.val) + 1).val = 4 * m.val + 1 := by
    show (4 * m.val % 256 + 1) % 256 = _; omega
  have e2 : (u8 (4 * m.val) + 2).val = 4 * m.val + 2 := by
    show (4 * m.val % 256 + 2) % 256 = _; omega
  have e3 : (u8 (4 * m.val) + 3).val = 4 * m.val + 3 := by
    show (4 * m.val % 256 + 3) % 256 = _; omega
  have a0 := lane_r_bounded w sa sb (ops 0) (u8 (4 * m.val)) (p := p) (by rw [e0]; exact h)
  rw [e0, ← e1] at a0
  have a1 := lane_r_bounded w sa sb (ops 1) _ a0
  rw [e1, show 4 * m.val + 1 + 1 = (u8 (4 * m.val) + 2).val by rw [e2]] at a1
  have a2 := lane_r_bounded w sa sb (ops 2) _ a1
  rw [e2, show 4 * m.val + 2 + 1 = (u8 (4 * m.val) + 3).val by rw [e3]] at a2
  have a3 := lane_r_bounded w sa sb (ops 3) _ a2
  rw [e3, show 4 * m.val + 3 + 1 = 4 * (m.val + 1) by ring] at a3
  exact a3

theorem passLoop_r_bounded (w sa sb : Nat) (ops : Fin 4 → Nat → Nat) (p : Pass) (j : Fin 256) :
    (passLoop w sa sb ops p).r.get j < 2 ^ w := by
  have key := forLoop_induction
    (fun k (q : Pass) => ∀ j : Fin 256, j.val < 4 * k → q.r.get j < 2 ^ w) 64
    (fun k => laneBlock w sa sb ops (4 * k.val)) p
    (fun j hj => absurd hj (by omega))
    (fun k q hq => laneBlock_r_bounded w sa sb ops k hq)
  exact key j j.isLt

theorem Isaac.isaac_rsl_bounded (s : Isaac) (i : Fin 256) :
    (Isaac.isaac s).randrsl.get i < 2 ^ 32 := by
  rw [Isaac.isaac_eq]
  exact passLoop_r_bounded 32 2 10 Isaac.laneOp _ i

theorem Isaac.next_bounded {s t : Isaac} {v : Nat}
    (hb : ∀ i : Fin 256, s.randrsl.get i < 2 ^ 32) (h : Isaac.next s = some (v, t)) :
    v < 2 ^ 32 ∧ ∀ i : Fin 256, t.randrsl.get i < 2 ^ 32 := by
  unfold Isaac.next at h
  split at h
  · simp only [Option.some.injEq, Prod.mk.injEq] at h
    rw [← h.1, ← h.2]
    exact ⟨Isaac.isaac_rsl_bounded s 255, fun i => Isaac.isaac_rsl_bounded s i⟩
  · dsimp only at h
    split at h
    · simp only [Option.some.injEq, Prod.mk.injEq] at h
      rw [← h.1, ← h.2]
      exact ⟨hb _, fun i => hb i⟩
    · exact absurd h (by simp)

theorem toInt32_of_lt {x : ℤ} (h0 : 0 ≤ x) (h1 : x < 2 ^ 31) : toInt32 x = x := by
  unfold toInt32
  norm_num at h1 ⊢
  have c : x % 4294967296 = x := by omega
  rw [c, if_pos h1]

theorem int31_of_draws (a b : Nat) (hb : b < 2 ^ 32) :
    toInt32 (Int.shiftRight (toInt64 ((((a <<< 32) % 2 ^ 64) ||| b) &&& uintMask)) 32)
      = ((a &&& 0x7fffffff : ℕ) : ℤ) := by
  have e1 : (a <<< 32) % 2 ^ 64 = 2 ^ 32 * (a % 2 ^ 32) := by
    rw [Nat.shiftLeft_eq]
    norm_num
    omega
  have e2 : (2 ^ 32 * (a % 2 ^ 32)) ||| b = 2 ^ 32 * (a % 2 ^ 32) + b :=
    (Nat.mul_add_lt_is_or hb _).symm
  have e3 : ((2 ^ 32 * (a % 2 ^ 32) + b) % 2 ^ 63) >>> 32 = a % 2 ^ 31 := by
    rw [Nat.shiftRight_eq_div_pow]
    have hb' : b < 4294967296 := hb
    show (4294967296 * (a % 4294967296) + b) % 9223372036854775808 / 4294967296
      = a % 2147483648
    omega
  have e4 : a &&& 0x7fffffff = a % 2 ^ 31 := Nat.and_pow_two_sub_one_eq_mod a 31
  have e5 : Int.shiftRight (((2 ^ 32 * (a % 2 ^ 32) + b) % 2 ^ 63 : ℕ) : ℤ) 32
      = ((((2 ^ 32 * (a % 2 ^ 32) + b) % 2 ^ 63) >>> 32 : ℕ) : ℤ) :=
    Int.natCast_shiftRight _ 32
  rw [e1, e2, toInt64_mask_eq, e5, e3, e4]
  apply toInt32_of_lt (Int.natCast_nonneg _)
  have : a % 2 ^ 31 < 2 ^ 31 := Nat.mod_lt _ (by norm_num)
  exact_mod_cast this

theorem Isaac.int31_eq {s s1 s2 : Isaac} {a b : Nat}
    (hb : ∀ i : Fin 256, s.randrsl.get i < 2 ^ 32)
    (h1 : Isaac.Uint32 s = some (a, s1)) (h2 : Isaac.Uint32 s1 = some (b, s2)) :
    Isaac.Int31 s = some (((a &&& 0x7fffffff : ℕ) : ℤ), s2) := by
  have b1 := Isaac.next_bounded hb h1
  have b2 := Isaac.next_bounded b1.2 h2
  unfold Isaac.Int31 Isaac.Int63
  rw [Isaac.uint64_eq_bind, h1, Option.some_bind, h2]
  simp only [Option.map_some', int31_of_draws a b b2.1]

/-- C22: on the 32-bit variant and from a state whose result array holds 32-bit words,
`Int31()` returns the first of two `Uint32()` draws with its top bit cleared
(`draw1 & 0x7fffffff`), whatever the second draw is, and leaves the state the two draws
leave; when the cursor is at most 256 the two draws and `Int31()` return. -/
theorem int31_first_draw (s : Isaac) (hb : ∀ i : Fin 256, s.randrsl.get i < 2 ^ 32) :
    (∀ a s1 b s2, Isaac.Uint32 s = some (a, s1) → Isaac.Uint32 s1 = some (b, s2) →
      Isaac.Int31 s = some (((a &&& 0x7fffffff : ℕ) : ℤ), s2)) ∧
    (s.randcnt ≤ 256 → ∃ a s1 b s2, Isaac.Uint32 s = some (a, s1) ∧
      Isaac.Uint32 s1 = some (b, s2) ∧
      Isaac.Int31 s = some (((a &&& 0x7fffffff : ℕ) : ℤ), s2)) := by
  refine ⟨fun a s1 b s2 h1 h2 => Isaac.int31_eq hb h1 h2, fun hc => ?_⟩
  obtain ⟨a, s1, b, s2, h1, h2, -⟩ := Isaac.uint64_total hc
  exact ⟨a, s1, b, s2, h1, h2, Isaac.int31_eq hb h1 h2⟩

/-- The two draws behind `Int31` on the fresh 32-bit generator. -/
theorem int31_first_draw_witness :
    ((∀ i : Fin 256, NewIsaac.randrsl.get i < 2 ^ 32) ∧ NewIsaac.randcnt ≤ 256) ∧
    ∃ a s1 b s2, Isaac.Uint32 NewIsaac = some (a, s1) ∧ Isaac.Uint32 s1 = some (b, s2) ∧
      Isaac.Int31 NewIsaac = some (((a &&& 0x7fffffff : ℕ) : ℤ), s2) :=
  ⟨⟨fun i => (Words.zero_get i).symm ▸ Nat.two_pow_pos 32, by decide⟩,
    (int31_first_draw NewIsaac (fun i => (Words.zero_get i).symm ▸ Nat.two_pow_pos 32)).2
      (by decide)⟩

end GoIsaac
